import Mathlib

/-!
# laistl: construction, destruction, the uninitialized-range algorithms, iterators,
# the allocator and pair

A shallow embedding of `construct.h`, `uninitialized.h`, `iterator.h`, `allocator.h` and of
`swap` and `pair` of `util.h`. The conventions of the first three parts:

* Iterators over a block of raw storage and over a source sequence are natural-number
  positions; `&*it` is the slot the iterator designates.
* A `Store` holds the destination storage (`mem`, the object stored in every slot, if any),
  the source sequence (`src`), the number of constructor invocations so far and the log of
  lifecycle events in program order.
* A slot holds a live object when an object is stored in it and neither form of `destroy`
  has been applied to it since the object was put there (`live`); what `destroy` does
  physically, running the destructor or nothing, depends on `is_trivially_destructible`.
* An element type is described by the three `std::is_trivially_*` facts the code dispatches
  on, by the constructor invocations that throw, and by the state a value is left in after
  having been moved from.
* A C++ exception is the outcome `Outcome.raised`; a `try`/`catch` is a case split on
  whether the loop of the `try` block was left by an exception.
* Source and destination have the same element type `T`.
* A range `[first, last)` is valid when `last` is reachable from `first`, that is
  `first ≤ last`; a loop `for (; first != last; ++first)` over a valid range runs
  `last - first` times.
-/

namespace laistl

/-- Lifecycle events, logged in program order. -/
inductive Event where
  /-- The placement-new of `construct(ptr, value)` ran at `slot`; `threw` tells whether the
  constructor raised. -/
  | construct (slot : Nat) (threw : Bool)
  /-- The single-object `destroy(Ty*)` was called with `pointer` (`none` is `nullptr`). -/
  | destroy (pointer : Option Nat)
  /-- The range form `destroy(first, last)` was called. -/
  | destroy_range (first last : Nat)
  /-- The destructor call `pointer->~Ty()` ran on `slot`. -/
  | dtor (slot : Nat)
  /-- A bulk operation of `algobase.h` wrote `slot` by assignment. -/
  | assign (slot : Nat)
  deriving DecidableEq, Repr

/-- What the code knows about the element type `T`. -/
structure ElemType (T : Type) where
  /-- The value of `std::is_trivially_copy_assignable<T>`. -/
  is_trivially_copy_assignable : Bool
  /-- The value of `std::is_trivially_move_assignable<T>`. -/
  is_trivially_move_assignable : Bool
  /-- The value of `std::is_trivially_destructible<T>`. -/
  is_trivially_destructible : Bool
  /-- Whether the constructor invocation with the given number (counted from the start of
  the run) throws. -/
  ctor_throws : Nat → Bool
  /-- The valid state a value is left in once it has been moved from. -/
  moved_from : T → T

/-- The program state the algorithms act on. -/
@[ext]
structure Store (T : Type) where
  /-- Destination storage: the object stored in each slot (put there by a construction or
  an assignment and not removed by a destructor since), `none` for raw storage. -/
  mem : Nat → Option T
  /-- The source sequence, read through input iterators. -/
  src : Nat → T
  /-- Number of constructor invocations so far. -/
  ctor_calls : Nat
  /-- Lifecycle events so far, oldest first. -/
  log : List Event

/-- How a call ends. -/
inductive Outcome where
  /-- A `return` statement was executed with this iterator. -/
  | returned (pos : Nat)
  /-- Control reached the closing brace of the function without executing a `return`
  statement. This is the normal end of a `void` function. For a function declared to return
  a value it is undefined behaviour: no value is handed to the caller, and the store paired
  with this outcome is the store at the closing brace, not a state the caller may rely on
  (see `Outcome.defined`). -/
  | finished
  /-- An exception left the function. -/
  | raised
  deriving DecidableEq, Repr

/-- Whether a call that ended with this outcome has defined behaviour, for a function
declared to return a value (`value_returning = true`) or declared `void`: flowing off the
end of a value-returning function is undefined behaviour, every other end is defined. -/
def Outcome.defined (value_returning : Bool) : Outcome → Bool
  | Outcome.finished => !value_returning
  | _ => true

variable {T : Type}

/-! ## construct.h -/

/-- `construct(Ty1* ptr, const Ty2& value)`: `::new((void*)ptr) Ty1(value)`.
The result flag tells whether the constructor threw; in that case no object lives at
`ptr`. -/
def construct (E : ElemType T) (ptr : Nat) (value : T) (st : Store T) : Store T × Bool :=
  if E.ctor_throws st.ctor_calls then
    ({ st with
        mem := Function.update st.mem ptr none
        ctor_calls := st.ctor_calls + 1
        log := st.log ++ [Event.construct ptr true] }, true)
  else
    ({ st with
        mem := Function.update st.mem ptr (some value)
        ctor_calls := st.ctor_calls + 1
        log := st.log ++ [Event.construct ptr false] }, false)

/-- `destroy_one(Ty*, std::true_type)` has an empty body; `destroy_one(Ty* pointer,
std::false_type)` runs `pointer->~Ty()` when `pointer != nullptr`. The flag is the tag. -/
def destroy_one (pointer : Option Nat) (trivial : Bool) (st : Store T) : Store T :=
  match trivial, pointer with
  | true, _ => st
  | false, none => st
  | false, some p =>
    { st with mem := Function.update st.mem p none, log := st.log ++ [Event.dtor p] }

/-- `destroy(Ty* pointer)`: `destroy_one(pointer, std::is_trivially_destructible<Ty>{})`. -/
def destroy (E : ElemType T) (pointer : Option Nat) (st : Store T) : Store T :=
  destroy_one pointer E.is_trivially_destructible
    { st with log := st.log ++ [Event.destroy pointer] }

/-- The loop `for (; first != last; ++first) destroy(&*first);` with `count` iterations
left, `count` being the number of steps from `first` to `last`. -/
def destroy_forward (E : ElemType T) : Nat → Nat → Store T → Store T
  | 0, _, st => st
  | count + 1, first, st => destroy_forward E count (first + 1) (destroy E (some first) st)

/-- `destroy_cat(ForwardIter, ForwardIter, std::true_type)` has an empty body;
`destroy_cat(first, last, std::false_type)` destroys every element of `[first, last)`.
On a valid range `last` is `last - first` steps after `first`. -/
def destroy_cat (E : ElemType T) (first last : Nat) (trivial : Bool) (st : Store T) :
    Store T :=
  if trivial then st else destroy_forward E (last - first) first st

/-- The range form `destroy(ForwardIter first, ForwardIter last)`:
`destroy_cat(first, last, std::is_trivially_destructible<value_type>{})`. -/
def destroy_range (E : ElemType T) (first last : Nat) (st : Store T) : Store T :=
  destroy_cat E first last E.is_trivially_destructible
    { st with log := st.log ++ [Event.destroy_range first last] }

/-! ## algobase.h (not part of the sources at hand) -/

/-- Modelled from the spec: the bulk operations `copy`, `copy_n`, `move`, `fill` and
`fill_n` of `algobase.h`, which the trivial paths call and which are missing from the
sources. The spec describes the trivial path as "a bulk value-transfer (equivalent to
copying/overwriting raw bytes or assigning through already-valid storage) with no
per-element construction bookkeeping": the `count` slots from `result` on receive the values
`value 0`, `value 1`, ... by assignment; no constructor and no destructor runs. -/
def bulk_transfer (count result : Nat) (value : Nat → T) (st : Store T) : Store T :=
  { st with
      mem := fun p => if result ≤ p ∧ p < result + count then some (value (p - result))
                      else st.mem p
      log := st.log ++ (List.range count).map (fun i => Event.assign (result + i)) }

/-- Modelled from the spec: `laistl::copy(first, last, result)` of `algobase.h`, a bulk
value-transfer returning the end of the output. -/
def copy (first last result : Nat) (st : Store T) : Store T × Nat :=
  (bulk_transfer (last - first) result (fun i => st.src (first + i)) st,
   result + (last - first))

/-- Modelled from the spec: `laistl::copy_n(first, n, result)` of `algobase.h`, a bulk
value-transfer returning the pair of the two end positions. -/
def copy_n (first : Nat) (n : Int) (result : Nat) (st : Store T) : Store T × (Nat × Nat) :=
  (bulk_transfer n.toNat result (fun i => st.src (first + i)) st,
   (first + n.toNat, result + n.toNat))

/-- Modelled from the spec: the range algorithm `laistl::move(first, last, result)` of
`algobase.h`, a bulk value-transfer returning the end of the output. -/
def move (first last result : Nat) (st : Store T) : Store T × Nat :=
  (bulk_transfer (last - first) result (fun i => st.src (first + i)) st,
   result + (last - first))

/-- Modelled from the spec: `laistl::fill(first, last, value)` of `algobase.h`. -/
def fill (first last : Nat) (value : T) (st : Store T) : Store T :=
  bulk_transfer (last - first) first (fun _ => value) st

/-- Modelled from the spec: `laistl::fill_n(first, n, value)` of `algobase.h`, returning the
end of the filled range. -/
def fill_n (first : Nat) (n : Int) (value : T) (st : Store T) : Store T × Nat :=
  (bulk_transfer n.toNat first (fun _ => value) st, first + n.toNat)

/-! ## uninitialized.h: the loops of the `try` blocks -/

/-- The loop body `construct(&*cur, *first)` followed by `++first, ++cur`, repeated `count`
times unless a constructor throws. Used for `for (; first != last; ++first, ++cur)`, where
`count` is the number of steps from `first` to `last`, and for
`for (; n > 0; --n, ++first, ++cur)`. Returns the store, the final `cur`, and whether an
exception left the loop. -/
def copy_loop (E : ElemType T) : Nat → Nat → Nat → Store T → Store T × Nat × Bool
  | 0, _, cur, st => (st, cur, false)
  | count + 1, first, cur, st =>
    match construct E cur (st.src first) st with
    | (st1, true) => (st1, cur, true)
    | (st1, false) => copy_loop E count (first + 1) (cur + 1) st1

/-- The loop body `construct(&*cur, laistl::move(*first))` followed by `++first, ++cur`,
repeated `count` times unless a constructor throws. `laistl::move` is a cast to an rvalue;
the object at `cur` is constructed from the value of the source element, and a successful
move construction leaves the source element in its moved-from state. -/
def move_loop (E : ElemType T) : Nat → Nat → Nat → Store T → Store T × Nat × Bool
  | 0, _, cur, st => (st, cur, false)
  | count + 1, first, cur, st =>
    match construct E cur (st.src first) st with
    | (st1, true) => (st1, cur, true)
    | (st1, false) =>
      move_loop E count (first + 1) (cur + 1)
        { st1 with src := Function.update st1.src first (E.moved_from (st.src first)) }

/-- The loop body `construct(&*cur, value)` followed by `++cur`, repeated `count` times
unless a constructor throws. -/
def fill_loop (E : ElemType T) (value : T) : Nat → Nat → Store T → Store T × Nat × Bool
  | 0, cur, st => (st, cur, false)
  | count + 1, cur, st =>
    match construct E cur value st with
    | (st1, true) => (st1, cur, true)
    | (st1, false) => fill_loop E value count (cur + 1) st1

/-! ## uninitialized.h: the loops of the `catch` blocks -/

/-- The handler loop of the copy forms, `for (; result != cur; --cur) destroy(&*cur);`,
by recursion on `cur`. Returns the store and the final `cur`. (`cur` never lies before
`result` when the handler is entered.) -/
def copy_rollback (E : ElemType T) (result : Nat) : Nat → Store T → Store T × Nat
  | 0, st => (st, 0)
  | cur + 1, st =>
    if result = cur + 1 then (st, cur + 1)
    else copy_rollback E result cur (destroy E (some (cur + 1)) st)

/-- The handler loop of `unchecked_uninit_move_n`,
`for (; result != cur; ++result) destroy(result, cur);`, with `count` iterations left. -/
def move_n_rollback (E : ElemType T) (cur : Nat) : Nat → Nat → Store T → Store T
  | 0, _, st => st
  | count + 1, result, st =>
    move_n_rollback E cur count (result + 1) (destroy_range E result cur st)

/-! ## uninitialized.h: the algorithms

An input range `[first, last)` is valid when `first ≤ last`; the loops over it then run
`last - first` times. A count `n` is a signed integer; the loops `for (; n > 0; --n, ...)`
run `n.toNat` times. -/

/-- `unchecked_uninit_copy(first, last, result, std::true_type)`. -/
def unchecked_uninit_copy_trivial (first last result : Nat) (st : Store T) :
    Store T × Outcome :=
  ((copy first last result st).1, Outcome.returned (copy first last result st).2)

/-- `unchecked_uninit_copy(first, last, result, std::false_type)`. The handler does not
rethrow: after it, control reaches `return cur`. -/
def unchecked_uninit_copy (E : ElemType T) (first last result : Nat) (st : Store T) :
    Store T × Outcome :=
  match copy_loop E (last - first) first result st with
  | (st1, cur, false) => (st1, Outcome.returned cur)
  | (st1, cur, true) =>
    ((copy_rollback E result cur st1).1, Outcome.returned (copy_rollback E result cur st1).2)

/-- `uninitialized_copy(first, last, result)`. -/
def uninitialized_copy (E : ElemType T) (first last result : Nat) (st : Store T) :
    Store T × Outcome :=
  if E.is_trivially_copy_assignable then unchecked_uninit_copy_trivial first last result st
  else unchecked_uninit_copy E first last result st

/-- `unchecked_uninit_copy_n(first, n, result, std::true_type)`:
`copy_n(first, n, result).second`. -/
def unchecked_uninit_copy_n_trivial (first : Nat) (n : Int) (result : Nat) (st : Store T) :
    Store T × Outcome :=
  ((copy_n first n result st).1, Outcome.returned (copy_n first n result st).2.2)

/-- `unchecked_uninit_copy_n(first, n, result, std::false_type)`. -/
def unchecked_uninit_copy_n (E : ElemType T) (first : Nat) (n : Int) (result : Nat)
    (st : Store T) : Store T × Outcome :=
  match copy_loop E n.toNat first result st with
  | (st1, cur, false) => (st1, Outcome.returned cur)
  | (st1, cur, true) =>
    ((copy_rollback E result cur st1).1, Outcome.returned (copy_rollback E result cur st1).2)

/-- `uninitialized_copy_n(first, n, result)`. -/
def uninitialized_copy_n (E : ElemType T) (first : Nat) (n : Int) (result : Nat)
    (st : Store T) : Store T × Outcome :=
  if E.is_trivially_copy_assignable then unchecked_uninit_copy_n_trivial first n result st
  else unchecked_uninit_copy_n E first n result st

/-- `unchecked_uninit_fill(first, last, value, std::true_type)`. -/
def unchecked_uninit_fill_trivial (first last : Nat) (value : T) (st : Store T) :
    Store T × Outcome :=
  (fill first last value st, Outcome.finished)

/-- `unchecked_uninit_fill(first, last, value, std::false_type)`, a `void` function. -/
def unchecked_uninit_fill (E : ElemType T) (first last : Nat) (value : T) (st : Store T) :
    Store T × Outcome :=
  match fill_loop E value (last - first) first st with
  | (st1, _, false) => (st1, Outcome.finished)
  | (st1, cur, true) => (destroy_forward E (cur - first) first st1, Outcome.finished)

/-- `uninitialized_fill(first, last, value)`. -/
def uninitialized_fill (E : ElemType T) (first last : Nat) (value : T) (st : Store T) :
    Store T × Outcome :=
  if E.is_trivially_copy_assignable then unchecked_uninit_fill_trivial first last value st
  else unchecked_uninit_fill E first last value st

/-- `unchecked_uninit_fill_n(first, n, value, std::true_type)`. -/
def unchecked_uninit_fill_n_trivial (first : Nat) (n : Int) (value : T) (st : Store T) :
    Store T × Outcome :=
  ((fill_n first n value st).1, Outcome.returned (fill_n first n value st).2)

/-- `unchecked_uninit_fill_n(first, n, value, std::false_type)`. -/
def unchecked_uninit_fill_n (E : ElemType T) (first : Nat) (n : Int) (value : T)
    (st : Store T) : Store T × Outcome :=
  match fill_loop E value n.toNat first st with
  | (st1, cur, false) => (st1, Outcome.returned cur)
  | (st1, cur, true) => (destroy_forward E (cur - first) first st1, Outcome.returned cur)

/-- `uninitialized_fill_n(first, n, value)`. Its body is the call of
`unchecked_uninit_fill_n` as an expression statement: the iterator that call returns is
dropped and the closing brace is reached without a `return`. The function is declared to
return `ForwardIter`, so reaching the closing brace is undefined behaviour
(`Outcome.defined true Outcome.finished = false`): the first component is the store at the
closing brace, and nothing is guaranteed of the storage the caller finds afterwards. -/
def uninitialized_fill_n (E : ElemType T) (first : Nat) (n : Int) (value : T)
    (st : Store T) : Store T × Outcome :=
  match (if E.is_trivially_copy_assignable then unchecked_uninit_fill_n_trivial first n value st
         else unchecked_uninit_fill_n E first n value st) with
  | (st1, Outcome.raised) => (st1, Outcome.raised)
  | (st1, _) => (st1, Outcome.finished)

/-- `unchecked_uninit_move(first, last, result, std::true_type)`. -/
def unchecked_uninit_move_trivial (first last result : Nat) (st : Store T) :
    Store T × Outcome :=
  ((move first last result st).1, Outcome.returned (move first last result st).2)

/-- `unchecked_uninit_move(first, last, result, std::false_type)`. -/
def unchecked_uninit_move (E : ElemType T) (first last result : Nat) (st : Store T) :
    Store T × Outcome :=
  match move_loop E (last - first) first result st with
  | (st1, cur, false) => (st1, Outcome.returned cur)
  | (st1, cur, true) => (destroy_range E result cur st1, Outcome.returned cur)

/-- `uninitialized_move(first, last, result)`. -/
def uninitialized_move (E : ElemType T) (first last result : Nat) (st : Store T) :
    Store T × Outcome :=
  if E.is_trivially_move_assignable then unchecked_uninit_move_trivial first last result st
  else unchecked_uninit_move E first last result st

/-- `unchecked_uninit_move_n(first, n, result, std::true_type)`:
`laistl::move(first, first + n, result)`. -/
def unchecked_uninit_move_n_trivial (first : Nat) (n : Int) (result : Nat) (st : Store T) :
    Store T × Outcome :=
  ((move first ((first : Int) + n).toNat result st).1,
   Outcome.returned (move first ((first : Int) + n).toNat result st).2)

/-- `unchecked_uninit_move_n(first, n, result, std::false_type)`. The handler ends in
`throw;`. -/
def unchecked_uninit_move_n (E : ElemType T) (first : Nat) (n : Int) (result : Nat)
    (st : Store T) : Store T × Outcome :=
  match move_loop E n.toNat first result st with
  | (st1, cur, false) => (st1, Outcome.returned cur)
  | (st1, cur, true) => (move_n_rollback E cur (cur - result) result st1, Outcome.raised)

/-- `uninitialized_move_n(first, n, result)`. -/
def uninitialized_move_n (E : ElemType T) (first : Nat) (n : Int) (result : Nat)
    (st : Store T) : Store T × Outcome :=
  if E.is_trivially_move_assignable then unchecked_uninit_move_n_trivial first n result st
  else unchecked_uninit_move_n E first n result st

/-! ## Observations on a store -/

/-- Whether the event ends the lifetime of the object in `slot`: the single-object
`destroy` applied to the slot, the range form applied to a range that contains the slot
(both end the lifetime of an object, for a trivially destructible type without running any
code), or a destructor run on the slot. -/
def Event.ends_lifetime (slot : Nat) : Event → Bool
  | Event.destroy pointer => decide (pointer = some slot)
  | Event.destroy_range first last => decide (first ≤ slot ∧ slot < last)
  | Event.dtor q => decide (q = slot)
  | Event.construct _ _ => false
  | Event.assign _ => false

/-- Whether the event puts, or tries to put, a new object into `slot`. -/
def Event.writes (slot : Nat) : Event → Bool
  | Event.construct q _ => decide (q = slot)
  | Event.assign q => decide (q = slot)
  | Event.destroy _ => false
  | Event.destroy_range _ _ => false
  | Event.dtor _ => false

/-- One step of following the lifetime of the object in `slot` through the log: `ended`
tells whether the lifetime of the last object put into the slot has been ended. -/
def lifetime_step (slot : Nat) (ended : Bool) (e : Event) : Bool :=
  if e.ends_lifetime slot then true else if e.writes slot then false else ended

/-- Whether, after the events of `log`, the lifetime of the last object put into `slot` has
been ended, `ended` being the state before them. -/
def destroyed_from (slot : Nat) (ended : Bool) (log : List Event) : Bool :=
  log.foldl (lifetime_step slot) ended

/-- Whether a live object occupies `slot`: an object is stored there and its lifetime has
not been ended since it was put there. -/
def live (st : Store T) (slot : Nat) : Bool :=
  (st.mem slot).isSome && !(destroyed_from slot false st.log)

/-- Whether the event is a call of the range form of `destroy` on a range containing
`slot`. -/
def Event.range_covers (slot : Nat) : Event → Bool
  | Event.destroy_range first last => decide (first ≤ slot ∧ slot < last)
  | _ => false

/-- How often the range form of `destroy` has been applied to a range containing `slot`. -/
def range_destroys (st : Store T) (slot : Nat) : Nat :=
  st.log.countP (Event.range_covers slot)

/-- How often the destructor has run on `slot`. -/
def dtor_runs (st : Store T) (slot : Nat) : Nat := st.log.count (Event.dtor slot)

/-- How often the single-object `destroy` has been applied to `slot`. -/
def destroy_calls (st : Store T) (slot : Nat) : Nat :=
  st.log.count (Event.destroy (some slot))

/-- How often an object has been put into `slot`, by a construction (successful or not)
or by an assignment. -/
def writes_to (st : Store T) (slot : Nat) : Nat :=
  st.log.countP (Event.writes slot)

/-- Whether the event is a destructor run. -/
def Event.is_dtor : Event → Bool
  | Event.dtor _ => true
  | _ => false

/-! ## Concrete element types and stores used in the examples -/

/-- Raw storage, a source sequence `10, 11, 12, ...`, nothing logged. -/
def raw_store : Store Nat :=
  { mem := fun _ => none, src := fun i => 10 + i, ctor_calls := 0, log := [] }

/-- An element type with a non-trivial destructor and non-trivial assignment whose
constructor throws at invocation number `k`. -/
def throwing_at (k : Nat) : ElemType Nat :=
  { is_trivially_copy_assignable := false
    is_trivially_move_assignable := false
    is_trivially_destructible := false
    ctor_throws := fun i => i == k
    moved_from := fun _ => 0 }

/-- An element type with non-trivial assignment and a trivial destructor whose constructor
throws at invocation number `k`. -/
def throwing_at_trivial_dtor (k : Nat) : ElemType Nat :=
  { is_trivially_copy_assignable := false
    is_trivially_move_assignable := false
    is_trivially_destructible := true
    ctor_throws := fun i => i == k
    moved_from := fun _ => 0 }

/-- An element type with a non-trivial destructor and non-trivial assignment whose
constructor never throws. -/
def never_throwing : ElemType Nat :=
  { is_trivially_copy_assignable := false
    is_trivially_move_assignable := false
    is_trivially_destructible := false
    ctor_throws := fun _ => false
    moved_from := fun _ => 0 }

/-- An element type that is not trivial (its destructor is user-provided) but whose
assignment operators are the implicit, trivial ones; its constructor never throws. -/
def assignable_with_destructor : ElemType Nat :=
  { is_trivially_copy_assignable := true
    is_trivially_move_assignable := true
    is_trivially_destructible := false
    ctor_throws := fun _ => false
    moved_from := fun v => v }

/-- A trivial element type (the destination of the bulk paths). -/
def trivial_type : ElemType Nat :=
  { is_trivially_copy_assignable := true
    is_trivially_move_assignable := true
    is_trivially_destructible := true
    ctor_throws := fun _ => false
    moved_from := fun v => v }

/-! ## Event lists written by the loops -/

/-- The events of `count` successful constructions at the slots from `cur` on. -/
def ok_events : Nat → Nat → List Event
  | 0, _ => []
  | count + 1, cur => Event.construct cur false :: ok_events count (cur + 1)

/-- The events of applying the single-object `destroy` to the `count` slots from `first`
on, in ascending order. -/
def destroy_events (trivial : Bool) : Nat → Nat → List Event
  | 0, _ => []
  | count + 1, first =>
    Event.destroy (some first) ::
      ((if trivial then [] else [Event.dtor first]) ++ destroy_events trivial count (first + 1))

/-! ## Postconditions -/

/-- The rollback postcondition for the `k` slots from `first` on, between the store `st`
before the call and the store `st1` after it: the single-object `destroy` was applied
exactly once to each slot of `[first, first + k)` and to no other slot, and no slot of the
range holds a live object in `st1`. -/
def rolled_back (st st1 : Store T) (first k : Nat) : Prop :=
  (∀ p, destroy_calls st1 p
      = destroy_calls st p + (if first ≤ p ∧ p < first + k then 1 else 0)) ∧
  (∀ p, first ≤ p → p < first + k → live st1 p = false)

/-- The rollback postcondition through the range form of `destroy`: between `st` and `st1`
exactly one range call covers each slot of `[first, first + k)`, none covers any other slot,
and no slot of the range holds a live object in `st1`. -/
def rolled_back_by_range (st st1 : Store T) (first k : Nat) : Prop :=
  (∀ p, range_destroys st1 p
      = range_destroys st p + (if first ≤ p ∧ p < first + k then 1 else 0)) ∧
  (∀ p, first ≤ p → p < first + k → live st1 p = false)

/-- What rollback leaves behind physically: between `st` and `st1` the destructor ran
exactly once on each slot of `[first, first + k)` and on no other slot, and the slots of the
range store no object in `st1`. -/
def destructors_ran (st st1 : Store T) (first k : Nat) : Prop :=
  (∀ p, dtor_runs st1 p = dtor_runs st p + (if first ≤ p ∧ p < first + k then 1 else 0)) ∧
  (∀ p, first ≤ p → p < first + k → st1.mem p = none)

/-- The success postcondition of a fill of the `n` slots from `first` on with `value`,
between the store `st` before the call and the store `st1` after it: every slot of
`[first, first + n)` holds a live object equal to `value` that was put there exactly once,
and every slot outside the range is as before. -/
def filled (st st1 : Store T) (first n : Nat) (value : T) : Prop :=
  (∀ i, i < n → st1.mem (first + i) = some value ∧ live st1 (first + i) = true) ∧
  (∀ p, ¬ (first ≤ p ∧ p < first + n) → st1.mem p = st.mem p ∧ live st1 p = live st p) ∧
  (∀ p, writes_to st1 p = writes_to st p + (if first ≤ p ∧ p < first + n then 1 else 0))

/-! ## uninitialized.h: dispatch when source and destination element types differ

The wrappers above describe the case of one element type. Here the value type of the source
iterator (`InputIter`) is described by `S` and the value type of the destination iterator
(`ForwardIter`) by `E`; each wrapper tests the trait of the iterator type the source code
names. `uninitialized_fill` and `uninitialized_fill_n` have no source iterator. -/

/-- `uninitialized_copy`: dispatches on
`std::is_trivially_copy_assignable<iterator_traits<ForwardIter>::value_type>`. -/
def uninitialized_copy_from (_S E : ElemType T) (first last result : Nat) (st : Store T) :
    Store T × Outcome :=
  if E.is_trivially_copy_assignable then unchecked_uninit_copy_trivial first last result st
  else unchecked_uninit_copy E first last result st

/-- `uninitialized_copy_n`: dispatches on
`std::is_trivially_copy_assignable<iterator_traits<InputIter>::value_type>`. -/
def uninitialized_copy_n_from (S E : ElemType T) (first : Nat) (n : Int) (result : Nat)
    (st : Store T) : Store T × Outcome :=
  if S.is_trivially_copy_assignable then unchecked_uninit_copy_n_trivial first n result st
  else unchecked_uninit_copy_n E first n result st

/-- `uninitialized_move`: dispatches on
`std::is_trivially_move_assignable<iterator_traits<InputIter>::value_type>`. -/
def uninitialized_move_from (S E : ElemType T) (first last result : Nat) (st : Store T) :
    Store T × Outcome :=
  if S.is_trivially_move_assignable then unchecked_uninit_move_trivial first last result st
  else unchecked_uninit_move E first last result st

/-- `uninitialized_move_n`: dispatches on
`std::is_trivially_move_assignable<iterator_traits<InputIter>::value_type>`. -/
def uninitialized_move_n_from (S E : ElemType T) (first : Nat) (n : Int) (result : Nat)
    (st : Store T) : Store T × Outcome :=
  if S.is_trivially_move_assignable then unchecked_uninit_move_n_trivial first n result st
  else unchecked_uninit_move_n E first n result st

/-! ## iterator.h: category tags and overload selection -/

/-- The five iterator category tags. -/
inductive iterator_tag where
  | input_iterator_tag
  | output_iterator_tag
  | forward_iterator_tag
  | bidirectional_iterator_tag
  | random_access_iterator_tag
  deriving DecidableEq, Repr

open iterator_tag

/-- A tag struct followed by its public base classes, nearest first:
`forward_iterator_tag : input_iterator_tag`,
`bidirectional_iterator_tag : forward_iterator_tag`,
`random_access_iterator_tag : bidirectional_iterator_tag`. -/
def iterator_tag.bases : iterator_tag → List iterator_tag
  | input_iterator_tag => [input_iterator_tag]
  | output_iterator_tag => [output_iterator_tag]
  | forward_iterator_tag => [forward_iterator_tag, input_iterator_tag]
  | bidirectional_iterator_tag =>
    [bidirectional_iterator_tag, forward_iterator_tag, input_iterator_tag]
  | random_access_iterator_tag =>
    [random_access_iterator_tag, bidirectional_iterator_tag, forward_iterator_tag,
     input_iterator_tag]

/-- Overload resolution for a call whose last argument is a tag object of type `tag`, among
overloads whose last parameter has one of the types `overloads`: the overload reached by
the shortest derived-to-base conversion, `none` when no overload is viable (the call is
ill-formed). -/
def select_overload (overloads : List iterator_tag) (tag : iterator_tag) :
    Option iterator_tag :=
  tag.bases.find? (fun t => decide (t ∈ overloads))

/-- The member `iterator_category` of `iterator_traits<T*>` and `iterator_traits<const T*>`. -/
def pointer_iterator_category : iterator_tag := random_access_iterator_tag

/-! ## iterator.h: distance and advance

An iterator type `I` is given by its operations. The loops take a bound `fuel` on the
number of iterations and yield `none` when the bound is reached before the loop ends.
A distance is a mathematical integer: signed overflow has no defined behaviour to model. -/

/-- The operations of an iterator type: `++i`, `--i`, `i += n` and `last - first`
(`sub last first`). An algorithm only uses the operations its overload is written with. -/
structure IterOps (I : Type) where
  next : I → I
  prev : I → I
  add : I → Int → I
  sub : I → I → Int

variable {I : Type}

/-- The loop `while (first != last) { ++first; ++n; }` followed by `return n`. -/
def distance_loop [DecidableEq I] (ops : IterOps I) : Nat → I → I → Int → Option Int
  | 0, first, last, n => if first = last then some n else none
  | fuel + 1, first, last, n =>
    if first = last then some n else distance_loop ops fuel (ops.next first) last (n + 1)

/-- `distance_dispatch(first, last, input_iterator_tag)`: `n = 0`, then the loop. -/
def distance_dispatch_input [DecidableEq I] (ops : IterOps I) (fuel : Nat) (first last : I) :
    Option Int :=
  distance_loop ops fuel first last 0

/-- `distance_dispatch(first, last, random_access_iterator_tag)`: `return last - first`
(the local `n` declared before it is not used). -/
def distance_dispatch_random_access (ops : IterOps I) (first last : I) : Int :=
  ops.sub last first

/-- `distance(first, last)`: `distance_dispatch(first, last, iterator_category(first))`,
`tag` being the category of the iterator type. -/
def distance [DecidableEq I] (ops : IterOps I) (tag : iterator_tag) (fuel : Nat)
    (first last : I) : Option Int :=
  match select_overload [input_iterator_tag, random_access_iterator_tag] tag with
  | some random_access_iterator_tag => some (distance_dispatch_random_access ops first last)
  | some _ => distance_dispatch_input ops fuel first last
  | none => none

/-- The loop `while (n--) ++i;`, the counter `n` being the mathematical value of the
`Distance` argument. It describes the source as long as the counter stays inside the range
of `Distance`, which it does for every `n ≥ 0` (the counter only falls to 0). For `n < 0`
the counter of the source reaches the least value of `Distance`; that case is described by
`advance_forward_loop_fixed`. -/
def advance_forward_loop (ops : IterOps I) : Nat → I → Int → Option I
  | 0, i, n => if n = 0 then some i else none
  | fuel + 1, i, n =>
    if n = 0 then some i else advance_forward_loop ops fuel (ops.next i) (n - 1)

/-- The loop `while (n++) --i;`. -/
def advance_backward_loop (ops : IterOps I) : Nat → I → Int → Option I
  | 0, i, n => if n = 0 then some i else none
  | fuel + 1, i, n =>
    if n = 0 then some i else advance_backward_loop ops fuel (ops.prev i) (n + 1)

/-- `advance_dispatch(i, n, input_iterator_tag)`; the result is the final value of `i`. -/
def advance_dispatch_input (ops : IterOps I) (fuel : Nat) (i : I) (n : Int) : Option I :=
  advance_forward_loop ops fuel i n

/-- `advance_dispatch(i, n, bidirectional_iterator_tag)`. -/
def advance_dispatch_bidirectional (ops : IterOps I) (fuel : Nat) (i : I) (n : Int) :
    Option I :=
  if n ≥ 0 then advance_forward_loop ops fuel i n else advance_backward_loop ops fuel i n

/-- `advance_dispatch(i, n, random_access_iterator_tag)`: `i += n`. -/
def advance_dispatch_random_access (ops : IterOps I) (i : I) (n : Int) : I :=
  ops.add i n

/-- `advance(i, n)`: `advance_dispatch(i, n, iterator_category(i))`. -/
def advance (ops : IterOps I) (tag : iterator_tag) (fuel : Nat) (i : I) (n : Int) :
    Option I :=
  match select_overload
      [input_iterator_tag, bidirectional_iterator_tag, random_access_iterator_tag] tag with
  | some random_access_iterator_tag => some (advance_dispatch_random_access ops i n)
  | some bidirectional_iterator_tag => advance_dispatch_bidirectional ops fuel i n
  | some _ => advance_dispatch_input ops fuel i n
  | none => none

/-- The value a signed integer type of `bits` bits holds after the mathematical value `n`
has been stored in it (two's complement: `n` is reduced modulo `2 ^ bits` into
`[-2 ^ (bits - 1), 2 ^ (bits - 1))`). -/
def wrap_signed (bits : Nat) (n : Int) : Int :=
  (n + ((2 ^ (bits - 1) : Nat) : Int)) % ((2 ^ bits : Nat) : Int)
    - ((2 ^ (bits - 1) : Nat) : Int)

/-- The loop `while (n--) ++i;` when `Distance` is a signed integer type of `bits` bits
that is narrower than `int` (`signed char`, `short`): `n--` computes `n - 1` in `int` and
stores it back into `n`, which reduces it modulo `2 ^ bits`. For `int` and wider types the
decrement of the least value overflows, which is undefined; this definition does not
describe them. -/
def advance_forward_loop_fixed (ops : IterOps I) (bits : Nat) : Nat → I → Int → Option I
  | 0, i, n => if n = 0 then some i else none
  | fuel + 1, i, n =>
    if n = 0 then some i
    else advance_forward_loop_fixed ops bits fuel (ops.next i) (wrap_signed bits (n - 1))

/-- `advance_dispatch(i, n, input_iterator_tag)` with `Distance` a signed integer type of
`bits` bits narrower than `int`; the result is the final value of `i`. -/
def advance_dispatch_input_fixed (ops : IterOps I) (bits : Nat) (fuel : Nat) (i : I)
    (n : Int) : Option I :=
  advance_forward_loop_fixed ops bits fuel i n

/-- What a random-access iterator type guarantees about `i += n` and `last - first`:
an offset by `k ≥ 0` is `k` increments, an offset by `-k` is `k` decrements, and the
difference undoes the offset. -/
structure random_access_laws (ops : IterOps I) : Prop where
  add_nat : ∀ (i : I) (k : Nat), ops.add i (k : Int) = ops.next^[k] i
  add_neg : ∀ (i : I) (k : Nat), ops.add i (-(k : Int)) = ops.prev^[k] i
  sub_add : ∀ (i : I) (n : Int), ops.sub (ops.add i n) i = n

/-- Raw pointers into an array, as integer positions. -/
def pointer_ops : IterOps Int :=
  { next := fun i => i + 1, prev := fun i => i - 1, add := fun i n => i + n,
    sub := fun a b => a - b }

/-- A call-counting stand-in iterator: the state is the number of increments and the number
of decrements applied so far; it supports no offset and no difference. -/
def counting_ops : IterOps (Nat × Nat) :=
  { next := fun c => (c.1 + 1, c.2), prev := fun c => (c.1, c.2 + 1), add := fun c _ => c,
    sub := fun _ _ => 0 }

/-- A forward iterator over a cycle of three positions. -/
def cyclic_ops : IterOps (Fin 3) :=
  { next := fun i => i + 1, prev := fun i => i - 1, add := fun i _ => i,
    sub := fun _ _ => 0 }

/-! ## allocator.h

The host's `::operator new` and `::operator delete` are outside the library. The heap is
the list of the calls made to them so far; `host` tells, from that list and the number of
bytes asked for, the address `::operator new` returns, or `none` when it throws. A pointer
is `some address` or `none` for `nullptr`; `sizeof_T` is `sizeof(T)`, and `size_type` is
`size_t`, 64 bits wide. -/

/-- A call to the host's allocation functions. -/
inductive HeapCall where
  | operator_new (bytes : Nat)
  | operator_delete (address : Nat)
  deriving DecidableEq, Repr

/-- How a call of `allocate` ends. -/
inductive Allocated where
  /-- The call returned this pointer. -/
  | returned (pointer : Option Nat)
  /-- The exception of `::operator new` left the call. -/
  | raised
  deriving DecidableEq, Repr

/-- `::operator new(bytes)`. -/
def operator_new (host : List HeapCall → Nat → Option Nat) (bytes : Nat)
    (heap : List HeapCall) : List HeapCall × Allocated :=
  match host heap bytes with
  | some address => (heap ++ [HeapCall.operator_new bytes], Allocated.returned (some address))
  | none => (heap ++ [HeapCall.operator_new bytes], Allocated.raised)

/-- `allocator<T>::allocate()`: `::operator new(sizeof(T))`. -/
def allocator.allocate_one (host : List HeapCall → Nat → Option Nat) (sizeof_T : Nat)
    (heap : List HeapCall) : List HeapCall × Allocated :=
  operator_new host sizeof_T heap

/-- `allocator<T>::allocate(size_type n)`: `nullptr` for `n == 0`, else
`::operator new(n * sizeof(T))`. -/
def allocator.allocate (host : List HeapCall → Nat → Option Nat) (sizeof_T : Nat) (n : Nat)
    (heap : List HeapCall) : List HeapCall × Allocated :=
  if n = 0 then (heap, Allocated.returned none)
  else operator_new host ((n * sizeof_T) % 2 ^ 64) heap

/-- `allocator<T>::deallocate(T* ptr)`: nothing for `nullptr`, else
`::operator delete(ptr)`. -/
def allocator.deallocate (ptr : Option Nat) (heap : List HeapCall) : List HeapCall :=
  match ptr with
  | none => heap
  | some address => heap ++ [HeapCall.operator_delete address]

/-- `allocator<T>::deallocate(T* ptr, size_type)`: the same, the count is not used. -/
def allocator.deallocate_n (ptr : Option Nat) (_n : Nat) (heap : List HeapCall) :
    List HeapCall :=
  match ptr with
  | none => heap
  | some address => heap ++ [HeapCall.operator_delete address]

/-- A host that hands out the address 4096 plus the number of calls so far and never
fails. -/
def simple_host : List HeapCall → Nat → Option Nat :=
  fun heap _ => some (4096 + heap.length)

/-! ## util.h: swap and pair -/

/-- `swap(Tp& lhs, Tp& rhs)` on objects held in a memory `m`, `lhs` and `rhs` being their
addresses: `auto tmp(move(lhs)); lhs = move(rhs); rhs = move(tmp);`. A move leaves its
source in the moved-from state of its value. -/
def swap (moved_from : T → T) (m : Nat → T) (lhs rhs : Nat) : Nat → T :=
  let tmp := m lhs
  let m1 := Function.update m lhs (moved_from (m lhs))
  let m2 := Function.update (Function.update m1 rhs (moved_from (m1 rhs))) lhs (m1 rhs)
  Function.update m2 rhs tmp

/-- The aggregate `pair<K, V>`. -/
structure pair (K V : Type) where
  first : K
  second : V

/-- The operators `==` and `<` of a component type. -/
structure Comparison (K : Type) where
  eq : K → K → Bool
  lt : K → K → Bool

variable {K V : Type}

/-- `operator==(const pair&, const pair&)`. -/
def pair.op_eq (cK : Comparison K) (cV : Comparison V) (lhs rhs : pair K V) : Bool :=
  cK.eq lhs.first rhs.first && cV.eq lhs.second rhs.second

/-- `operator<(const pair&, const pair&)`. -/
def pair.op_lt (cK : Comparison K) (cV : Comparison V) (lhs rhs : pair K V) : Bool :=
  cK.lt lhs.first rhs.first || (cK.eq lhs.first rhs.first && cV.lt lhs.second rhs.second)

/-- `operator!=(const pair&, const pair&)`. -/
def pair.op_ne (cK : Comparison K) (cV : Comparison V) (lhs rhs : pair K V) : Bool :=
  !(pair.op_eq cK cV lhs rhs)

/-- `operator>(const pair&, const pair&)`. -/
def pair.op_gt (cK : Comparison K) (cV : Comparison V) (lhs rhs : pair K V) : Bool :=
  pair.op_lt cK cV rhs lhs

/-- `operator<=(const pair&, const pair&)`. -/
def pair.op_le (cK : Comparison K) (cV : Comparison V) (lhs rhs : pair K V) : Bool :=
  !(pair.op_lt cK cV rhs lhs)

/-- `operator>=(const pair&, const pair&)`. -/
def pair.op_ge (cK : Comparison K) (cV : Comparison V) (lhs rhs : pair K V) : Bool :=
  !(pair.op_lt cK cV lhs rhs)

/-- Pair objects in memory: the members `first` and `second` of the pair at each address. -/
structure PairMemory (K V : Type) where
  firsts : Nat → K
  seconds : Nat → V

/-- The pair stored at `address`. -/
def PairMemory.load (m : PairMemory K V) (address : Nat) : pair K V :=
  { first := m.firsts address, second := m.seconds address }

/-- `pair::swap(pair& other)`, `self` being the address of `*this`:
`if (this != &other) { swap(first, other.first); swap(second, other.second); }`. -/
def pair.swap (moved_K : K → K) (moved_V : V → V) (m : PairMemory K V) (self other : Nat) :
    PairMemory K V :=
  if self ≠ other then
    { firsts := laistl.swap moved_K m.firsts self other
      seconds := laistl.swap moved_V m.seconds self other }
  else m

/-- The overload `swap(pair<K, V>& lhs, pair<K, V>& rhs)`: `lhs.swap(rhs)`. -/
def swap_pairs (moved_K : K → K) (moved_V : V → V) (m : PairMemory K V) (lhs rhs : Nat) :
    PairMemory K V :=
  pair.swap moved_K moved_V m lhs rhs

/-- Pairs `(a, 10 * a)` at every address `a`. -/
def sample_pairs : PairMemory Nat Nat :=
  { firsts := fun a => a, seconds := fun a => 10 * a }

/-! ## iterator.h: traits

An iterator-like type is a raw pointer or a class type; a class type may declare a nested
type `iterator_category`, one of the five tags or a type unrelated to them. -/

/-- `std::is_convertible<From, To>` for two tag structs: the identity or a derived-to-base
conversion. -/
def is_convertible (source target : iterator_tag) : Bool :=
  decide (target ∈ source.bases)

/-- The nested type `iterator_category` of a class. -/
inductive NestedCategory where
  | tag (t : iterator_tag)
  | unrelated
  deriving DecidableEq, Repr

/-- An iterator-like type as the traits see it. -/
inductive IterType where
  /-- The types `T*` and `const T*`. -/
  | pointer
  /-- A class type, with its nested `iterator_category` when it declares one. -/
  | class_type (nested : Option NestedCategory)
  deriving DecidableEq, Repr

/-- `has_iterator_cat<T>::value` for a class `T`: whether `T::iterator_category` names a
type. -/
def has_iterator_cat (nested : Option NestedCategory) : Bool :=
  nested.isSome

/-- The member `iterator_category` of `iterator_traits<T>`, `none` when `iterator_traits<T>`
has no such member. The specialisations for pointers give `random_access_iterator_tag`;
for a class, `iterator_traits_helper<T, false>` is empty, and `iterator_traits_helper<T,
true>` is `iterator_traits_impl<T, B>` with `B` telling whether `T::iterator_category`
converts to `input_iterator_tag` or to `output_iterator_tag`, which has the member only for
`B = true`. -/
def iterator_traits_category : IterType → Option iterator_tag
  | IterType.pointer => some random_access_iterator_tag
  | IterType.class_type nested =>
    if has_iterator_cat nested then
      match nested with
      | some (NestedCategory.tag c) =>
        if is_convertible c input_iterator_tag || is_convertible c output_iterator_tag
        then some c else none
      | _ => none
    else none

/-- `has_iterator_cat_of<T, U>::value`: with `has_iterator_cat<iterator_traits<T>>::value`
true, whether `iterator_traits<T>::iterator_category` converts to `U`; false otherwise. -/
def has_iterator_cat_of (T : IterType) (U : iterator_tag) : Bool :=
  match iterator_traits_category T with
  | some c => is_convertible c U
  | none => false

/-- `is_input_iterator<Iter>::value`. -/
def is_input_iterator (Iter : IterType) : Bool :=
  has_iterator_cat_of Iter input_iterator_tag

/-- `is_output_iterator<Iter>::value`. -/
def is_output_iterator (Iter : IterType) : Bool :=
  has_iterator_cat_of Iter output_iterator_tag

/-- `is_forward_iterator<Iter>::value`. -/
def is_forward_iterator (Iter : IterType) : Bool :=
  has_iterator_cat_of Iter forward_iterator_tag

/-- `is_bidirectional_iterator<Iter>::value`. -/
def is_bidirectional_iterator (Iter : IterType) : Bool :=
  has_iterator_cat_of Iter bidirectional_iterator_tag

/-- `is_random_access_iterator<Iter>::value`. -/
def is_random_access_iterator (Iter : IterType) : Bool :=
  has_iterator_cat_of Iter random_access_iterator_tag

/-- `is_iterator<Iterator>::value`. -/
def is_iterator (Iterator : IterType) : Bool :=
  is_input_iterator Iterator || is_output_iterator Iterator

/-! ## iterator.h: reverse_iterator

The wrapped iterator is a pointer, an integer position. A member function that changes
`*this` yields the new state of the object; where it returns a copy taken before or after
the change, the pair of the new state and the returned iterator. -/

/-- The class `reverse_iterator<Iterator>`: its one member `current`. -/
structure reverse_iterator where
  current : Int
  deriving DecidableEq, Repr

/-- `base()`: `return current`. -/
def reverse_iterator.base (r : reverse_iterator) : Int :=
  r.current

/-- `operator*() const`: `auto tmp = current; return *--tmp;`. The result is the position
of the element the returned reference designates, and the iterator after the call. -/
def reverse_iterator.deref (r : reverse_iterator) : Int × reverse_iterator :=
  let tmp := r.current
  (tmp - 1, r)

/-- `operator->() const`: `return &(operator*())`, the position pointed to. -/
def reverse_iterator.arrow (r : reverse_iterator) : Int :=
  r.deref.1

/-- `operator++()`: `--current; return *this;`. -/
def reverse_iterator.pre_increment (r : reverse_iterator) : reverse_iterator :=
  { current := r.current - 1 }

/-- `operator++(int)`: `self tmp = *this; --current; return tmp;`. -/
def reverse_iterator.post_increment (r : reverse_iterator) :
    reverse_iterator × reverse_iterator :=
  ({ current := r.current - 1 }, r)

/-- `operator--()`: `++current; return *this;`. -/
def reverse_iterator.pre_decrement (r : reverse_iterator) : reverse_iterator :=
  { current := r.current + 1 }

/-- `operator--(int)`: `self tmp = *this; ++current; return tmp;`. -/
def reverse_iterator.post_decrement (r : reverse_iterator) :
    reverse_iterator × reverse_iterator :=
  ({ current := r.current + 1 }, r)

/-- `operator+=(difference_type n)`: `current -= n; return *this;` (returned by value). -/
def reverse_iterator.add_assign (r : reverse_iterator) (n : Int) :
    reverse_iterator × reverse_iterator :=
  ({ current := r.current - n }, { current := r.current - n })

/-- `operator+(difference_type n) const`: `return self(current - n)`. -/
def reverse_iterator.plus (r : reverse_iterator) (n : Int) : reverse_iterator :=
  { current := r.current - n }

/-- `operator-=(difference_type n)`: `current += n; return *this;` (returned by value). -/
def reverse_iterator.sub_assign (r : reverse_iterator) (n : Int) :
    reverse_iterator × reverse_iterator :=
  ({ current := r.current + n }, { current := r.current + n })

/-- `operator-(difference_type n) const`: `return self(current + n)`. -/
def reverse_iterator.minus (r : reverse_iterator) (n : Int) : reverse_iterator :=
  { current := r.current + n }

/-- `operator[](difference_type n) const`: `return *(*this + n)`, the position read. -/
def reverse_iterator.index (r : reverse_iterator) (n : Int) : Int :=
  (r.plus n).deref.1

/-- `operator-(lhs, rhs)` on two reverse iterators: `rhs.base() - lhs.base()`. -/
def reverse_iterator.difference (lhs rhs : reverse_iterator) : Int :=
  rhs.base - lhs.base

/-- `operator==(lhs, rhs)`: `lhs.base() == rhs.base()`. -/
def reverse_iterator.op_eq (lhs rhs : reverse_iterator) : Bool :=
  decide (lhs.base = rhs.base)

/-- `operator<(lhs, rhs)`: `lhs.base() < rhs.base()`. -/
def reverse_iterator.op_lt (lhs rhs : reverse_iterator) : Bool :=
  decide (lhs.base < rhs.base)

/-- `operator!=(lhs, rhs)`: `!(lhs == rhs)`. -/
def reverse_iterator.op_ne (lhs rhs : reverse_iterator) : Bool :=
  !(reverse_iterator.op_eq lhs rhs)

/-- `operator>(lhs, rhs)`: `rhs < lhs`. -/
def reverse_iterator.op_gt (lhs rhs : reverse_iterator) : Bool :=
  reverse_iterator.op_lt rhs lhs

/-- `operator<=(lhs, rhs)`: `!(rhs < lhs)`. -/
def reverse_iterator.op_le (lhs rhs : reverse_iterator) : Bool :=
  !(reverse_iterator.op_lt rhs lhs)

/-- `operator>=(lhs, rhs)`: `!(lhs < rhs)`. -/
def reverse_iterator.op_ge (lhs rhs : reverse_iterator) : Bool :=
  !(reverse_iterator.op_lt lhs rhs)

/-! ## util.h: ordered component types -/

/-- The operators `==` and `<` of a component type form a strict total order with `==` as
equality: `==` holds exactly for equal values, `<` is irreflexive and transitive, and any
two values are equal or ordered one way. -/
structure strict_total_order (c : Comparison K) : Prop where
  eq_iff : ∀ a b, c.eq a b = true ↔ a = b
  lt_irrefl : ∀ a, c.lt a a = false
  lt_trans : ∀ a b d, c.lt a b = true → c.lt b d = true → c.lt a d = true
  lt_total : ∀ a b, c.lt a b = true ∨ a = b ∨ c.lt b a = true

/-- The operators `==` and `<` of the natural numbers. -/
def nat_comparison : Comparison Nat :=
  { eq := fun a b => decide (a = b), lt := fun a b => decide (a < b) }

/-! ## Lemmas on the construction loops -/

theorem construct_ok (E : ElemType T) (ptr : Nat) (value : T) (st : Store T)
    (h : E.ctor_throws st.ctor_calls = false) :
    construct E ptr value st =
      ({ st with
          mem := Function.update st.mem ptr (some value)
          ctor_calls := st.ctor_calls + 1
          log := st.log ++ [Event.construct ptr false] }, false) := by
  simp [construct, h]

theorem construct_throws (E : ElemType T) (ptr : Nat) (value : T) (st : Store T)
    (h : E.ctor_throws st.ctor_calls = true) :
    construct E ptr value st =
      ({ st with
          mem := Function.update st.mem ptr none
          ctor_calls := st.ctor_calls + 1
          log := st.log ++ [Event.construct ptr true] }, true) := by
  simp [construct, h]

theorem fill_loop_ok (E : ElemType T) (value : T) :
    ∀ (count cur : Nat) (st : Store T),
      (∀ i, i < count → E.ctor_throws (st.ctor_calls + i) = false) →
      fill_loop E value count cur st =
        ({ mem := fun p => if cur ≤ p ∧ p < cur + count then some value else st.mem p
           src := st.src
           ctor_calls := st.ctor_calls + count
           log := st.log ++ ok_events count cur }, cur + count, false) := by
  intro count
  induction count with
  | zero =>
    intro cur st _
    refine Prod.ext (Store.ext ?_ rfl rfl ?_) rfl
    · funext p
      simp only [fill_loop]
      rw [if_neg (by omega)]
    · simp [fill_loop, ok_events]
  | succ count ih =>
    intro cur st h
    have h0 : E.ctor_throws st.ctor_calls = false := by simpa using h 0 (Nat.succ_pos _)
    have hrest : ∀ i, i < count → E.ctor_throws (st.ctor_calls + 1 + i) = false := by
      intro i hi
      have := h (i + 1) (by omega)
      rwa [show st.ctor_calls + 1 + i = st.ctor_calls + (i + 1) by omega]
    rw [fill_loop, construct_ok E cur value st h0]
    simp only []
    rw [ih _ _ hrest]
    refine Prod.ext (Store.ext ?_ rfl ?_ ?_) (Prod.ext ?_ rfl)
    · funext p
      by_cases hp : p = cur
      · subst hp; simp
      · have e : (cur + 1 ≤ p ∧ p < cur + 1 + count) ↔ (cur ≤ p ∧ p < cur + (count + 1)) := by
          omega
        simp only [Function.update_noteq hp, e]
    · simp only []; omega
    · simp [ok_events]
    · simp only []; omega

theorem fill_loop_add (E : ElemType T) (value : T) :
    ∀ (a b cur : Nat) (st : Store T),
      fill_loop E value (a + b) cur st =
        if (fill_loop E value a cur st).2.2 then fill_loop E value a cur st
        else fill_loop E value b (fill_loop E value a cur st).2.1
          (fill_loop E value a cur st).1 := by
  intro a
  induction a with
  | zero => intro b cur st; simp [fill_loop]
  | succ a ih =>
    intro b cur st
    rw [show a + 1 + b = (a + b) + 1 by omega, fill_loop, fill_loop]
    cases hc : (construct E cur value st).2 with
    | true =>
      have : construct E cur value st = ((construct E cur value st).1, true) := by
        rw [← hc]
      rw [this]
      simp
    | false =>
      have : construct E cur value st = ((construct E cur value st).1, false) := by
        rw [← hc]
      rw [this]
      simp only []
      exact ih _ _ _

theorem fill_loop_throws (E : ElemType T) (value : T) (count k cur : Nat) (st : Store T)
    (hk : k < count)
    (hok : ∀ i, i < k → E.ctor_throws (st.ctor_calls + i) = false)
    (hthrow : E.ctor_throws (st.ctor_calls + k) = true) :
    fill_loop E value count cur st =
      ({ mem := fun p => if cur ≤ p ∧ p < cur + k then some value
                         else if p = cur + k then none else st.mem p
         src := st.src
         ctor_calls := st.ctor_calls + k + 1
         log := st.log ++ ok_events k cur ++ [Event.construct (cur + k) true] },
       cur + k, true) := by
  obtain ⟨m, rfl⟩ : ∃ m, count = k + (m + 1) := ⟨count - k - 1, by omega⟩
  rw [fill_loop_add, fill_loop_ok E value k cur st hok]
  simp only [Bool.false_eq_true, if_false]
  rw [fill_loop, construct_throws _ _ _ _ (by simpa using hthrow)]
  refine Prod.ext (Store.ext ?_ rfl rfl rfl) rfl
  funext p
  by_cases hp : p = cur + k
  · subst hp
    simp
  · simp [Function.update_noteq hp, hp]

theorem copy_loop_ok (E : ElemType T) :
    ∀ (count first cur : Nat) (st : Store T),
      (∀ i, i < count → E.ctor_throws (st.ctor_calls + i) = false) →
      copy_loop E count first cur st =
        ({ mem := fun p => if cur ≤ p ∧ p < cur + count then some (st.src (first + (p - cur)))
                           else st.mem p
           src := st.src
           ctor_calls := st.ctor_calls + count
           log := st.log ++ ok_events count cur }, cur + count, false) := by
  intro count
  induction count with
  | zero =>
    intro first cur st _
    refine Prod.ext (Store.ext ?_ rfl rfl ?_) rfl
    · funext p
      simp only [copy_loop]
      rw [if_neg (by omega)]
    · simp [copy_loop, ok_events]
  | succ count ih =>
    intro first cur st h
    have h0 : E.ctor_throws st.ctor_calls = false := by simpa using h 0 (Nat.succ_pos _)
    have hrest : ∀ i, i < count → E.ctor_throws (st.ctor_calls + 1 + i) = false := by
      intro i hi
      have := h (i + 1) (by omega)
      rwa [show st.ctor_calls + 1 + i = st.ctor_calls + (i + 1) by omega]
    rw [copy_loop, construct_ok E cur _ st h0]
    simp only []
    rw [ih _ _ _ hrest]
    refine Prod.ext (Store.ext ?_ rfl ?_ ?_) (Prod.ext ?_ rfl)
    · funext p
      by_cases hp : p = cur
      · subst hp; simp
      · simp only [Function.update_noteq hp]
        by_cases hin : cur + 1 ≤ p ∧ p < cur + 1 + count
        · rw [if_pos hin, if_pos (by omega)]
          congr 2
          omega
        · rw [if_neg hin, if_neg (by omega)]
    · simp only []; omega
    · simp [ok_events]
    · simp only []; omega

theorem copy_loop_add (E : ElemType T) :
    ∀ (a b first cur : Nat) (st : Store T),
      copy_loop E (a + b) first cur st =
        if (copy_loop E a first cur st).2.2 then copy_loop E a first cur st
        else copy_loop E b (first + a) (copy_loop E a first cur st).2.1
          (copy_loop E a first cur st).1 := by
  intro a
  induction a with
  | zero => intro b first cur st; simp [copy_loop]
  | succ a ih =>
    intro b first cur st
    rw [show a + 1 + b = (a + b) + 1 by omega, copy_loop, copy_loop]
    cases hc : (construct E cur (st.src first) st).2 with
    | true =>
      have : construct E cur (st.src first) st
          = ((construct E cur (st.src first) st).1, true) := by
        rw [← hc]
      rw [this]
      simp
    | false =>
      have : construct E cur (st.src first) st
          = ((construct E cur (st.src first) st).1, false) := by
        rw [← hc]
      rw [this]
      simp only []
      rw [ih, show first + 1 + a = first + (a + 1) by omega]

theorem copy_loop_throws (E : ElemType T) (count k first cur : Nat) (st : Store T)
    (hk : k < count)
    (hok : ∀ i, i < k → E.ctor_throws (st.ctor_calls + i) = false)
    (hthrow : E.ctor_throws (st.ctor_calls + k) = true) :
    copy_loop E count first cur st =
      ({ mem := fun p => if cur ≤ p ∧ p < cur + k then some (st.src (first + (p - cur)))
                         else if p = cur + k then none else st.mem p
         src := st.src
         ctor_calls := st.ctor_calls + k + 1
         log := st.log ++ ok_events k cur ++ [Event.construct (cur + k) true] },
       cur + k, true) := by
  obtain ⟨m, rfl⟩ : ∃ m, count = k + (m + 1) := ⟨count - k - 1, by omega⟩
  rw [copy_loop_add, copy_loop_ok E k first cur st hok]
  simp only [Bool.false_eq_true, if_false]
  rw [copy_loop, construct_throws _ _ _ _ (by simpa using hthrow)]
  refine Prod.ext (Store.ext ?_ rfl rfl rfl) rfl
  funext p
  by_cases hp : p = cur + k
  · subst hp
    simp
  · simp [Function.update_noteq hp, hp]

theorem move_loop_ok (E : ElemType T) :
    ∀ (count first cur : Nat) (st : Store T),
      (∀ i, i < count → E.ctor_throws (st.ctor_calls + i) = false) →
      move_loop E count first cur st =
        ({ mem := fun p => if cur ≤ p ∧ p < cur + count then some (st.src (first + (p - cur)))
                           else st.mem p
           src := fun q => if first ≤ q ∧ q < first + count then E.moved_from (st.src q)
                           else st.src q
           ctor_calls := st.ctor_calls + count
           log := st.log ++ ok_events count cur }, cur + count, false) := by
  intro count
  induction count with
  | zero =>
    intro first cur st _
    refine Prod.ext (Store.ext ?_ ?_ rfl ?_) rfl
    · funext p
      simp only [move_loop]
      rw [if_neg (by omega)]
    · funext q
      simp only [move_loop]
      rw [if_neg (by omega)]
    · simp [move_loop, ok_events]
  | succ count ih =>
    intro first cur st h
    have h0 : E.ctor_throws st.ctor_calls = false := by simpa using h 0 (Nat.succ_pos _)
    have hrest : ∀ i, i < count → E.ctor_throws (st.ctor_calls + 1 + i) = false := by
      intro i hi
      have := h (i + 1) (by omega)
      rwa [show st.ctor_calls + 1 + i = st.ctor_calls + (i + 1) by omega]
    rw [move_loop, construct_ok E cur _ st h0]
    simp only []
    rw [ih _ _ _ hrest]
    refine Prod.ext (Store.ext ?_ ?_ ?_ ?_) (Prod.ext ?_ rfl)
    · funext p
      by_cases hp : p = cur
      · subst hp; simp
      · simp only [Function.update_noteq hp]
        by_cases hin : cur + 1 ≤ p ∧ p < cur + 1 + count
        · rw [if_pos hin, if_pos (by omega)]
          have hne : first + 1 + (p - (cur + 1)) ≠ first := by omega
          rw [Function.update_noteq hne]
          congr 2
          omega
        · rw [if_neg hin, if_neg (by omega)]
    · funext q
      by_cases hq : q = first
      · subst hq; simp
      · simp only [Function.update_noteq hq]
        by_cases hin : first + 1 ≤ q ∧ q < first + 1 + count
        · rw [if_pos hin, if_pos (by omega)]
        · rw [if_neg hin, if_neg (by omega)]
    · simp only []; omega
    · simp [ok_events]
    · simp only []; omega

theorem move_loop_add (E : ElemType T) :
    ∀ (a b first cur : Nat) (st : Store T),
      move_loop E (a + b) first cur st =
        if (move_loop E a first cur st).2.2 then move_loop E a first cur st
        else move_loop E b (first + a) (move_loop E a first cur st).2.1
          (move_loop E a first cur st).1 := by
  intro a
  induction a with
  | zero => intro b first cur st; simp [move_loop]
  | succ a ih =>
    intro b first cur st
    rw [show a + 1 + b = (a + b) + 1 by omega, move_loop, move_loop]
    cases hc : (construct E cur (st.src first) st).2 with
    | true =>
      have : construct E cur (st.src first) st
          = ((construct E cur (st.src first) st).1, true) := by
        rw [← hc]
      rw [this]
      simp
    | false =>
      have : construct E cur (st.src first) st
          = ((construct E cur (st.src first) st).1, false) := by
        rw [← hc]
      rw [this]
      simp only []
      rw [ih, show first + 1 + a = first + (a + 1) by omega]

theorem move_loop_throws (E : ElemType T) (count k first cur : Nat) (st : Store T)
    (hk : k < count)
    (hok : ∀ i, i < k → E.ctor_throws (st.ctor_calls + i) = false)
    (hthrow : E.ctor_throws (st.ctor_calls + k) = true) :
    move_loop E count first cur st =
      ({ mem := fun p => if cur ≤ p ∧ p < cur + k then some (st.src (first + (p - cur)))
                         else if p = cur + k then none else st.mem p
         src := fun q => if first ≤ q ∧ q < first + k then E.moved_from (st.src q)
                         else st.src q
         ctor_calls := st.ctor_calls + k + 1
         log := st.log ++ ok_events k cur ++ [Event.construct (cur + k) true] },
       cur + k, true) := by
  obtain ⟨m, rfl⟩ : ∃ m, count = k + (m + 1) := ⟨count - k - 1, by omega⟩
  rw [move_loop_add, move_loop_ok E k first cur st hok]
  simp only [Bool.false_eq_true, if_false]
  rw [move_loop, construct_throws _ _ _ _ (by simpa using hthrow)]
  refine Prod.ext (Store.ext ?_ rfl rfl rfl) rfl
  funext p
  by_cases hp : p = cur + k
  · subst hp
    simp
  · simp [Function.update_noteq hp, hp]

/-! ## Lemmas on the destruction loops -/

theorem destroy_eq (E : ElemType T) (p : Nat) (st : Store T) :
    destroy E (some p) st =
      { mem := fun q => if E.is_trivially_destructible = false ∧ q = p then none else st.mem q
        src := st.src
        ctor_calls := st.ctor_calls
        log := st.log ++ Event.destroy (some p) ::
                 (if E.is_trivially_destructible then [] else [Event.dtor p]) } := by
  unfold destroy
  generalize E.is_trivially_destructible = t
  cases t with
  | true =>
    refine Store.ext ?_ rfl rfl ?_
    · funext q; simp [destroy_one]
    · simp [destroy_one]
  | false =>
    refine Store.ext ?_ rfl rfl ?_
    · funext q
      by_cases hq : q = p
      · subst hq; simp [destroy_one]
      · simp [destroy_one, Function.update_noteq hq, hq]
    · simp [destroy_one]

theorem destroy_forward_eq (E : ElemType T) :
    ∀ (count first : Nat) (st : Store T),
      destroy_forward E count first st =
        { mem := fun q => if E.is_trivially_destructible = false ∧ first ≤ q ∧ q < first + count
                          then none else st.mem q
          src := st.src
          ctor_calls := st.ctor_calls
          log := st.log ++ destroy_events E.is_trivially_destructible count first } := by
  intro count
  induction count with
  | zero =>
    intro first st
    refine Store.ext ?_ rfl rfl ?_
    · funext q
      simp only [destroy_forward]
      rw [if_neg (by omega)]
    · simp [destroy_forward, destroy_events]
  | succ count ih =>
    intro first st
    rw [destroy_forward, ih, destroy_eq]
    refine Store.ext ?_ rfl rfl ?_
    · funext q
      simp only []
      by_cases hin : E.is_trivially_destructible = false ∧ first ≤ q ∧ q < first + (count + 1)
      · rw [if_pos hin]
        by_cases h1 : E.is_trivially_destructible = false ∧ first + 1 ≤ q ∧ q < first + 1 + count
        · rw [if_pos h1]
        · have h2 : ¬ (first + 1 ≤ q ∧ q < first + 1 + count) := fun h => h1 ⟨hin.1, h⟩
          rw [if_neg h1, if_pos ⟨hin.1, by omega⟩]
      · rw [if_neg hin, if_neg (by intro h; exact hin ⟨h.1, by omega⟩),
          if_neg (by intro h; exact hin ⟨h.1, by omega⟩)]
    · simp [destroy_events]

/-! ## Counting events -/

theorem count_dtor_ok_events (p : Nat) :
    ∀ (count cur : Nat), (ok_events count cur).count (Event.dtor p) = 0 := by
  intro count
  induction count with
  | zero => intro cur; simp [ok_events]
  | succ count ih => intro cur; simp [ok_events, List.count_cons, ih]

theorem count_destroy_ok_events (ptr : Option Nat) :
    ∀ (count cur : Nat), (ok_events count cur).count (Event.destroy ptr) = 0 := by
  intro count
  induction count with
  | zero => intro cur; simp [ok_events]
  | succ count ih => intro cur; simp [ok_events, List.count_cons, ih]

theorem count_destroy_range_ok_events (a b : Nat) :
    ∀ (count cur : Nat), (ok_events count cur).count (Event.destroy_range a b) = 0 := by
  intro count
  induction count with
  | zero => intro cur; simp [ok_events]
  | succ count ih => intro cur; simp [ok_events, List.count_cons, ih]

theorem count_dtor_destroy_events (trivial : Bool) (p : Nat) :
    ∀ (count first : Nat),
      (destroy_events trivial count first).count (Event.dtor p) =
        if trivial = false ∧ first ≤ p ∧ p < first + count then 1 else 0 := by
  intro count
  induction count with
  | zero =>
    intro first
    rw [if_neg (by omega)]
    simp [destroy_events]
  | succ count ih =>
    intro first
    cases trivial with
    | true => simpa [destroy_events, List.count_cons] using ih (first + 1)
    | false =>
      simp only [destroy_events, List.count_cons, List.count_append, ih, Bool.false_eq_true,
        if_false, List.count_nil, true_and]
      by_cases h : first = p
      · subst h
        simp
      · by_cases h2 : first + 1 ≤ p ∧ p < first + 1 + count
        · have h3 : first ≤ p ∧ p < first + (count + 1) := by omega
          simp [h, h2, h3]
        · have h3 : ¬ (first ≤ p ∧ p < first + (count + 1)) := by omega
          simp [h, h2, h3]

theorem count_destroy_destroy_events (trivial : Bool) (p : Nat) :
    ∀ (count first : Nat),
      (destroy_events trivial count first).count (Event.destroy (some p)) =
        if first ≤ p ∧ p < first + count then 1 else 0 := by
  intro count
  induction count with
  | zero =>
    intro first
    rw [if_neg (by omega)]
    simp [destroy_events]
  | succ count ih =>
    intro first
    by_cases h : first = p
    · subst h
      cases trivial <;> simp [destroy_events, List.count_cons, List.count_append, ih]
    · by_cases h2 : first + 1 ≤ p ∧ p < first + 1 + count
      · have h3 : first ≤ p ∧ p < first + (count + 1) := by omega
        cases trivial <;>
          simp [destroy_events, List.count_cons, List.count_append, ih, h, h2, h3]
      · have h3 : ¬ (first ≤ p ∧ p < first + (count + 1)) := by omega
        cases trivial <;>
          simp [destroy_events, List.count_cons, List.count_append, ih, h, h2, h3]

theorem count_destroy_range_destroy_events (trivial : Bool) (a b : Nat) :
    ∀ (count first : Nat),
      (destroy_events trivial count first).count (Event.destroy_range a b) = 0 := by
  intro count
  induction count with
  | zero => intro first; simp [destroy_events]
  | succ count ih =>
    intro first
    cases trivial <;> simp [destroy_events, List.count_cons, List.count_append, ih]

/-! ## Following lifetimes through the log -/

theorem destroyed_from_append (p : Nat) (b : Bool) (l1 l2 : List Event) :
    destroyed_from p b (l1 ++ l2) = destroyed_from p (destroyed_from p b l1) l2 := by
  simp [destroyed_from, List.foldl_append]

theorem destroyed_from_ok_events (p : Nat) :
    ∀ (count cur : Nat) (b : Bool),
      destroyed_from p b (ok_events count cur)
        = if cur ≤ p ∧ p < cur + count then false else b := by
  intro count
  induction count with
  | zero =>
    intro cur b
    rw [if_neg (by omega)]
    rfl
  | succ count ih =>
    intro cur b
    have h : destroyed_from p b (ok_events (count + 1) cur)
        = destroyed_from p (lifetime_step p b (Event.construct cur false))
            (ok_events count (cur + 1)) := rfl
    rw [h, ih]
    by_cases hp : cur = p
    · subst hp
      have e1 : ¬ (cur + 1 ≤ cur ∧ cur < cur + 1 + count) := by omega
      have e2 : cur ≤ cur ∧ cur < cur + (count + 1) := by omega
      simp [if_neg e1, if_pos e2, lifetime_step, Event.ends_lifetime, Event.writes]
    · by_cases hin : cur + 1 ≤ p ∧ p < cur + 1 + count
      · have e2 : cur ≤ p ∧ p < cur + (count + 1) := by omega
        simp only [if_pos hin, if_pos e2]
      · have e2 : ¬ (cur ≤ p ∧ p < cur + (count + 1)) := by omega
        simp [if_neg hin, if_neg e2, lifetime_step, Event.ends_lifetime, Event.writes, hp]

theorem destroyed_from_destroy_events (trivial : Bool) (p : Nat) :
    ∀ (count first : Nat) (b : Bool),
      destroyed_from p b (destroy_events trivial count first)
        = if first ≤ p ∧ p < first + count then true else b := by
  intro count
  induction count with
  | zero =>
    intro first b
    rw [if_neg (by omega)]
    rfl
  | succ count ih =>
    intro first b
    have h : destroyed_from p b (destroy_events trivial (count + 1) first)
        = destroyed_from p
            (destroyed_from p (lifetime_step p b (Event.destroy (some first)))
              (if trivial then [] else [Event.dtor first]))
            (destroy_events trivial count (first + 1)) := by
      simp [destroy_events, destroyed_from, List.foldl_append]
    rw [h, ih]
    by_cases hp : first = p
    · subst hp
      have e1 : ¬ (first + 1 ≤ first ∧ first < first + 1 + count) := by omega
      have e2 : first ≤ first ∧ first < first + (count + 1) := by omega
      simp only [if_neg e1, if_pos e2]
      cases trivial <;>
        simp [destroyed_from, lifetime_step, Event.ends_lifetime, Event.writes]
    · by_cases hin : first + 1 ≤ p ∧ p < first + 1 + count
      · have e2 : first ≤ p ∧ p < first + (count + 1) := by omega
        simp only [if_pos hin, if_pos e2]
      · have e2 : ¬ (first ≤ p ∧ p < first + (count + 1)) := by omega
        simp only [if_neg hin, if_neg e2]
        cases trivial <;>
          simp [destroyed_from, lifetime_step, Event.ends_lifetime, Event.writes, hp]

theorem destroyed_from_assign_events (p : Nat) (result : Nat) :
    ∀ (count : Nat) (b : Bool),
      destroyed_from p b ((List.range count).map (fun i => Event.assign (result + i)))
        = if result ≤ p ∧ p < result + count then false else b := by
  intro count
  induction count with
  | zero =>
    intro b
    rw [if_neg (by omega)]
    rfl
  | succ count ih =>
    intro b
    rw [List.range_succ, List.map_append, destroyed_from_append, ih]
    by_cases hp : result + count = p
    · have e2 : result ≤ p ∧ p < result + (count + 1) := by omega
      simp [if_pos e2, destroyed_from, lifetime_step, Event.ends_lifetime, Event.writes, hp]
    · by_cases hin : result ≤ p ∧ p < result + count
      · have e2 : result ≤ p ∧ p < result + (count + 1) := by omega
        simp [if_pos hin, if_pos e2, destroyed_from, lifetime_step, Event.ends_lifetime,
          Event.writes, hp]
      · have e2 : ¬ (result ≤ p ∧ p < result + (count + 1)) := by omega
        simp [if_neg hin, if_neg e2, destroyed_from, lifetime_step, Event.ends_lifetime,
          Event.writes, hp]

theorem range_covers_ok_events (p : Nat) :
    ∀ (count cur : Nat), (ok_events count cur).countP (Event.range_covers p) = 0 := by
  intro count
  induction count with
  | zero => intro cur; simp [ok_events]
  | succ count ih =>
    intro cur
    simp [ok_events, List.countP_cons, ih, Event.range_covers]

theorem range_covers_destroy_events (trivial : Bool) (p : Nat) :
    ∀ (count first : Nat),
      (destroy_events trivial count first).countP (Event.range_covers p) = 0 := by
  intro count
  induction count with
  | zero => intro first; simp [destroy_events]
  | succ count ih =>
    intro first
    cases trivial <;>
      simp [destroy_events, List.countP_cons, List.countP_append, ih, Event.range_covers]

/-- Slots written by a loop become live, every other slot keeps its state. -/
theorem live_of_written (st st1 : Store T) (result n : Nat)
    (hin : ∀ p, result ≤ p ∧ p < result + n → (st1.mem p).isSome = true)
    (hout : ∀ p, ¬ (result ≤ p ∧ p < result + n) → st1.mem p = st.mem p)
    (hlog : ∀ p, destroyed_from p false st1.log
        = if result ≤ p ∧ p < result + n then false else destroyed_from p false st.log) :
    (∀ i, i < n → live st1 (result + i) = true) ∧
    (∀ p, ¬ (result ≤ p ∧ p < result + n) → live st1 p = live st p) ∧
    ((∀ p, live st p = false) → ∀ p, live st1 p = true ↔ (result ≤ p ∧ p < result + n)) := by
  have h1 : ∀ p, result ≤ p ∧ p < result + n → live st1 p = true := by
    intro p hp
    simp only [live, hlog p, if_pos hp, hin p hp]
    rfl
  have h2 : ∀ p, ¬ (result ≤ p ∧ p < result + n) → live st1 p = live st p := by
    intro p hp
    simp only [live, hlog p, if_neg hp, hout p hp]
  refine ⟨fun i hi => h1 _ (by omega), h2, ?_⟩
  intro hraw p
  by_cases hp : result ≤ p ∧ p < result + n
  · simp [h1 p hp, hp]
  · rw [h2 p hp, hraw p]
    simp [hp]

/-! ## Rollback of the fill forms -/

theorem rolled_back_destroy_forward (E : ElemType T) (st st1 : Store T) (first k : Nat)
    (hd : ∀ p, destroy_calls st1 p = destroy_calls st p) :
    rolled_back st (destroy_forward E k first st1) first k := by
  rw [destroy_forward_eq]
  refine ⟨?_, ?_⟩
  · intro p
    simp only [destroy_calls, List.count_append, count_destroy_destroy_events]
    have := hd p
    simp only [destroy_calls] at this
    rw [this]
  · intro p h1 h2
    have e : first ≤ p ∧ p < first + k := ⟨h1, h2⟩
    simp only [live, destroyed_from_append, destroyed_from_destroy_events, if_pos e]
    simp

theorem destructors_ran_destroy_forward (E : ElemType T) (st st1 : Store T) (first k : Nat)
    (hdtor : E.is_trivially_destructible = false)
    (hr : ∀ p, dtor_runs st1 p = dtor_runs st p) :
    destructors_ran st (destroy_forward E k first st1) first k := by
  rw [destroy_forward_eq]
  refine ⟨?_, ?_⟩
  · intro p
    simp only [dtor_runs, List.count_append, count_dtor_destroy_events, hdtor, true_and]
    have := hr p
    simp only [dtor_runs] at this
    rw [this]
  · intro p h1 h2
    simp only []
    rw [if_pos ⟨hdtor, h1, h2⟩]

theorem unchecked_uninit_fill_throws (E : ElemType T) (first n k : Nat) (value : T)
    (st : Store T) (hk : k < n)
    (hok : ∀ i, i < k → E.ctor_throws (st.ctor_calls + i) = false)
    (hthrow : E.ctor_throws (st.ctor_calls + k) = true) :
    unchecked_uninit_fill E first (first + n) value st =
      (destroy_forward E k first
        { mem := fun p => if first ≤ p ∧ p < first + k then some value
                          else if p = first + k then none else st.mem p
          src := st.src
          ctor_calls := st.ctor_calls + k + 1
          log := st.log ++ ok_events k first ++ [Event.construct (first + k) true] },
       Outcome.finished) := by
  unfold unchecked_uninit_fill
  rw [fill_loop_throws E value (first + n - first) k first st (by omega) hok hthrow]
  simp only [Nat.add_sub_cancel_left]

theorem unchecked_uninit_fill_n_throws (E : ElemType T) (first n k : Nat) (value : T)
    (st : Store T) (hk : k < n)
    (hok : ∀ i, i < k → E.ctor_throws (st.ctor_calls + i) = false)
    (hthrow : E.ctor_throws (st.ctor_calls + k) = true) :
    unchecked_uninit_fill_n E first (n : Int) value st =
      (destroy_forward E k first
        { mem := fun p => if first ≤ p ∧ p < first + k then some value
                          else if p = first + k then none else st.mem p
          src := st.src
          ctor_calls := st.ctor_calls + k + 1
          log := st.log ++ ok_events k first ++ [Event.construct (first + k) true] },
       Outcome.returned (first + k)) := by
  unfold unchecked_uninit_fill_n
  rw [Int.toNat_ofNat, fill_loop_throws E value n k first st hk hok hthrow]
  simp only [Nat.add_sub_cancel_left]

/-- C5: rollback of `uninitialized_fill` and `uninitialized_fill_n` on the element-wise
path. If constructing element `k` of `n` throws after the elements `0 .. k-1` were
constructed, then `destroy` is applied exactly once to each slot of `[first, first + k)` and
to no slot at or beyond `first + k` (nor before `first`), and afterwards no live object
remains in `[first, first + k)`. When the element type is not trivially destructible, this
means that the destructor ran exactly once on each slot of the range and on no other slot,
and that the slots of the range store no object any more. -/
theorem fill_rollback (E : ElemType T) (first n k : Nat) (value : T) (st : Store T)
    (hk : k < n)
    (hok : ∀ i, i < k → E.ctor_throws (st.ctor_calls + i) = false)
    (hthrow : E.ctor_throws (st.ctor_calls + k) = true) :
    (rolled_back st (unchecked_uninit_fill E first (first + n) value st).1 first k ∧
     rolled_back st (unchecked_uninit_fill_n E first (n : Int) value st).1 first k) ∧
    (E.is_trivially_destructible = false →
      destructors_ran st (unchecked_uninit_fill E first (first + n) value st).1 first k ∧
      destructors_ran st (unchecked_uninit_fill_n E first (n : Int) value st).1 first k) := by
  rw [unchecked_uninit_fill_throws E first n k value st hk hok hthrow,
    unchecked_uninit_fill_n_throws E first n k value st hk hok hthrow]
  have h := rolled_back_destroy_forward E st
    { mem := fun p => if first ≤ p ∧ p < first + k then some value
                      else if p = first + k then none else st.mem p
      src := st.src
      ctor_calls := st.ctor_calls + k + 1
      log := st.log ++ ok_events k first ++ [Event.construct (first + k) true] } first k
    (by intro p; simp [destroy_calls, List.count_append, count_destroy_ok_events,
          List.count_cons])
  refine ⟨⟨h, h⟩, ?_⟩
  intro hdtor
  have h2 := destructors_ran_destroy_forward E st
    { mem := fun p => if first ≤ p ∧ p < first + k then some value
                      else if p = first + k then none else st.mem p
      src := st.src
      ctor_calls := st.ctor_calls + k + 1
      log := st.log ++ ok_events k first ++ [Event.construct (first + k) true] } first k hdtor
    (by intro p; simp [dtor_runs, List.count_append, count_dtor_ok_events, List.count_cons])
  exact ⟨h2, h2⟩

/-- Witness of `fill_rollback`: three elements, the third construction throws. -/
theorem fill_rollback_witness :
    (2 < 3 ∧ (throwing_at 2).ctor_throws (raw_store.ctor_calls + 2) = true) ∧
    (rolled_back raw_store (unchecked_uninit_fill (throwing_at 2) 4 (4 + 3) 7 raw_store).1 4 2 ∧
     rolled_back raw_store
       (unchecked_uninit_fill_n (throwing_at 2) 4 ((3 : Nat) : Int) 7 raw_store).1 4 2) :=
  ⟨⟨by decide, rfl⟩,
   (fill_rollback (throwing_at 2) 4 3 2 7 raw_store (by decide) (by decide) rfl).1⟩

/-- For an element type that takes the element-wise path but is trivially destructible,
`destroy` has no code to run: after the rollback of two filled elements whose second
construction threw, `destroy` has been applied to slot `first` and its object is not live
any more, but no destructor ran and the storage still holds the value. -/
theorem fill_rollback_trivial_dtor :
    destroy_calls (unchecked_uninit_fill_n (throwing_at_trivial_dtor 1) 0 2 7 raw_store).1 0 = 1 ∧
    live (unchecked_uninit_fill_n (throwing_at_trivial_dtor 1) 0 2 7 raw_store).1 0 = false ∧
    dtor_runs (unchecked_uninit_fill_n (throwing_at_trivial_dtor 1) 0 2 7 raw_store).1 0 = 0 ∧
    (unchecked_uninit_fill_n (throwing_at_trivial_dtor 1) 0 2 7 raw_store).1.mem 0 = some 7 := by
  refine ⟨by decide, by decide, by decide, by decide⟩

/-! ## Rollback of `uninitialized_move` -/

theorem destroy_range_eq (E : ElemType T) (first k : Nat) (st : Store T)
    (hdtor : E.is_trivially_destructible = false) :
    destroy_range E first (first + k) st =
      destroy_forward E k first
        { st with log := st.log ++ [Event.destroy_range first (first + k)] } := by
  simp [destroy_range, destroy_cat, hdtor]

theorem destroy_range_log (E : ElemType T) (first k : Nat) (st : Store T) :
    (destroy_range E first (first + k) st).log =
      st.log ++ [Event.destroy_range first (first + k)] ++
        (if E.is_trivially_destructible then [] else destroy_events false k first) := by
  cases hdtor : E.is_trivially_destructible with
  | true => simp [destroy_range, destroy_cat, hdtor]
  | false =>
    rw [destroy_range_eq E first k st hdtor, destroy_forward_eq, hdtor]
    simp

theorem unchecked_uninit_move_throws (E : ElemType T) (first n result k : Nat)
    (st : Store T) (hk : k < n)
    (hok : ∀ i, i < k → E.ctor_throws (st.ctor_calls + i) = false)
    (hthrow : E.ctor_throws (st.ctor_calls + k) = true) :
    unchecked_uninit_move E first (first + n) result st =
      (destroy_range E result (result + k)
        { mem := fun p => if result ≤ p ∧ p < result + k
                          then some (st.src (first + (p - result)))
                          else if p = result + k then none else st.mem p
          src := fun q => if first ≤ q ∧ q < first + k then E.moved_from (st.src q)
                          else st.src q
          ctor_calls := st.ctor_calls + k + 1
          log := st.log ++ ok_events k result ++ [Event.construct (result + k) true] },
       Outcome.returned (result + k)) := by
  unfold unchecked_uninit_move
  rw [move_loop_throws E (first + n - first) k first result st (by omega) hok hthrow]

/-- C6: rollback of `uninitialized_move` on the element-wise path. If constructing
destination element `k` of `n` throws after the elements `0 .. k-1` were constructed, then
the handler makes the one call `destroy(result, cur)` with `cur = result + k`: each slot of
`[result, result + k)` is covered by exactly one range destroy and no slot at or beyond
`result + k` (nor before `result`) by any, and no live object remains in
`[result, result + k)`. When the element type is not trivially destructible, this call
applies the single-object `destroy` exactly once to each slot of the range and to no other
slot, the destructor ran exactly once on each slot of the range and on no other slot, and
the slots of the range store no object any more. -/
theorem move_rollback (E : ElemType T) (first n result k : Nat) (st : Store T)
    (hk : k < n)
    (hok : ∀ i, i < k → E.ctor_throws (st.ctor_calls + i) = false)
    (hthrow : E.ctor_throws (st.ctor_calls + k) = true) :
    rolled_back_by_range st (unchecked_uninit_move E first (first + n) result st).1 result k ∧
    (unchecked_uninit_move E first (first + n) result st).1.log =
      st.log ++ ok_events k result ++ [Event.construct (result + k) true] ++
        [Event.destroy_range result (result + k)] ++
        (if E.is_trivially_destructible then [] else destroy_events false k result) ∧
    (E.is_trivially_destructible = false →
      rolled_back st (unchecked_uninit_move E first (first + n) result st).1 result k ∧
      destructors_ran st (unchecked_uninit_move E first (first + n) result st).1 result k) := by
  rw [unchecked_uninit_move_throws E first n result k st hk hok hthrow]
  have hlog := destroy_range_log E result k
    { mem := fun p => if result ≤ p ∧ p < result + k
                      then some (st.src (first + (p - result)))
                      else if p = result + k then none else st.mem p
      src := fun q => if first ≤ q ∧ q < first + k then E.moved_from (st.src q)
                      else st.src q
      ctor_calls := st.ctor_calls + k + 1
      log := st.log ++ ok_events k result ++ [Event.construct (result + k) true] }
  refine ⟨⟨?_, ?_⟩, hlog, ?_⟩
  · intro p
    simp only [range_destroys, hlog]
    by_cases hin : result ≤ p ∧ p < result + k
    · cases E.is_trivially_destructible <;>
        simp [List.countP_append, List.countP_cons, range_covers_ok_events,
          range_covers_destroy_events, Event.range_covers, hin]
    · cases E.is_trivially_destructible <;>
        simp [List.countP_append, List.countP_cons, range_covers_ok_events,
          range_covers_destroy_events, Event.range_covers, hin]
  · intro p h1 h2
    have hin : result ≤ p ∧ p < result + k := ⟨h1, h2⟩
    simp only [live, hlog, destroyed_from_append]
    cases E.is_trivially_destructible with
    | true =>
      simp [destroyed_from, lifetime_step, Event.ends_lifetime, hin]
    | false =>
      simp [destroyed_from_destroy_events, hin]
  · intro hdtor
    rw [destroy_range_eq E result k _ hdtor]
    exact ⟨rolled_back_destroy_forward E st _ result k
        (by intro p; simp [destroy_calls, List.count_append, count_destroy_ok_events,
              List.count_cons]),
      destructors_ran_destroy_forward E st _ result k hdtor
        (by intro p; simp [dtor_runs, List.count_append, count_dtor_ok_events,
              List.count_cons])⟩

/-- Witness of `move_rollback`: three elements, the third construction throws. -/
theorem move_rollback_witness :
    (2 < 3 ∧ (throwing_at 2).ctor_throws (raw_store.ctor_calls + 2) = true) ∧
    rolled_back_by_range raw_store
      (unchecked_uninit_move (throwing_at 2) 1 (1 + 3) 5 raw_store).1 5 2 :=
  ⟨⟨by decide, rfl⟩,
   (move_rollback (throwing_at 2) 1 3 5 2 raw_store (by decide) (by decide) rfl).1⟩

/-- For an element type that takes the element-wise path but is trivially destructible,
`destroy(result, cur)` is `destroy_cat` with an empty body: after the rollback of two moved
elements whose second construction threw, the range destroy has covered slot `result` once
and its object is not live any more, but neither the single-object `destroy` nor a
destructor was applied and the storage still holds the value. -/
theorem move_rollback_trivial_dtor :
    range_destroys (unchecked_uninit_move (throwing_at_trivial_dtor 1) 0 2 0 raw_store).1 0 = 1 ∧
    live (unchecked_uninit_move (throwing_at_trivial_dtor 1) 0 2 0 raw_store).1 0 = false ∧
    destroy_calls (unchecked_uninit_move (throwing_at_trivial_dtor 1) 0 2 0 raw_store).1 0 = 0 ∧
    dtor_runs (unchecked_uninit_move (throwing_at_trivial_dtor 1) 0 2 0 raw_store).1 0 = 0 ∧
    (unchecked_uninit_move (throwing_at_trivial_dtor 1) 0 2 0 raw_store).1.mem 0
      = some (raw_store.src 0) := by
  refine ⟨by decide, by decide, by decide, by decide, by decide⟩

/-! ## Success postconditions -/

theorem ok_events_eq_map :
    ∀ (count cur : Nat),
      ok_events count cur = (List.range count).map (fun i => Event.construct (cur + i) false) := by
  intro count
  induction count with
  | zero => intro cur; simp [ok_events]
  | succ count ih =>
    intro cur
    rw [ok_events, ih, List.range_succ_eq_map, List.map_cons, List.map_map]
    simp only [Nat.add_zero, List.cons.injEq, true_and]
    apply List.map_congr_left
    intro i _
    simp only [Function.comp, Nat.succ_eq_add_one]
    congr 1
    omega

theorem unchecked_uninit_copy_ok (E : ElemType T) (first n result : Nat) (st : Store T)
    (hok : ∀ i, i < n → E.ctor_throws (st.ctor_calls + i) = false) :
    unchecked_uninit_copy E first (first + n) result st =
      ({ mem := fun p => if result ≤ p ∧ p < result + n
                         then some (st.src (first + (p - result))) else st.mem p
         src := st.src
         ctor_calls := st.ctor_calls + n
         log := st.log ++ ok_events n result }, Outcome.returned (result + n)) := by
  unfold unchecked_uninit_copy
  rw [Nat.add_sub_cancel_left, copy_loop_ok E n first result st hok]

/-- C7 (amended): success postcondition of `uninitialized_copy` for an element type that is
not trivially copy-assignable (the trait `uninitialized_copy` dispatches on) and a source
range `[first, first + n)`. If none of the `n`
constructions throws, the call returns `result + n`; destination slot `result + i` holds a
live object equal to source element `first + i` for every `i < n`, and every other slot is
as before, so that on raw storage exactly the slots of `[result, result + n)` are live; the
events of the call are exactly one successful `construct` per slot, in ascending order, and
no `destroy` or destructor event; `n` constructors ran; and the source sequence is
unmodified. -/
theorem uninitialized_copy_success (E : ElemType T) (first n result : Nat) (st : Store T)
    (hE : E.is_trivially_copy_assignable = false)
    (hok : ∀ i, i < n → E.ctor_throws (st.ctor_calls + i) = false) :
    (uninitialized_copy E first (first + n) result st).2 = Outcome.returned (result + n) ∧
    (∀ i, i < n →
      (uninitialized_copy E first (first + n) result st).1.mem (result + i)
        = some (st.src (first + i))) ∧
    (∀ p, ¬ (result ≤ p ∧ p < result + n) →
      (uninitialized_copy E first (first + n) result st).1.mem p = st.mem p) ∧
    ((∀ i, i < n → live (uninitialized_copy E first (first + n) result st).1 (result + i)
        = true) ∧
     (∀ p, ¬ (result ≤ p ∧ p < result + n) →
        live (uninitialized_copy E first (first + n) result st).1 p = live st p) ∧
     ((∀ p, live st p = false) →
        ∀ p, live (uninitialized_copy E first (first + n) result st).1 p = true
          ↔ (result ≤ p ∧ p < result + n))) ∧
    (uninitialized_copy E first (first + n) result st).1.log
      = st.log ++ (List.range n).map (fun i => Event.construct (result + i) false) ∧
    (∀ p, destroy_calls (uninitialized_copy E first (first + n) result st).1 p
        = destroy_calls st p ∧
      range_destroys (uninitialized_copy E first (first + n) result st).1 p
        = range_destroys st p ∧
      dtor_runs (uninitialized_copy E first (first + n) result st).1 p = dtor_runs st p) ∧
    (uninitialized_copy E first (first + n) result st).1.ctor_calls = st.ctor_calls + n ∧
    (uninitialized_copy E first (first + n) result st).1.src = st.src := by
  have h : uninitialized_copy E first (first + n) result st
      = unchecked_uninit_copy E first (first + n) result st := by
    simp [uninitialized_copy, hE]
  rw [h, unchecked_uninit_copy_ok E first n result st hok]
  refine ⟨rfl, ?_, ?_, ?_, ?_, ?_, rfl, rfl⟩
  · intro i hi
    simp only []
    rw [if_pos (by omega), Nat.add_sub_cancel_left]
  · intro p hp
    simp only []
    rw [if_neg hp]
  · apply live_of_written
    · intro p hp
      simp only [if_pos hp]
      rfl
    · intro p hp
      simp only [if_neg hp]
    · intro p
      simp only [destroyed_from_append, destroyed_from_ok_events]
  · simp only [ok_events_eq_map]
  · intro p
    simp [destroy_calls, dtor_runs, range_destroys, List.count_append, List.countP_append,
      count_destroy_ok_events, count_dtor_ok_events, range_covers_ok_events]

/-- Witness of `uninitialized_copy_success`: three elements copied to raw storage. -/
theorem uninitialized_copy_success_witness :
    never_throwing.is_trivially_copy_assignable = false ∧
    (uninitialized_copy never_throwing 2 (2 + 3) 4 raw_store).2 = Outcome.returned (4 + 3) ∧
    (uninitialized_copy never_throwing 2 (2 + 3) 4 raw_store).1.log
      = raw_store.log ++ (List.range 3).map (fun i => Event.construct (4 + i) false) ∧
    (uninitialized_copy never_throwing 2 (2 + 3) 4 raw_store).1.src = raw_store.src :=
  have h := uninitialized_copy_success never_throwing 2 3 4 raw_store rfl (by decide)
  ⟨rfl, h.1, h.2.2.2.2.1, h.2.2.2.2.2.2.2⟩

/-- C7 (counterexample): an element type that is not trivial, because its destructor is
user-provided, but whose copy assignment is trivial. No constructor of it throws, and
`uninitialized_copy` of three elements to raw storage returns `result + 3` with the three
values in place; but the wrapper takes the `std::true_type` path: no constructor ran and no
`construct` was called, the slots were written by the three assignments of `laistl::copy`,
so the events of the call are not one copy construction per source element. -/
theorem uninitialized_copy_nontrivial_assignable :
    assignable_with_destructor.is_trivially_destructible = false ∧
    assignable_with_destructor.is_trivially_copy_assignable = true ∧
    (∀ k, assignable_with_destructor.ctor_throws k = false) ∧
    (uninitialized_copy assignable_with_destructor 2 (2 + 3) 4 raw_store).2
      = Outcome.returned (4 + 3) ∧
    (∀ i, i < 3 →
      (uninitialized_copy assignable_with_destructor 2 (2 + 3) 4 raw_store).1.mem (4 + i)
        = some (raw_store.src (2 + i))) ∧
    (uninitialized_copy assignable_with_destructor 2 (2 + 3) 4 raw_store).1.ctor_calls = 0 ∧
    (uninitialized_copy assignable_with_destructor 2 (2 + 3) 4 raw_store).1.log
      = [Event.assign 4, Event.assign 5, Event.assign 6] ∧
    (∀ slot threw, Event.construct slot threw ∉
      (uninitialized_copy assignable_with_destructor 2 (2 + 3) 4 raw_store).1.log) ∧
    (uninitialized_copy assignable_with_destructor 2 (2 + 3) 4 raw_store).1.log
      ≠ raw_store.log ++ (List.range 3).map (fun i => Event.construct (4 + i) false) := by
  have hlog : (uninitialized_copy assignable_with_destructor 2 (2 + 3) 4 raw_store).1.log
      = [Event.assign 4, Event.assign 5, Event.assign 6] := by decide
  refine ⟨rfl, rfl, fun _ => rfl, by decide, by decide, by decide, hlog, ?_, by decide⟩
  intro slot threw h
  rw [hlog] at h
  simp at h

theorem unchecked_uninit_move_ok (E : ElemType T) (first n result : Nat) (st : Store T)
    (hok : ∀ i, i < n → E.ctor_throws (st.ctor_calls + i) = false) :
    unchecked_uninit_move E first (first + n) result st =
      ({ mem := fun p => if result ≤ p ∧ p < result + n
                         then some (st.src (first + (p - result))) else st.mem p
         src := fun q => if first ≤ q ∧ q < first + n then E.moved_from (st.src q)
                         else st.src q
         ctor_calls := st.ctor_calls + n
         log := st.log ++ ok_events n result }, Outcome.returned (result + n)) := by
  unfold unchecked_uninit_move
  rw [Nat.add_sub_cancel_left, move_loop_ok E n first result st hok]

/-- C8: success postcondition of `uninitialized_move` for a source range
`[first, first + n)`, on either path. If no construction throws, the call returns
`result + n`, destination slot `result + i` holds a live object equal to the value source
element `first + i` had before the call for every `i < n`, and every other slot is as
before, so that on raw storage exactly the slots of `[result, result + n)` are live. -/
theorem uninitialized_move_success (E : ElemType T) (first n result : Nat) (st : Store T)
    (hok : E.is_trivially_move_assignable = false →
      ∀ i, i < n → E.ctor_throws (st.ctor_calls + i) = false) :
    (uninitialized_move E first (first + n) result st).2 = Outcome.returned (result + n) ∧
    (∀ i, i < n →
      (uninitialized_move E first (first + n) result st).1.mem (result + i)
        = some (st.src (first + i))) ∧
    (∀ p, ¬ (result ≤ p ∧ p < result + n) →
      (uninitialized_move E first (first + n) result st).1.mem p = st.mem p) ∧
    ((∀ i, i < n → live (uninitialized_move E first (first + n) result st).1 (result + i)
        = true) ∧
     (∀ p, ¬ (result ≤ p ∧ p < result + n) →
        live (uninitialized_move E first (first + n) result st).1 p = live st p) ∧
     ((∀ p, live st p = false) →
        ∀ p, live (uninitialized_move E first (first + n) result st).1 p = true
          ↔ (result ≤ p ∧ p < result + n))) := by
  have key : (uninitialized_move E first (first + n) result st).2
        = Outcome.returned (result + n) ∧
      (uninitialized_move E first (first + n) result st).1.mem
        = (fun p => if result ≤ p ∧ p < result + n
                   then some (st.src (first + (p - result))) else st.mem p) ∧
      (∀ p, destroyed_from p false (uninitialized_move E first (first + n) result st).1.log
        = if result ≤ p ∧ p < result + n then false else destroyed_from p false st.log) := by
    cases hE : E.is_trivially_move_assignable with
    | true =>
      refine ⟨?_, ?_, ?_⟩
      · simp [uninitialized_move, hE, unchecked_uninit_move_trivial, move]
      · simp [uninitialized_move, hE, unchecked_uninit_move_trivial, move, bulk_transfer]
      · intro p
        simp only [uninitialized_move, hE, if_true, unchecked_uninit_move_trivial, move,
          bulk_transfer, Nat.add_sub_cancel_left, destroyed_from_append,
          destroyed_from_assign_events]
    | false =>
      have h : uninitialized_move E first (first + n) result st
          = unchecked_uninit_move E first (first + n) result st := by
        simp [uninitialized_move, hE]
      rw [h, unchecked_uninit_move_ok E first n result st (hok hE)]
      refine ⟨rfl, rfl, ?_⟩
      intro p
      simp only [destroyed_from_append, destroyed_from_ok_events]
  refine ⟨key.1, ?_, ?_, ?_⟩
  · intro i hi
    rw [key.2.1]
    simp only []
    rw [if_pos (by omega), Nat.add_sub_cancel_left]
  · intro p hp
    rw [key.2.1]
    simp only []
    rw [if_neg hp]
  · apply live_of_written
    · intro p hp
      rw [key.2.1]
      simp only [if_pos hp]
      rfl
    · intro p hp
      rw [key.2.1]
      simp only [if_neg hp]
    · exact key.2.2

/-- Witness of `uninitialized_move_success`: three elements moved to raw storage. -/
theorem uninitialized_move_success_witness :
    (uninitialized_move never_throwing 2 (2 + 3) 4 raw_store).2 = Outcome.returned (4 + 3) ∧
    (uninitialized_move never_throwing 2 (2 + 3) 4 raw_store).1.mem (4 + 1)
      = some (raw_store.src (2 + 1)) ∧
    live (uninitialized_move never_throwing 2 (2 + 3) 4 raw_store).1 (4 + 1) = true :=
  have h := uninitialized_move_success never_throwing 2 3 4 raw_store (fun _ => by decide)
  ⟨h.1, h.2.1 1 (by decide), h.2.2.2.1 1 (by decide)⟩

/-! ## Return values -/

theorem unchecked_uninit_copy_n_ok (E : ElemType T) (first n result : Nat) (st : Store T)
    (hok : ∀ i, i < n → E.ctor_throws (st.ctor_calls + i) = false) :
    unchecked_uninit_copy_n E first (n : Int) result st =
      ({ mem := fun p => if result ≤ p ∧ p < result + n
                         then some (st.src (first + (p - result))) else st.mem p
         src := st.src
         ctor_calls := st.ctor_calls + n
         log := st.log ++ ok_events n result }, Outcome.returned (result + n)) := by
  unfold unchecked_uninit_copy_n
  rw [Int.toNat_ofNat, copy_loop_ok E n first result st hok]

theorem unchecked_uninit_move_n_ok (E : ElemType T) (first n result : Nat) (st : Store T)
    (hok : ∀ i, i < n → E.ctor_throws (st.ctor_calls + i) = false) :
    unchecked_uninit_move_n E first (n : Int) result st =
      ({ mem := fun p => if result ≤ p ∧ p < result + n
                         then some (st.src (first + (p - result))) else st.mem p
         src := fun q => if first ≤ q ∧ q < first + n then E.moved_from (st.src q)
                         else st.src q
         ctor_calls := st.ctor_calls + n
         log := st.log ++ ok_events n result }, Outcome.returned (result + n)) := by
  unfold unchecked_uninit_move_n
  rw [Int.toNat_ofNat, move_loop_ok E n first result st hok]

theorem unchecked_uninit_fill_n_ok (E : ElemType T) (first n : Nat) (value : T)
    (st : Store T) (hok : ∀ i, i < n → E.ctor_throws (st.ctor_calls + i) = false) :
    unchecked_uninit_fill_n E first (n : Int) value st =
      ({ mem := fun p => if first ≤ p ∧ p < first + n then some value else st.mem p
         src := st.src
         ctor_calls := st.ctor_calls + n
         log := st.log ++ ok_events n first }, Outcome.returned (first + n)) := by
  unfold unchecked_uninit_fill_n
  rw [Int.toNat_ofNat, fill_loop_ok E value n first st hok]

/-- The range forms that do execute `return`: when no construction throws,
`uninitialized_copy`, `uninitialized_copy_n`, `uninitialized_move` and
`uninitialized_move_n` return the destination start advanced by `n`, on either path, and so
does the inner `unchecked_uninit_fill_n`. -/
theorem range_forms_return_end (E : ElemType T) (first n result : Nat) (value : T)
    (st : Store T) (hok : ∀ i, i < n → E.ctor_throws (st.ctor_calls + i) = false) :
    (uninitialized_copy E first (first + n) result st).2 = Outcome.returned (result + n) ∧
    (uninitialized_copy_n E first (n : Int) result st).2 = Outcome.returned (result + n) ∧
    (uninitialized_move E first (first + n) result st).2 = Outcome.returned (result + n) ∧
    (uninitialized_move_n E first (n : Int) result st).2 = Outcome.returned (result + n) ∧
    (unchecked_uninit_fill_n E result (n : Int) value st).2
      = Outcome.returned (result + n) := by
  refine ⟨?_, ?_, ?_, ?_, ?_⟩
  · cases hE : E.is_trivially_copy_assignable with
    | true => simp [uninitialized_copy, hE, unchecked_uninit_copy_trivial, copy]
    | false =>
      simp only [uninitialized_copy, hE, Bool.false_eq_true, if_false]
      rw [unchecked_uninit_copy_ok E first n result st hok]
  · cases hE : E.is_trivially_copy_assignable with
    | true => simp [uninitialized_copy_n, hE, unchecked_uninit_copy_n_trivial, copy_n]
    | false =>
      simp only [uninitialized_copy_n, hE, Bool.false_eq_true, if_false]
      rw [unchecked_uninit_copy_n_ok E first n result st hok]
  · cases hE : E.is_trivially_move_assignable with
    | true => simp [uninitialized_move, hE, unchecked_uninit_move_trivial, move]
    | false =>
      simp only [uninitialized_move, hE, Bool.false_eq_true, if_false]
      rw [unchecked_uninit_move_ok E first n result st hok]
  · cases hE : E.is_trivially_move_assignable with
    | true =>
      simp only [uninitialized_move_n, hE, if_true, unchecked_uninit_move_n_trivial, move]
      congr 1
      omega
    | false =>
      simp only [uninitialized_move_n, hE, Bool.false_eq_true, if_false]
      rw [unchecked_uninit_move_n_ok E first n result st hok]
  · rw [unchecked_uninit_fill_n_ok E result n value st hok]

theorem uninitialized_fill_n_outcome (E : ElemType T) (first : Nat) (n : Int) (value : T)
    (st : Store T) :
    (uninitialized_fill_n E first n value st).2 = Outcome.finished := by
  unfold uninitialized_fill_n
  cases hE : E.is_trivially_copy_assignable with
  | true => simp [unchecked_uninit_fill_n_trivial]
  | false =>
    simp only [Bool.false_eq_true, if_false]
    unfold unchecked_uninit_fill_n
    cases h : (fill_loop E value n.toNat first st).2.2 with
    | true =>
      have : fill_loop E value n.toNat first st
          = ((fill_loop E value n.toNat first st).1,
             (fill_loop E value n.toNat first st).2.1, true) := by rw [← h]
      rw [this]
    | false =>
      have : fill_loop E value n.toNat first st
          = ((fill_loop E value n.toNat first st).1,
             (fill_loop E value n.toNat first st).2.1, false) := by rw [← h]
      rw [this]

/-- C9 (the code at the failing input): `uninitialized_fill_n` has no `return` statement.
Filling five raw slots with 42 succeeds, the inner `unchecked_uninit_fill_n` returns the end
position `first + 5`, but the call of `uninitialized_fill_n` itself hands no iterator to its
caller; and this is so for every input. -/
theorem uninitialized_fill_n_returns_no_iterator :
    (unchecked_uninit_fill_n never_throwing 0 5 42 raw_store).2 = Outcome.returned 5 ∧
    (uninitialized_fill_n never_throwing 0 5 42 raw_store).2 = Outcome.finished ∧
    (uninitialized_fill_n trivial_type 0 5 42 raw_store).2 = Outcome.finished ∧
    (∀ (E : ElemType Nat) (first : Nat) (n : Int) (value : Nat) (st : Store Nat) (pos : Nat),
      (uninitialized_fill_n E first n value st).2 ≠ Outcome.returned pos) := by
  refine ⟨by decide, by decide, by decide, ?_⟩
  intro E first n value st pos
  rw [uninitialized_fill_n_outcome]
  exact fun h => Outcome.noConfusion h

/-! ## Zero-length ranges -/

theorem bulk_transfer_zero (result : Nat) (value : Nat → T) (st : Store T) :
    bulk_transfer 0 result value st = st := by
  refine Store.ext ?_ rfl rfl ?_
  · funext p
    simp only [bulk_transfer]
    rw [if_neg (by omega)]
  · simp [bulk_transfer]

/-- Zero-length calls of the five forms other than `uninitialized_fill_n`, on either path:
with `first == last`, or with a count `n ≤ 0`, the store is unchanged (no `construct`, no
`destroy`, no write to the destination) and the value-returning forms return `result`. -/
theorem zero_length_is_noop (E : ElemType T) (first result : Nat) (n : Int) (value : T)
    (st : Store T) (hn : n ≤ 0) :
    uninitialized_copy E first first result st = (st, Outcome.returned result) ∧
    uninitialized_move E first first result st = (st, Outcome.returned result) ∧
    uninitialized_fill E first first value st = (st, Outcome.finished) ∧
    uninitialized_copy_n E first n result st = (st, Outcome.returned result) ∧
    uninitialized_move_n E first n result st = (st, Outcome.returned result) := by
  have hz : n.toNat = 0 := Int.toNat_eq_zero.mpr hn
  refine ⟨?_, ?_, ?_, ?_, ?_⟩
  · cases hE : E.is_trivially_copy_assignable <;>
      simp [uninitialized_copy, hE, unchecked_uninit_copy_trivial, copy, unchecked_uninit_copy,
        copy_loop, bulk_transfer_zero]
  · cases hE : E.is_trivially_move_assignable <;>
      simp [uninitialized_move, hE, unchecked_uninit_move_trivial, move, unchecked_uninit_move,
        move_loop, bulk_transfer_zero]
  · cases hE : E.is_trivially_copy_assignable <;>
      simp [uninitialized_fill, hE, unchecked_uninit_fill_trivial, fill, unchecked_uninit_fill,
        fill_loop, bulk_transfer_zero]
  · cases hE : E.is_trivially_copy_assignable <;>
      simp [uninitialized_copy_n, hE, unchecked_uninit_copy_n_trivial, copy_n,
        unchecked_uninit_copy_n, copy_loop, bulk_transfer_zero, hz]
  · have hz2 : ((first : Int) + n).toNat - first = 0 := by omega
    cases hE : E.is_trivially_move_assignable <;>
      simp [uninitialized_move_n, hE, unchecked_uninit_move_n_trivial, move,
        unchecked_uninit_move_n, move_loop, bulk_transfer_zero, hz, hz2]

/-- C10 (the code at the failing input): `uninitialized_fill_n(dest, 0, v)`, and every call
with a count `-m ≤ 0`, leaves the store unchanged (no `construct`, no `destroy`, no write)
but ends without a `return` statement, so it does not return `dest`; the inner
`unchecked_uninit_fill_n` does return `dest`. -/
theorem uninitialized_fill_n_zero_returns_no_iterator :
    uninitialized_fill_n never_throwing 3 0 42 raw_store = (raw_store, Outcome.finished) ∧
    unchecked_uninit_fill_n never_throwing 3 0 42 raw_store
      = (raw_store, Outcome.returned 3) ∧
    (∀ (E : ElemType Nat) (first m : Nat) (value : Nat) (st : Store Nat),
      uninitialized_fill_n E first (-(m : Int)) value st = (st, Outcome.finished)) := by
  have hgen : ∀ (E : ElemType Nat) (first m : Nat) (value : Nat) (st : Store Nat),
      uninitialized_fill_n E first (-(m : Int)) value st = (st, Outcome.finished) := by
    intro E first m value st
    have hz : (-(m : Int)).toNat = 0 := Int.toNat_eq_zero.mpr (by omega)
    cases hE : E.is_trivially_copy_assignable <;>
      simp [uninitialized_fill_n, hE, unchecked_uninit_fill_n_trivial, fill_n,
        unchecked_uninit_fill_n, fill_loop, bulk_transfer_zero, hz]
  refine ⟨?_, ?_, hgen⟩
  · simpa using hgen never_throwing 3 0 42 raw_store
  · simp [unchecked_uninit_fill_n, fill_loop]

/-! ## The handlers of the copy forms and of `uninitialized_move_n` -/

theorem copy_rollback_spec (E : ElemType T) (result : Nat) :
    ∀ (k : Nat) (st : Store T),
      (copy_rollback E result (result + k) st).2 = result ∧
      (∀ p, destroy_calls (copy_rollback E result (result + k) st).1 p
          = destroy_calls st p + (if result < p ∧ p ≤ result + k then 1 else 0)) ∧
      (∀ p, (copy_rollback E result (result + k) st).1.mem p
          = if E.is_trivially_destructible = false ∧ result < p ∧ p ≤ result + k then none
            else st.mem p) := by
  intro k
  induction k with
  | zero =>
    intro st
    have h : copy_rollback E result (result + 0) st = (st, result) := by
      cases result with
      | zero => rfl
      | succ r => simp [copy_rollback]
    rw [h]
    refine ⟨rfl, ?_, ?_⟩
    · intro p
      rw [if_neg (by omega)]
      rfl
    · intro p
      rw [if_neg (by omega)]
  | succ k ih =>
    intro st
    have h : copy_rollback E result (result + (k + 1)) st
        = copy_rollback E result (result + k) (destroy E (some (result + k + 1)) st) := by
      rw [show result + (k + 1) = (result + k) + 1 by omega, copy_rollback,
        if_neg (by omega)]
    rw [h]
    obtain ⟨h1, h2, h3⟩ := ih (destroy E (some (result + k + 1)) st)
    refine ⟨h1, ?_, ?_⟩
    · intro p
      rw [h2 p, destroy_eq]
      simp only [destroy_calls, List.count_append, List.count_cons]
      by_cases hp : p = result + k + 1
      · subst hp
        have e1 : ¬ (result < result + k + 1 ∧ result + k + 1 ≤ result + k) := by omega
        have e2 : result < result + k + 1 ∧ result + k + 1 ≤ result + (k + 1) := by omega
        simp only [if_neg e1, if_pos e2]
        cases E.is_trivially_destructible <;> simp
      · have hne : ¬ (Event.destroy (some (result + k + 1)) = Event.destroy (some p)) := by
          intro h
          injection h with h
          injection h with h
          exact hp h.symm
        by_cases hin : result < p ∧ p ≤ result + k
        · have e2 : result < p ∧ p ≤ result + (k + 1) := by omega
          simp only [if_pos hin, if_pos e2]
          cases E.is_trivially_destructible <;> simp [hne]
        · have e2 : ¬ (result < p ∧ p ≤ result + (k + 1)) := by omega
          simp only [if_neg hin, if_neg e2]
          cases E.is_trivially_destructible <;> simp [hne]
    · intro p
      rw [h3 p, destroy_eq]
      simp only []
      by_cases hd : E.is_trivially_destructible = false
      · by_cases hp : p = result + k + 1
        · subst hp
          have e1 : ¬ (E.is_trivially_destructible = false ∧
              result < result + k + 1 ∧ result + k + 1 ≤ result + k) := by
            intro h; omega
          have e2 : E.is_trivially_destructible = false ∧
              result < result + k + 1 ∧ result + k + 1 ≤ result + (k + 1) := ⟨hd, by omega⟩
          simp only [if_neg e1, if_pos e2]
          simp [hd]
        · by_cases hin : result < p ∧ p ≤ result + k
          · have e1 : E.is_trivially_destructible = false ∧ result < p ∧ p ≤ result + k :=
              ⟨hd, hin⟩
            have e2 : E.is_trivially_destructible = false ∧
                result < p ∧ p ≤ result + (k + 1) := ⟨hd, by omega⟩
            simp only [if_pos e1, if_pos e2]
          · have e1 : ¬ (E.is_trivially_destructible = false ∧ result < p ∧ p ≤ result + k) :=
              fun h => hin h.2
            have e2 : ¬ (E.is_trivially_destructible = false ∧
                result < p ∧ p ≤ result + (k + 1)) := by
              intro h; omega
            have e3 : ¬ (E.is_trivially_destructible = false ∧ p = result + k + 1) :=
              fun h => hp h.2
            simp only [if_neg e1, if_neg e2, if_neg e3]
      · have e1 : ¬ (E.is_trivially_destructible = false ∧ result < p ∧ p ≤ result + k) :=
          fun h => hd h.1
        have e2 : ¬ (E.is_trivially_destructible = false ∧
            result < p ∧ p ≤ result + (k + 1)) := fun h => hd h.1
        have e3 : ¬ (E.is_trivially_destructible = false ∧ p = result + k + 1) :=
          fun h => hd h.1
        simp only [if_neg e1, if_neg e2, if_neg e3]

theorem copy_rollback_lifetime (E : ElemType T) (result p : Nat) :
    ∀ (k : Nat) (st : Store T), ¬ (result < p ∧ p ≤ result + k) →
      destroyed_from p false (copy_rollback E result (result + k) st).1.log
        = destroyed_from p false st.log := by
  intro k
  induction k with
  | zero =>
    intro st _
    have h : copy_rollback E result (result + 0) st = (st, result) := by
      cases result with
      | zero => rfl
      | succ r => simp [copy_rollback]
    rw [h]
  | succ k ih =>
    intro st hp
    have h : copy_rollback E result (result + (k + 1)) st
        = copy_rollback E result (result + k) (destroy E (some (result + k + 1)) st) := by
      rw [show result + (k + 1) = (result + k) + 1 by omega, copy_rollback,
        if_neg (by omega)]
    have hne : ¬ (result + k + 1 = p) := by omega
    rw [h, ih _ (by omega), destroy_eq]
    cases E.is_trivially_destructible <;>
      simp [destroyed_from, List.foldl_append, lifetime_step, Event.ends_lifetime,
        Event.writes, hne]

/-- The handler of the copy forms in general: when the construction of element `k` of `n`
throws after the elements before it were constructed, `unchecked_uninit_copy` and
`unchecked_uninit_copy_n` return `result` without raising, having applied `destroy` exactly
once to each slot of `(result, result + k]` (the failed slot included, slot `result`
excluded) and to no other slot; for `k ≥ 1` slot `result` still holds a live object, the
copy of the first source element. -/
theorem copy_rollback_off_by_one (E : ElemType T) (first n result k : Nat) (st : Store T)
    (hk : k < n)
    (hok : ∀ i, i < k → E.ctor_throws (st.ctor_calls + i) = false)
    (hthrow : E.ctor_throws (st.ctor_calls + k) = true) :
    unchecked_uninit_copy_n E first (n : Int) result st
      = unchecked_uninit_copy E first (first + n) result st ∧
    (unchecked_uninit_copy E first (first + n) result st).2 = Outcome.returned result ∧
    (∀ p, destroy_calls (unchecked_uninit_copy E first (first + n) result st).1 p
        = destroy_calls st p + (if result < p ∧ p ≤ result + k then 1 else 0)) ∧
    (1 ≤ k →
      (unchecked_uninit_copy E first (first + n) result st).1.mem result
        = some (st.src first) ∧
      live (unchecked_uninit_copy E first (first + n) result st).1 result = true) := by
  have hn : unchecked_uninit_copy_n E first (n : Int) result st
      = unchecked_uninit_copy E first (first + n) result st := by
    unfold unchecked_uninit_copy_n unchecked_uninit_copy
    rw [Int.toNat_ofNat, Nat.add_sub_cancel_left]
  refine ⟨hn, ?_⟩
  unfold unchecked_uninit_copy
  rw [Nat.add_sub_cancel_left, copy_loop_throws E n k first result st hk hok hthrow]
  simp only []
  obtain ⟨h1, h2, h3⟩ := copy_rollback_spec E result k
    { mem := fun p => if result ≤ p ∧ p < result + k
                      then some (st.src (first + (p - result)))
                      else if p = result + k then none else st.mem p
      src := st.src
      ctor_calls := st.ctor_calls + k + 1
      log := st.log ++ ok_events k result ++ [Event.construct (result + k) true] }
  have h4 := copy_rollback_lifetime E result result k
    { mem := fun p => if result ≤ p ∧ p < result + k
                      then some (st.src (first + (p - result)))
                      else if p = result + k then none else st.mem p
      src := st.src
      ctor_calls := st.ctor_calls + k + 1
      log := st.log ++ ok_events k result ++ [Event.construct (result + k) true] }
    (by omega)
  refine ⟨by rw [h1], ?_, ?_⟩
  · intro p
    rw [h2 p]
    simp [destroy_calls, List.count_append, count_destroy_ok_events, List.count_cons]
  · intro hk1
    have hmem : (copy_rollback E result (result + k)
        { mem := fun p => if result ≤ p ∧ p < result + k
                          then some (st.src (first + (p - result)))
                          else if p = result + k then none else st.mem p
          src := st.src
          ctor_calls := st.ctor_calls + k + 1
          log := st.log ++ ok_events k result ++ [Event.construct (result + k) true] }).1.mem
          result = some (st.src first) := by
      rw [h3 result, if_neg (by omega)]
      simp only []
      rw [if_pos (by omega), Nat.sub_self, Nat.add_zero]
    refine ⟨hmem, ?_⟩
    have e1 : result ≤ result ∧ result < result + k := by omega
    have e2 : ¬ (result + k = result) := by omega
    simp only [live, hmem, h4, destroyed_from_append, destroyed_from_ok_events, if_pos e1]
    simp [destroyed_from, lifetime_step, Event.ends_lifetime, Event.writes, e2]

theorem destroy_range_counts (E : ElemType T) (hdtor : E.is_trivially_destructible = false)
    (first k : Nat) (st : Store T) (p : Nat) :
    dtor_runs (destroy_range E first (first + k) st) p
      = dtor_runs st p + (if first ≤ p ∧ p < first + k then 1 else 0) ∧
    destroy_calls (destroy_range E first (first + k) st) p
      = destroy_calls st p + (if first ≤ p ∧ p < first + k then 1 else 0) := by
  have h := rolled_back_destroy_forward E st
    { st with log := st.log ++ [Event.destroy_range first (first + k)] } first k
    (by intro q; simp [destroy_calls, List.count_append, List.count_cons])
  have h2 := destructors_ran_destroy_forward E st
    { st with log := st.log ++ [Event.destroy_range first (first + k)] } first k hdtor
    (by intro q; simp [dtor_runs, List.count_append, List.count_cons])
  rw [destroy_range_eq E first k st hdtor]
  exact ⟨h2.1 p, h.1 p⟩

theorem move_n_rollback_spec (E : ElemType T) (hdtor : E.is_trivially_destructible = false)
    (p : Nat) :
    ∀ (count result : Nat) (st : Store T),
      dtor_runs (move_n_rollback E (result + count) count result st) p
        = dtor_runs st p + (if result ≤ p ∧ p < result + count then p - result + 1 else 0) ∧
      destroy_calls (move_n_rollback E (result + count) count result st) p
        = destroy_calls st p
          + (if result ≤ p ∧ p < result + count then p - result + 1 else 0) := by
  intro count
  induction count with
  | zero =>
    intro result st
    rw [if_neg (by omega)]
    exact ⟨rfl, rfl⟩
  | succ count ih =>
    intro result st
    have hcur : result + (count + 1) = (result + 1) + count := by omega
    have hstep := ih (result + 1) (destroy_range E result (result + (count + 1)) st)
    rw [← hcur] at hstep
    obtain ⟨h1, h2⟩ := hstep
    obtain ⟨r1, r2⟩ := destroy_range_counts E hdtor result (count + 1) st p
    rw [move_n_rollback, h1, h2, r1, r2]
    constructor <;> split_ifs <;> omega

/-- The handler of `unchecked_uninit_move_n` in general, for an element type that is not
trivially destructible: when the construction of element `k` of `n` throws after the
elements before it were constructed, the exception is rethrown, and slot `result + j` with
`j < k` has been destroyed `j + 1` times; no slot at or beyond `result + k` and no slot
before `result` has been destroyed. -/
theorem move_n_rollback_repeats (E : ElemType T) (first n result k : Nat) (st : Store T)
    (hdtor : E.is_trivially_destructible = false)
    (hk : k < n)
    (hok : ∀ i, i < k → E.ctor_throws (st.ctor_calls + i) = false)
    (hthrow : E.ctor_throws (st.ctor_calls + k) = true) :
    (unchecked_uninit_move_n E first (n : Int) result st).2 = Outcome.raised ∧
    (∀ p, dtor_runs (unchecked_uninit_move_n E first (n : Int) result st).1 p
        = dtor_runs st p + (if result ≤ p ∧ p < result + k then p - result + 1 else 0)) ∧
    (∀ p, destroy_calls (unchecked_uninit_move_n E first (n : Int) result st).1 p
        = destroy_calls st p + (if result ≤ p ∧ p < result + k then p - result + 1 else 0)) := by
  unfold unchecked_uninit_move_n
  rw [Int.toNat_ofNat, move_loop_throws E n k first result st hk hok hthrow]
  simp only [Nat.add_sub_cancel_left, true_and]
  refine ⟨?_, ?_⟩
  · intro p
    rw [(move_n_rollback_spec E hdtor p k result _).1]
    simp [dtor_runs, List.count_append, count_dtor_ok_events, List.count_cons]
  · intro p
    rw [(move_n_rollback_spec E hdtor p k result _).2]
    simp [destroy_calls, List.count_append, count_destroy_ok_events, List.count_cons]

/-- C1 (the code at the failing input): two elements are copied to raw storage, the
construction of element 1 throws after element 0 was constructed. The handler loop
`for (; result != cur; --cur)` stops before it reaches `result`, so slot 0 of the
destination still holds its live object when `uninitialized_copy` and
`uninitialized_copy_n` finish, and no destructor ran on it. -/
theorem copy_rollback_leaves_first_slot_live :
    (∀ p, live raw_store p = false) ∧
    (throwing_at 1).ctor_throws 0 = false ∧ (throwing_at 1).ctor_throws 1 = true ∧
    live (uninitialized_copy (throwing_at 1) 0 2 0 raw_store).1 0 = true ∧
    (uninitialized_copy (throwing_at 1) 0 2 0 raw_store).1.mem 0 = some (raw_store.src 0) ∧
    dtor_runs (uninitialized_copy (throwing_at 1) 0 2 0 raw_store).1 0 = 0 ∧
    live (uninitialized_copy_n (throwing_at 1) 0 2 0 raw_store).1 0 = true ∧
    (uninitialized_copy_n (throwing_at 1) 0 2 0 raw_store).1.mem 0 = some (raw_store.src 0) ∧
    dtor_runs (uninitialized_copy_n (throwing_at 1) 0 2 0 raw_store).1 0 = 0 := by
  refine ⟨fun _ => rfl, by decide, by decide, by decide, by decide, by decide, by decide,
    by decide, by decide⟩

/-- C2 (the code at the failing input): the construction of the first element throws. Only
the handler of `unchecked_uninit_move_n` ends in `throw;`. The other five forms swallow the
exception: `uninitialized_copy`, `uninitialized_copy_n`, `uninitialized_fill_n` (inner
function) and `uninitialized_move` return an iterator, `uninitialized_fill` ends normally;
on the element-wise path none of the five raises, whatever the input. -/
theorem construction_failure_is_swallowed :
    (throwing_at 0).ctor_throws 0 = true ∧
    (uninitialized_copy (throwing_at 0) 0 1 0 raw_store).2 = Outcome.returned 0 ∧
    (uninitialized_copy_n (throwing_at 0) 0 1 0 raw_store).2 = Outcome.returned 0 ∧
    (uninitialized_fill (throwing_at 0) 0 1 7 raw_store).2 = Outcome.finished ∧
    (unchecked_uninit_fill_n (throwing_at 0) 0 1 7 raw_store).2 = Outcome.returned 0 ∧
    (uninitialized_fill_n (throwing_at 0) 0 1 7 raw_store).2 = Outcome.finished ∧
    (uninitialized_move (throwing_at 0) 0 1 0 raw_store).2 = Outcome.returned 0 ∧
    (uninitialized_move_n (throwing_at 0) 0 1 0 raw_store).2 = Outcome.raised ∧
    (∀ (E : ElemType Nat) (first last result : Nat) (n : Int) (value : Nat) (st : Store Nat),
      (unchecked_uninit_copy E first last result st).2 ≠ Outcome.raised ∧
      (unchecked_uninit_copy_n E first n result st).2 ≠ Outcome.raised ∧
      (unchecked_uninit_fill E first last value st).2 ≠ Outcome.raised ∧
      (unchecked_uninit_fill_n E first n value st).2 ≠ Outcome.raised ∧
      (unchecked_uninit_move E first last result st).2 ≠ Outcome.raised) := by
  refine ⟨by decide, by decide, by decide, by decide, by decide, by decide, by decide,
    by decide, ?_⟩
  intro E first last result n value st
  refine ⟨?_, ?_, ?_, ?_, ?_⟩
  · unfold unchecked_uninit_copy
    split <;> exact fun h => Outcome.noConfusion h
  · unfold unchecked_uninit_copy_n
    split <;> exact fun h => Outcome.noConfusion h
  · unfold unchecked_uninit_fill
    split <;> exact fun h => Outcome.noConfusion h
  · unfold unchecked_uninit_fill_n
    split <;> exact fun h => Outcome.noConfusion h
  · unfold unchecked_uninit_move
    split <;> exact fun h => Outcome.noConfusion h

/-- C3 (the code at the failing input): two elements are copied to raw storage, the
construction of element 1 throws. The handler loop starts at `cur`, the slot whose
construction failed: `destroy` is applied to slot 1 and its destructor runs, although no
object was constructed there, while slot 0 is not destroyed; the events are, in order,
construct 0, failed construct 1, destroy 1, destructor 1. -/
theorem copy_rollback_destroys_failed_slot :
    (throwing_at 1).ctor_throws 0 = false ∧ (throwing_at 1).ctor_throws 1 = true ∧
    (uninitialized_copy (throwing_at 1) 0 2 0 raw_store).1.log
      = [Event.construct 0 false, Event.construct 1 true, Event.destroy (some 1),
         Event.dtor 1] ∧
    destroy_calls (uninitialized_copy (throwing_at 1) 0 2 0 raw_store).1 1 = 1 ∧
    destroy_calls (uninitialized_copy (throwing_at 1) 0 2 0 raw_store).1 0 = 0 ∧
    (uninitialized_copy_n (throwing_at 1) 0 2 0 raw_store).1.log
      = [Event.construct 0 false, Event.construct 1 true, Event.destroy (some 1),
         Event.dtor 1] ∧
    destroy_calls (uninitialized_copy_n (throwing_at 1) 0 2 0 raw_store).1 1 = 1 ∧
    destroy_calls (uninitialized_copy_n (throwing_at 1) 0 2 0 raw_store).1 0 = 0 := by
  refine ⟨by decide, by decide, by decide, by decide, by decide, by decide, by decide,
    by decide⟩

/-- C4 (the code at the failing input): three elements are moved to raw storage, the
construction of element 2 throws. The handler loop
`for (; result != cur; ++result) destroy(result, cur);` destroys the whole remaining range
in every iteration: slot 0 is destroyed once, slot 1 twice, before the exception is
rethrown. -/
theorem move_n_rollback_destroys_twice :
    (throwing_at 2).ctor_throws 0 = false ∧ (throwing_at 2).ctor_throws 1 = false ∧
    (throwing_at 2).ctor_throws 2 = true ∧
    (uninitialized_move_n (throwing_at 2) 0 3 0 raw_store).2 = Outcome.raised ∧
    (uninitialized_move_n (throwing_at 2) 0 3 0 raw_store).1.log
      = [Event.construct 0 false, Event.construct 1 false, Event.construct 2 true,
         Event.destroy_range 0 2, Event.destroy (some 0), Event.dtor 0,
         Event.destroy (some 1), Event.dtor 1,
         Event.destroy_range 1 2, Event.destroy (some 1), Event.dtor 1] ∧
    dtor_runs (uninitialized_move_n (throwing_at 2) 0 3 0 raw_store).1 0 = 1 ∧
    dtor_runs (uninitialized_move_n (throwing_at 2) 0 3 0 raw_store).1 1 = 2 ∧
    destroy_calls (uninitialized_move_n (throwing_at 2) 0 3 0 raw_store).1 1 = 2 := by
  refine ⟨by decide, by decide, by decide, by decide, by decide, by decide, by decide,
    by decide⟩

/-! ## Success postcondition of the fill forms -/

theorem writes_ok_events (p : Nat) :
    ∀ (count cur : Nat),
      (ok_events count cur).countP (Event.writes p)
        = if cur ≤ p ∧ p < cur + count then 1 else 0 := by
  intro count
  induction count with
  | zero =>
    intro cur
    rw [if_neg (by omega)]
    rfl
  | succ count ih =>
    intro cur
    rw [ok_events, List.countP_cons, ih]
    by_cases hp : cur = p
    · subst hp
      have e1 : ¬ (cur + 1 ≤ cur ∧ cur < cur + 1 + count) := by omega
      have e2 : cur ≤ cur ∧ cur < cur + (count + 1) := by omega
      simp [if_neg e1, if_pos e2, Event.writes]
    · by_cases hin : cur + 1 ≤ p ∧ p < cur + 1 + count
      · have e2 : cur ≤ p ∧ p < cur + (count + 1) := by omega
        simp [if_pos hin, if_pos e2, Event.writes, hp]
      · have e2 : ¬ (cur ≤ p ∧ p < cur + (count + 1)) := by omega
        simp [if_neg hin, if_neg e2, Event.writes, hp]

theorem writes_assign_events (p result : Nat) :
    ∀ (count : Nat),
      ((List.range count).map (fun i => Event.assign (result + i))).countP (Event.writes p)
        = if result ≤ p ∧ p < result + count then 1 else 0 := by
  intro count
  induction count with
  | zero =>
    rw [if_neg (by omega)]
    rfl
  | succ count ih =>
    rw [List.range_succ, List.map_append, List.countP_append, ih]
    by_cases hp : result + count = p
    · have e1 : ¬ (result ≤ p ∧ p < result + count) := by omega
      have e2 : result ≤ p ∧ p < result + (count + 1) := by omega
      simp [if_neg e1, if_pos e2, Event.writes, hp]
    · by_cases hin : result ≤ p ∧ p < result + count
      · have e2 : result ≤ p ∧ p < result + (count + 1) := by omega
        simp [if_pos hin, if_pos e2, Event.writes, hp]
      · have e2 : ¬ (result ≤ p ∧ p < result + (count + 1)) := by omega
        simp [if_neg hin, if_neg e2, Event.writes, hp]

/-- A store whose slots `[first, first + n)` were set to `value` and whose log grew by one
write per slot of the range satisfies `filled`. -/
theorem filled_of_closed_form (st st1 : Store T) (first n : Nat) (value : T)
    (extra : List Event)
    (hmem : st1.mem = fun p => if first ≤ p ∧ p < first + n then some value else st.mem p)
    (hlog : st1.log = st.log ++ extra)
    (hlife : ∀ p b, destroyed_from p b extra
        = if first ≤ p ∧ p < first + n then false else b)
    (hwrites : ∀ p, extra.countP (Event.writes p)
        = if first ≤ p ∧ p < first + n then 1 else 0) :
    filled st st1 first n value := by
  have hlive := live_of_written st st1 first n
    (by intro p hp; rw [hmem]; simp only [if_pos hp]; rfl)
    (by intro p hp; rw [hmem]; simp only [if_neg hp])
    (by intro p; rw [hlog, destroyed_from_append, hlife])
  refine ⟨?_, ?_, ?_⟩
  · intro i hi
    refine ⟨?_, hlive.1 i hi⟩
    have e : first ≤ first + i ∧ first + i < first + n := by omega
    rw [hmem]
    simp only [if_pos e]
  · intro p hp
    refine ⟨?_, hlive.2.1 p hp⟩
    rw [hmem]
    simp only [if_neg hp]
  · intro p
    simp only [writes_to, hlog, List.countP_append, hwrites]

theorem unchecked_uninit_fill_ok (E : ElemType T) (first n : Nat) (value : T)
    (st : Store T) (hok : ∀ i, i < n → E.ctor_throws (st.ctor_calls + i) = false) :
    unchecked_uninit_fill E first (first + n) value st =
      ({ mem := fun p => if first ≤ p ∧ p < first + n then some value else st.mem p
         src := st.src
         ctor_calls := st.ctor_calls + n
         log := st.log ++ ok_events n first }, Outcome.finished) := by
  unfold unchecked_uninit_fill
  rw [Nat.add_sub_cancel_left, fill_loop_ok E value n first st hok]

/-- Success of a fill by the functions that end in a defined way, on either path. If no
construction throws, then after `uninitialized_fill(first, first + n, v)`, and after the
inner call `unchecked_uninit_fill_n(first, n, v, tag)` with either tag, every slot of
`[first, first + n)` holds a live object equal to `v` that was put there exactly once, and
every slot outside the range is unchanged; the inner call returns `first + n`. On the
element-wise path the events of the call are exactly one successful `construct` per slot,
in ascending order. -/
theorem fill_paths_success (E : ElemType T) (first n : Nat) (value : T)
    (st : Store T)
    (hok : E.is_trivially_copy_assignable = false →
      ∀ i, i < n → E.ctor_throws (st.ctor_calls + i) = false) :
    filled st (uninitialized_fill E first (first + n) value st).1 first n value ∧
    (filled st (unchecked_uninit_fill_n_trivial first (n : Int) value st).1 first n value ∧
      (unchecked_uninit_fill_n_trivial first (n : Int) value st).2
        = Outcome.returned (first + n)) ∧
    (E.is_trivially_copy_assignable = false →
      filled st (unchecked_uninit_fill_n E first (n : Int) value st).1 first n value ∧
      (unchecked_uninit_fill_n E first (n : Int) value st).2 = Outcome.returned (first + n) ∧
      (uninitialized_fill E first (first + n) value st).1.log
        = st.log ++ (List.range n).map (fun i => Event.construct (first + i) false) ∧
      (unchecked_uninit_fill_n E first (n : Int) value st).1.log
        = st.log ++ (List.range n).map (fun i => Event.construct (first + i) false)) := by
  have h1 : filled st
      (bulk_transfer n first (fun _ => value) st) first n value :=
    filled_of_closed_form st _ first n value
      ((List.range n).map (fun i => Event.assign (first + i))) rfl rfl
      (fun p b => destroyed_from_assign_events p first n b)
      (fun p => writes_assign_events p first n)
  have ht : filled st (unchecked_uninit_fill_n_trivial first (n : Int) value st).1
        first n value ∧
      (unchecked_uninit_fill_n_trivial first (n : Int) value st).2
        = Outcome.returned (first + n) := by
    refine ⟨?_, ?_⟩
    · simpa [unchecked_uninit_fill_n_trivial, fill_n] using h1
    · simp [unchecked_uninit_fill_n_trivial, fill_n]
  cases hE : E.is_trivially_copy_assignable with
  | true =>
    refine ⟨?_, ht, ?_⟩
    · simpa [uninitialized_fill, hE, unchecked_uninit_fill_trivial, fill] using h1
    · intro h
      exact absurd h (by simp)
  | false =>
    simp only [uninitialized_fill, hE, Bool.false_eq_true, if_false]
    rw [unchecked_uninit_fill_ok E first n value st (hok hE),
      unchecked_uninit_fill_n_ok E first n value st (hok hE)]
    have h2 : filled st
        { mem := fun p => if first ≤ p ∧ p < first + n then some value else st.mem p
          src := st.src
          ctor_calls := st.ctor_calls + n
          log := st.log ++ ok_events n first } first n value :=
      filled_of_closed_form st _ first n value (ok_events n first) rfl rfl
        (fun p b => destroyed_from_ok_events p n first b)
        (fun p => writes_ok_events p n first)
    refine ⟨h2, ht, ?_⟩
    intro _
    refine ⟨h2, rfl, ?_, ?_⟩ <;> simp only [ok_events_eq_map]

/-- C11 (the code at the failing input): five raw slots are to be filled with 42.
`uninitialized_fill(first, first + 5, 42)` does it on either path and ends in a defined way:
every slot of the range holds a live 42 put there exactly once and every other slot is
unchanged. The inner `unchecked_uninit_fill_n(first, 5, 42, tag)` does the same with either
tag and returns `first + 5`. But `uninitialized_fill_n(first, 5, 42)`, declared to return an
iterator, reaches its closing brace without a `return` statement, on either path and for
every input: its behaviour is undefined, so no postcondition on the storage holds for the
call. -/
theorem uninitialized_fill_n_is_undefined :
    filled raw_store (uninitialized_fill never_throwing 0 (0 + 5) 42 raw_store).1 0 5 42 ∧
    filled raw_store (uninitialized_fill trivial_type 0 (0 + 5) 42 raw_store).1 0 5 42 ∧
    Outcome.defined false (uninitialized_fill never_throwing 0 (0 + 5) 42 raw_store).2 = true ∧
    Outcome.defined false (uninitialized_fill trivial_type 0 (0 + 5) 42 raw_store).2 = true ∧
    filled raw_store (unchecked_uninit_fill_n never_throwing 0 ((5 : Nat) : Int) 42 raw_store).1
      0 5 42 ∧
    filled raw_store (unchecked_uninit_fill_n_trivial 0 ((5 : Nat) : Int) 42 raw_store).1
      0 5 42 ∧
    Outcome.defined true (unchecked_uninit_fill_n never_throwing 0 ((5 : Nat) : Int) 42
      raw_store).2 = true ∧
    Outcome.defined true (unchecked_uninit_fill_n_trivial 0 ((5 : Nat) : Int) 42
      raw_store).2 = true ∧
    Outcome.defined true (uninitialized_fill_n never_throwing 0 ((5 : Nat) : Int) 42
      raw_store).2 = false ∧
    Outcome.defined true (uninitialized_fill_n trivial_type 0 ((5 : Nat) : Int) 42
      raw_store).2 = false ∧
    (∀ (E : ElemType Nat) (first : Nat) (n : Int) (value : Nat) (st : Store Nat),
      Outcome.defined true (uninitialized_fill_n E first n value st).2 = false) := by
  have he := fill_paths_success never_throwing 0 5 42 raw_store (fun _ => by decide)
  have ht := fill_paths_success trivial_type 0 5 42 raw_store (fun h => absurd h (by decide))
  refine ⟨he.1, ht.1, by decide, by decide, (he.2.2 rfl).1, ht.2.1.1, by decide, by decide,
    by decide, by decide, ?_⟩
  intro E first n value st
  rw [uninitialized_fill_n_outcome]
  rfl

/-! ## The range form of `destroy` -/

theorem dtors_of_destroy_events :
    ∀ (count first : Nat),
      (destroy_events false count first).filter Event.is_dtor
        = (List.range count).map (fun i => Event.dtor (first + i)) := by
  intro count
  induction count with
  | zero => intro first; simp [destroy_events]
  | succ count ih =>
    intro first
    rw [destroy_events, List.range_succ_eq_map, List.map_cons, List.map_map]
    simp only [Bool.false_eq_true, if_false, List.singleton_append, Nat.add_zero]
    rw [List.filter_cons_of_neg (by simp [Event.is_dtor]),
      List.filter_cons_of_pos (by simp [Event.is_dtor]), ih]
    simp only [List.cons.injEq, true_and]
    apply List.map_congr_left
    intro i _
    simp only [Function.comp, Nat.succ_eq_add_one]
    congr 1
    omega

/-- C12: the range form `destroy(first, last)` on a valid range `[first, first + n)`. For a
trivially destructible element type nothing is done: the store is unchanged but for the
record of the call itself, so no destructor runs and the single-object `destroy` is applied
to no element. Otherwise the destructor runs exactly once on every element of the range, in
ascending order, and on no element outside it, and the slots of the range are emptied. -/
theorem destroy_range_spec (E : ElemType T) (first n : Nat) (st : Store T) :
    (E.is_trivially_destructible = true →
      destroy_range E first (first + n) st
        = { st with log := st.log ++ [Event.destroy_range first (first + n)] } ∧
      (∀ p, dtor_runs (destroy_range E first (first + n) st) p = dtor_runs st p) ∧
      (∀ p, destroy_calls (destroy_range E first (first + n) st) p = destroy_calls st p)) ∧
    (E.is_trivially_destructible = false →
      (destroy_range E first (first + n) st).log
        = st.log ++ [Event.destroy_range first (first + n)] ++ destroy_events false n first ∧
      ((destroy_range E first (first + n) st).log.drop st.log.length).filter Event.is_dtor
        = (List.range n).map (fun i => Event.dtor (first + i)) ∧
      destructors_ran st (destroy_range E first (first + n) st) first n ∧
      (∀ p, ¬ (first ≤ p ∧ p < first + n) →
        (destroy_range E first (first + n) st).mem p = st.mem p)) := by
  refine ⟨?_, ?_⟩
  · intro hdtor
    have h : destroy_range E first (first + n) st
        = { st with log := st.log ++ [Event.destroy_range first (first + n)] } := by
      simp [destroy_range, destroy_cat, hdtor]
    rw [h]
    refine ⟨rfl, ?_, ?_⟩
    · intro p
      simp [dtor_runs, List.count_append, List.count_cons]
    · intro p
      simp [destroy_calls, List.count_append, List.count_cons]
  · intro hdtor
    have hlog := destroy_range_log E first n st
    rw [hdtor] at hlog
    simp only [Bool.false_eq_true, if_false] at hlog
    refine ⟨hlog, ?_, ?_, ?_⟩
    · rw [hlog, List.append_assoc, List.drop_left]
      rw [List.singleton_append, List.filter_cons_of_neg (by simp [Event.is_dtor])]
      exact dtors_of_destroy_events n first
    · rw [destroy_range_eq E first n st hdtor]
      exact destructors_ran_destroy_forward E st _ first n hdtor
        (by intro p; simp [dtor_runs, List.count_append, List.count_cons])
    · intro p hp
      rw [destroy_range_eq E first n st hdtor, destroy_forward_eq]
      simp only []
      rw [if_neg (fun h => hp h.2)]

/-! ## distance and advance -/

theorem distance_loop_spec [DecidableEq I] (ops : IterOps I) (last : I) :
    ∀ (d fuel : Nat) (first : I) (n : Int),
      ops.next^[d] first = last → (∀ j, j < d → ops.next^[j] first ≠ last) → d ≤ fuel →
      distance_loop ops fuel first last n = some (n + d) := by
  intro d
  induction d with
  | zero =>
    intro fuel first n hreach _ _
    have h : first = last := by simpa using hreach
    cases fuel <;> simp [distance_loop, h]
  | succ d ih =>
    intro fuel first n hreach hleast hfuel
    have hne : first ≠ last := by simpa using hleast 0 (Nat.succ_pos _)
    obtain ⟨f, rfl⟩ : ∃ f, fuel = f + 1 := ⟨fuel - 1, by omega⟩
    rw [distance_loop, if_neg hne, ih f (ops.next first) (n + 1)
      (by simpa [Function.iterate_succ_apply] using hreach)
      (by
        intro j hj
        have := hleast (j + 1) (by omega)
        simpa [Function.iterate_succ_apply] using this)
      (by omega)]
    congr 1
    push_cast
    omega

theorem advance_forward_loop_spec (ops : IterOps I) :
    ∀ (k fuel : Nat) (i : I), k ≤ fuel →
      advance_forward_loop ops fuel i (k : Int) = some (ops.next^[k] i) := by
  intro k
  induction k with
  | zero =>
    intro fuel i _
    cases fuel <;> simp [advance_forward_loop]
  | succ k ih =>
    intro fuel i hfuel
    obtain ⟨f, rfl⟩ : ∃ f, fuel = f + 1 := ⟨fuel - 1, by omega⟩
    have hne : ((k + 1 : Nat) : Int) ≠ 0 := by omega
    rw [advance_forward_loop, if_neg hne,
      show ((k + 1 : Nat) : Int) - 1 = (k : Int) by push_cast; omega,
      ih f (ops.next i) (by omega), Function.iterate_succ_apply]

theorem advance_backward_loop_spec (ops : IterOps I) :
    ∀ (k fuel : Nat) (i : I), k ≤ fuel →
      advance_backward_loop ops fuel i (-(k : Int)) = some (ops.prev^[k] i) := by
  intro k
  induction k with
  | zero =>
    intro fuel i _
    cases fuel <;> simp [advance_backward_loop]
  | succ k ih =>
    intro fuel i hfuel
    obtain ⟨f, rfl⟩ : ∃ f, fuel = f + 1 := ⟨fuel - 1, by omega⟩
    have hne : (-((k + 1 : Nat) : Int)) ≠ 0 := by omega
    rw [advance_backward_loop, if_neg hne,
      show -((k + 1 : Nat) : Int) + 1 = -(k : Int) by push_cast; omega,
      ih f (ops.prev i) (by omega), Function.iterate_succ_apply]

theorem pow_bits_eq (bits : Nat) (hb : 1 ≤ bits) : 2 ^ bits = 2 * 2 ^ (bits - 1) := by
  obtain ⟨b, rfl⟩ : ∃ b, bits = b + 1 := ⟨bits - 1, by omega⟩
  rw [Nat.add_sub_cancel, pow_succ, Nat.mul_comm]

theorem wrap_signed_of_range (bits : Nat) (hb : 1 ≤ bits) (n : Int)
    (h1 : -((2 ^ (bits - 1) : Nat) : Int) ≤ n) (h2 : n < ((2 ^ (bits - 1) : Nat) : Int)) :
    wrap_signed bits n = n := by
  unfold wrap_signed
  rw [pow_bits_eq bits hb]
  generalize 2 ^ (bits - 1) = H at h1 h2
  rw [Int.emod_eq_of_lt (by omega) (by push_cast; omega)]
  omega

theorem wrap_signed_below (bits : Nat) (hb : 1 ≤ bits) :
    wrap_signed bits (-((2 ^ (bits - 1) : Nat) : Int) - 1)
      = ((2 ^ (bits - 1) : Nat) : Int) - 1 := by
  have hpos : 0 < 2 ^ (bits - 1) := Nat.two_pow_pos _
  unfold wrap_signed
  rw [pow_bits_eq bits hb]
  generalize 2 ^ (bits - 1) = H at hpos
  have e : -(H : Int) - 1 + (H : Int) = -1 := by omega
  rw [e, ← Int.add_emod_self, Int.emod_eq_of_lt (by push_cast; omega) (by push_cast; omega)]
  push_cast
  omega

theorem advance_forward_loop_fixed_nonneg (ops : IterOps I) (bits : Nat) (hb : 1 ≤ bits) :
    ∀ (k fuel : Nat) (i : I), k < 2 ^ (bits - 1) → k ≤ fuel →
      advance_forward_loop_fixed ops bits fuel i (k : Int) = some (ops.next^[k] i) := by
  intro k
  induction k with
  | zero =>
    intro fuel i _ _
    cases fuel <;> simp [advance_forward_loop_fixed]
  | succ k ih =>
    intro fuel i hk hfuel
    obtain ⟨f, rfl⟩ : ∃ f, fuel = f + 1 := ⟨fuel - 1, by omega⟩
    have hne : ((k + 1 : Nat) : Int) ≠ 0 := by omega
    have e : ((k + 1 : Nat) : Int) - 1 = (k : Int) := by push_cast; omega
    rw [advance_forward_loop_fixed, if_neg hne, e,
      wrap_signed_of_range bits hb (k : Int) (by omega) (by omega),
      ih f (ops.next i) (by omega) (by omega), Function.iterate_succ_apply]

theorem advance_forward_loop_fixed_neg (ops : IterOps I) (bits : Nat) (hb : 1 ≤ bits) :
    ∀ (j fuel : Nat) (i : I), j < 2 ^ (bits - 1) → j + 2 ^ (bits - 1) ≤ fuel →
      advance_forward_loop_fixed ops bits fuel i ((j : Int) - ((2 ^ (bits - 1) : Nat) : Int))
        = some (ops.next^[j + 2 ^ (bits - 1)] i) := by
  have hpos : 0 < 2 ^ (bits - 1) := Nat.two_pow_pos _
  intro j
  induction j with
  | zero =>
    intro fuel i _ hfuel
    obtain ⟨f, rfl⟩ : ∃ f, fuel = f + 1 := ⟨fuel - 1, by omega⟩
    have hne : ((0 : Nat) : Int) - ((2 ^ (bits - 1) : Nat) : Int) ≠ 0 := by omega
    have e : ((0 : Nat) : Int) - ((2 ^ (bits - 1) : Nat) : Int) - 1
        = -((2 ^ (bits - 1) : Nat) : Int) - 1 := by omega
    have e2 : ((2 ^ (bits - 1) : Nat) : Int) - 1 = ((2 ^ (bits - 1) - 1 : Nat) : Int) := by
      omega
    have e3 : 0 + 2 ^ (bits - 1) = (2 ^ (bits - 1) - 1) + 1 := by omega
    rw [advance_forward_loop_fixed, if_neg hne, e, wrap_signed_below bits hb, e2,
      advance_forward_loop_fixed_nonneg ops bits hb (2 ^ (bits - 1) - 1) f (ops.next i)
        (by omega) (by omega), e3, Function.iterate_succ_apply]
  | succ j ih =>
    intro fuel i hj hfuel
    obtain ⟨f, rfl⟩ : ∃ f, fuel = f + 1 := ⟨fuel - 1, by omega⟩
    have hne : ((j + 1 : Nat) : Int) - ((2 ^ (bits - 1) : Nat) : Int) ≠ 0 := by omega
    have e : ((j + 1 : Nat) : Int) - ((2 ^ (bits - 1) : Nat) : Int) - 1
        = (j : Int) - ((2 ^ (bits - 1) : Nat) : Int) := by push_cast; omega
    have e3 : j + 1 + 2 ^ (bits - 1) = (j + 2 ^ (bits - 1)) + 1 := by omega
    rw [advance_forward_loop_fixed, if_neg hne, e,
      wrap_signed_of_range bits hb _ (by omega) (by omega),
      ih f (ops.next i) (by omega) (by omega), e3, Function.iterate_succ_apply]

theorem pointer_ops_laws : random_access_laws pointer_ops := by
  refine ⟨?_, ?_, ?_⟩
  · intro i k
    induction k generalizing i with
    | zero => simp [pointer_ops]
    | succ k ih =>
      rw [Function.iterate_succ_apply, ← ih]
      simp only [pointer_ops]
      push_cast
      omega
  · intro i k
    induction k generalizing i with
    | zero => simp [pointer_ops]
    | succ k ih =>
      rw [Function.iterate_succ_apply, ← ih]
      simp only [pointer_ops]
      push_cast
      omega
  · intro i n
    simp [pointer_ops]

theorem counting_ops_iterate :
    ∀ (k : Nat) (c : Nat × Nat), counting_ops.next^[k] c = (c.1 + k, c.2) := by
  intro k
  induction k with
  | zero => intro c; rfl
  | succ k ih =>
    intro c
    rw [Function.iterate_succ_apply, ih]
    simp only [counting_ops]
    congr 1
    omega

theorem distance_stepping_least [DecidableEq I] (ops : IterOps I) (first last : I)
    (d fuel : Nat) (hreach : ops.next^[d] first = last) (hfuel : d ≤ fuel) :
    ∃ d0 : Nat, d0 ≤ d ∧ distance_dispatch_input ops fuel first last = some (d0 : Int) ∧
      ops.next^[d0] first = last ∧ ∀ j, j < d0 → ops.next^[j] first ≠ last := by
  have hex : ∃ k, ops.next^[k] first = last := ⟨d, hreach⟩
  refine ⟨Nat.find hex, Nat.find_min' hex hreach, ?_, Nat.find_spec hex,
    fun j hj => Nat.find_min hex hj⟩
  unfold distance_dispatch_input
  rw [distance_loop_spec ops last (Nat.find hex) fuel first 0 (Nat.find_spec hex)
    (fun j hj => Nat.find_min hex hj) (Nat.le_trans (Nat.find_min' hex hreach) hfuel)]
  simp

/-- C13 (amended): `distance` and `advance` agree. Let `last` be reachable from `first` by
`d` forward steps. Then, for input, forward and bidirectional capability, and for random-access
capability of an iterator type that satisfies the random-access requirements,
`distance(first, last)` returns (the stepping loop ends within `d` iterations) and
`advance(first, distance(first, last))` leaves the iterator equal to `last`; and the value
`distance` returns is `d`, `d` being the number of increments it takes to reach `last` (no
fewer increments do; this is automatic when the positions passed are all distinct). -/
theorem distance_advance_agree [DecidableEq I] (ops : IterOps I) (tag : iterator_tag)
    (first last : I) (d fuel : Nat)
    (htag : tag ≠ output_iterator_tag)
    (hlaws : tag = random_access_iterator_tag → random_access_laws ops)
    (hreach : ops.next^[d] first = last)
    (hfuel : d ≤ fuel) :
    (distance ops tag fuel first last).bind (advance ops tag fuel first) = some last ∧
    ((∀ j, j < d → ops.next^[j] first ≠ last) →
      distance ops tag fuel first last = some (d : Int)) := by
  obtain ⟨d0, hd0, hstep, hreach0, hleast0⟩ :=
    distance_stepping_least ops first last d fuel hreach hfuel
  have hfwd : advance_forward_loop ops fuel first (d0 : Int) = some last := by
    rw [advance_forward_loop_spec ops d0 fuel first (by omega), hreach0]
  have hnn : (d0 : Int) ≥ 0 := by omega
  have heq : (∀ j, j < d → ops.next^[j] first ≠ last) → d0 = d := by
    intro hleast
    by_contra hne
    exact hleast d0 (by omega) hreach0
  cases tag with
  | output_iterator_tag => exact absurd rfl htag
  | input_iterator_tag =>
    have h1 : distance ops input_iterator_tag fuel first last = some (d0 : Int) := by
      simpa [distance, select_overload, iterator_tag.bases] using hstep
    refine ⟨?_, fun hl => by rw [h1, heq hl]⟩
    rw [h1]
    simpa [advance, select_overload, iterator_tag.bases, advance_dispatch_input] using hfwd
  | forward_iterator_tag =>
    have h1 : distance ops forward_iterator_tag fuel first last = some (d0 : Int) := by
      simpa [distance, select_overload, iterator_tag.bases] using hstep
    refine ⟨?_, fun hl => by rw [h1, heq hl]⟩
    rw [h1]
    simpa [advance, select_overload, iterator_tag.bases, advance_dispatch_input] using hfwd
  | bidirectional_iterator_tag =>
    have h1 : distance ops bidirectional_iterator_tag fuel first last = some (d0 : Int) := by
      simpa [distance, select_overload, iterator_tag.bases] using hstep
    refine ⟨?_, fun hl => by rw [h1, heq hl]⟩
    rw [h1]
    simpa [advance, select_overload, iterator_tag.bases, advance_dispatch_bidirectional, hnn]
      using hfwd
  | random_access_iterator_tag =>
    have laws := hlaws rfl
    have hadd : ops.add first (d : Int) = last := by rw [laws.add_nat, hreach]
    have h1 : distance ops random_access_iterator_tag fuel first last = some (d : Int) := by
      have : ops.sub last first = (d : Int) := by rw [← hadd, laws.sub_add]
      simp [distance, select_overload, iterator_tag.bases, distance_dispatch_random_access,
        this]
    refine ⟨?_, fun _ => h1⟩
    rw [h1]
    simp [advance, select_overload, iterator_tag.bases, advance_dispatch_random_access, hadd]

/-- Witness of `distance_advance_agree`: pointers, five steps from position 2 to position 7,
with random-access capability and with bidirectional capability. -/
theorem distance_advance_agree_witness :
    (pointer_ops.next^[5] 2 = 7 ∧ random_access_laws pointer_ops) ∧
    ((distance pointer_ops random_access_iterator_tag 5 2 7).bind
        (advance pointer_ops random_access_iterator_tag 5 2) = some 7 ∧
     distance pointer_ops random_access_iterator_tag 5 2 7 = some ((5 : Nat) : Int)) ∧
    ((distance pointer_ops bidirectional_iterator_tag 5 2 7).bind
        (advance pointer_ops bidirectional_iterator_tag 5 2) = some 7 ∧
     distance pointer_ops bidirectional_iterator_tag 5 2 7 = some ((5 : Nat) : Int)) :=
  have h1 := distance_advance_agree pointer_ops random_access_iterator_tag 2 7 5 5
    (by decide) (fun _ => pointer_ops_laws) (by decide) (by decide)
  have h2 := distance_advance_agree pointer_ops bidirectional_iterator_tag 2 7 5 5
    (by decide) (fun h => absurd h (by decide)) (by decide) (by decide)
  ⟨⟨by decide, pointer_ops_laws⟩, ⟨h1.1, h1.2 (by decide)⟩, ⟨h2.1, h2.2 (by decide)⟩⟩

/-- C18: the two strategies of `distance`. For input, forward and bidirectional capability,
whenever `last` is reachable from `first` (by some number `d` of forward steps) the stepping
loop ends, within `d` iterations, and returns the least `d0` such that `first` advanced `d0`
times equals `last`. For random-access capability the result is `last - first`, computed
without any step (no bound on the iterations is needed); raw pointers have random-access
capability, and for them the result is the difference of the positions, which may be
negative. -/
theorem distance_strategies [DecidableEq I] (ops : IterOps I) (tag : iterator_tag)
    (first last : I) (d fuel : Nat)
    (htag : tag = input_iterator_tag ∨ tag = forward_iterator_tag ∨
      tag = bidirectional_iterator_tag)
    (hreach : ops.next^[d] first = last)
    (hfuel : d ≤ fuel) :
    (∃ d0 : Nat, d0 ≤ d ∧ distance ops tag fuel first last = some (d0 : Int) ∧
      ops.next^[d0] first = last ∧ ∀ j, j < d0 → ops.next^[j] first ≠ last) ∧
    (∀ (f : Nat) (a b : I),
      distance ops random_access_iterator_tag f a b = some (ops.sub b a)) ∧
    pointer_iterator_category = random_access_iterator_tag ∧
    (∀ (f : Nat) (a b : Int),
      distance pointer_ops pointer_iterator_category f a b = some (b - a)) ∧
    distance pointer_ops pointer_iterator_category 0 5 2 = some (-3) := by
  refine ⟨?_, ?_, rfl, ?_, by decide⟩
  · obtain ⟨d0, hd0, hstep, hreach0, hleast0⟩ :=
      distance_stepping_least ops first last d fuel hreach hfuel
    refine ⟨d0, hd0, ?_, hreach0, hleast0⟩
    rcases htag with h | h | h <;> subst h <;>
      simpa [distance, select_overload, iterator_tag.bases] using hstep
  · intro f a b
    simp [distance, select_overload, iterator_tag.bases, distance_dispatch_random_access]
  · intro f a b
    simp [distance, select_overload, iterator_tag.bases, distance_dispatch_random_access,
      pointer_iterator_category, pointer_ops]

/-- Witness of `distance_strategies`: a forward iterator over a cycle of three positions;
position 0 is reachable from itself by three steps. -/
theorem distance_strategies_witness :
    cyclic_ops.next^[3] 0 = 0 ∧
    (∃ d0 : Nat, d0 ≤ 3 ∧ distance cyclic_ops forward_iterator_tag 3 0 0 = some (d0 : Int) ∧
      cyclic_ops.next^[d0] 0 = 0 ∧ ∀ j, j < d0 → cyclic_ops.next^[j] 0 ≠ 0) :=
  ⟨by decide,
   (distance_strategies cyclic_ops forward_iterator_tag 0 0 3 3 (Or.inr (Or.inl rfl))
     (by decide) (by decide)).1⟩

/-- On a cycle the least number of steps is returned: position 0 is reachable from itself by
three steps, and by none. -/
theorem distance_on_a_cycle :
    cyclic_ops.next^[3] 0 = 0 ∧
    distance cyclic_ops forward_iterator_tag 3 0 0 = some 0 ∧
    distance cyclic_ops forward_iterator_tag 3 0 2 = some 2 := by
  refine ⟨by decide, by decide, by decide⟩

/-- C13 (counterexample): a forward iterator over a cycle of three positions. Position 0 is
reachable from itself by `d = 3` forward steps, but `distance(first, last)` with
`first = last = 0` is 0, whatever the bound on the iterations of its loop, and not 3: the
loop stops at the first position equal to `last`. -/
theorem distance_not_every_step_count :
    cyclic_ops.next^[3] 0 = 0 ∧
    distance cyclic_ops forward_iterator_tag 3 0 0 = some 0 ∧
    (∀ fuel, distance cyclic_ops forward_iterator_tag fuel 0 0 = some 0) ∧
    (∀ fuel, distance cyclic_ops forward_iterator_tag fuel 0 0 ≠ some ((3 : Nat) : Int)) := by
  have h : ∀ fuel, distance cyclic_ops forward_iterator_tag fuel 0 0 = some 0 := by
    intro fuel
    cases fuel <;>
      simp [distance, select_overload, iterator_tag.bases, distance_dispatch_input,
        distance_loop]
  refine ⟨by decide, h 3, h, ?_⟩
  intro fuel
  rw [h fuel]
  decide

/-- C19: `advance` with backward support. For bidirectional capability, for every integer
`n`, `advance(i, n)` ends (within `|n|` iterations) and leaves `i` advanced by `n` forward
steps if `n ≥ 0` and by `|n|` backward steps if `n < 0`; for random-access capability it is
the direct offset `i += n`, without any step. For an iterator type that satisfies the
random-access requirements the two versions give the same final position; for pointers both
give `i + n`. -/
theorem advance_both_directions (ops : IterOps I) (fuel : Nat) (i : I) (n : Int)
    (hfuel : n.natAbs ≤ fuel) :
    advance ops bidirectional_iterator_tag fuel i n
      = some (if 0 ≤ n then ops.next^[n.toNat] i else ops.prev^[(-n).toNat] i) ∧
    (∀ f, advance ops random_access_iterator_tag f i n = some (ops.add i n)) ∧
    (random_access_laws ops →
      advance ops bidirectional_iterator_tag fuel i n
        = advance ops random_access_iterator_tag fuel i n) ∧
    (∀ (p : Int), advance pointer_ops bidirectional_iterator_tag fuel p n = some (p + n) ∧
      advance pointer_ops random_access_iterator_tag fuel p n = some (p + n)) := by
  have hbi : ∀ (J : Type) (o : IterOps J) (x : J),
      advance o bidirectional_iterator_tag fuel x n
        = some (if 0 ≤ n then o.next^[n.toNat] x else o.prev^[(-n).toNat] x) := by
    intro J o x
    by_cases hn : 0 ≤ n
    · obtain ⟨k, rfl⟩ : ∃ k : Nat, n = (k : Int) := ⟨n.toNat, by omega⟩
      have hk : k ≤ fuel := by omega
      simp [advance, select_overload, iterator_tag.bases, advance_dispatch_bidirectional,
        advance_forward_loop_spec o k fuel x hk]
    · obtain ⟨k, rfl⟩ : ∃ k : Nat, n = -(k : Int) := ⟨(-n).toNat, by omega⟩
      have hk : k ≤ fuel := by omega
      have hneg : ¬ (-(k : Int) ≥ 0) := by omega
      simp only [advance, select_overload, iterator_tag.bases, advance_dispatch_bidirectional]
      simp only [List.find?, List.mem_cons, List.mem_singleton, decide_True, or_true,
        true_or, if_neg hneg, if_neg hn]
      rw [advance_backward_loop_spec o k fuel x hk]
      simp
  have hra : ∀ (J : Type) (o : IterOps J) (x : J) (f : Nat),
      advance o random_access_iterator_tag f x n = some (o.add x n) := by
    intro J o x f
    simp [advance, select_overload, iterator_tag.bases, advance_dispatch_random_access]
  have hsame : ∀ (J : Type) (o : IterOps J) (x : J), random_access_laws o →
      advance o bidirectional_iterator_tag fuel x n
        = advance o random_access_iterator_tag fuel x n := by
    intro J o x laws
    rw [hbi, hra]
    by_cases hn : 0 ≤ n
    · obtain ⟨k, rfl⟩ : ∃ k : Nat, n = (k : Int) := ⟨n.toNat, by omega⟩
      simp [laws.add_nat]
    · obtain ⟨k, rfl⟩ : ∃ k : Nat, n = -(k : Int) := ⟨(-n).toNat, by omega⟩
      rw [if_neg hn, laws.add_neg]
      simp
  refine ⟨hbi I ops i, hra I ops i, hsame I ops i, ?_⟩
  intro p
  have h2 : advance pointer_ops random_access_iterator_tag fuel p n = some (p + n) :=
    hra Int pointer_ops p fuel
  refine ⟨?_, h2⟩
  rw [hsame Int pointer_ops p pointer_ops_laws, h2]

/-- Witness of `advance_both_directions`: a pointer at position 10 moved by `-3`. -/
theorem advance_both_directions_witness :
    (-3 : Int).natAbs ≤ 3 ∧
    advance pointer_ops bidirectional_iterator_tag 3 10 (-3) = some (10 + -3) ∧
    advance pointer_ops random_access_iterator_tag 3 10 (-3) = some (10 + -3) :=
  ⟨by decide,
   (advance_both_directions pointer_ops 3 10 (-3) (by decide)).2.2.2 10⟩

/-- C20 (amended): `advance` for input and forward capability. For every `n ≥ 0` the loop
`while (n--) ++i` ends (within `n` iterations) with `i` incremented exactly `n` times and
never decremented, as the call-counting stand-in shows; `n = 0` leaves `i` unchanged; a
`Distance` of fixed width that holds `n` gives the same. For `n < 0` the loop does not move
`i` back by `|n|`: with a signed `Distance` of `bits` bits whose decrement wraps (a type
narrower than `int`) the counter runs down to the least value, wraps to the greatest and
reaches 0, so the loop ends after `2 ^ bits - |n|` increments and no decrement. -/
theorem advance_input_only (ops : IterOps I) (tag : iterator_tag) (fuel k : Nat) (i : I)
    (htag : tag = input_iterator_tag ∨ tag = forward_iterator_tag)
    (hfuel : k ≤ fuel) :
    advance ops tag fuel i (k : Int) = some (ops.next^[k] i) ∧
    advance counting_ops tag fuel (0, 0) (k : Int) = some (k, 0) ∧
    (∀ f, advance ops tag f i 0 = some i) ∧
    (∀ bits, 1 ≤ bits → k < 2 ^ (bits - 1) →
      advance_dispatch_input_fixed ops bits fuel i (k : Int) = some (ops.next^[k] i)) ∧
    (∀ (bits m f : Nat), 1 ≤ bits → 0 < m → m ≤ 2 ^ (bits - 1) → 2 ^ bits - m ≤ f →
      advance_dispatch_input_fixed ops bits f i (-(m : Int))
        = some (ops.next^[2 ^ bits - m] i) ∧
      advance_dispatch_input_fixed counting_ops bits f (0, 0) (-(m : Int))
        = some (2 ^ bits - m, 0)) := by
  have hsel : ∀ (J : Type) (o : IterOps J) (f : Nat) (x : J) (n : Int),
      advance o tag f x n = advance_forward_loop o f x n := by
    intro J o f x n
    rcases htag with h | h <;> subst h <;>
      simp [advance, select_overload, iterator_tag.bases, advance_dispatch_input]
  have hneg : ∀ (J : Type) (o : IterOps J) (x : J) (bits m f : Nat), 1 ≤ bits → 0 < m →
      m ≤ 2 ^ (bits - 1) → 2 ^ bits - m ≤ f →
      advance_dispatch_input_fixed o bits f x (-(m : Int))
        = some (o.next^[2 ^ bits - m] x) := by
    intro J o x bits m f hb hm hle hf
    have hp := pow_bits_eq bits hb
    have e : (-(m : Int)) = ((2 ^ (bits - 1) - m : Nat) : Int) - ((2 ^ (bits - 1) : Nat) : Int) := by
      omega
    have e2 : 2 ^ bits - m = (2 ^ (bits - 1) - m) + 2 ^ (bits - 1) := by omega
    unfold advance_dispatch_input_fixed
    rw [e, e2]
    exact advance_forward_loop_fixed_neg o bits hb (2 ^ (bits - 1) - m) f x (by omega)
      (by omega)
  refine ⟨?_, ?_, ?_, ?_, ?_⟩
  · rw [hsel, advance_forward_loop_spec ops k fuel i hfuel]
  · rw [hsel, advance_forward_loop_spec counting_ops k fuel (0, 0) hfuel,
      counting_ops_iterate]
    simp
  · intro f
    rw [hsel]
    cases f <;> simp [advance_forward_loop]
  · intro bits hb hk
    exact advance_forward_loop_fixed_nonneg ops bits hb k fuel i hk hfuel
  · intro bits m f hb hm hle hf
    refine ⟨hneg I ops i bits m f hb hm hle hf, ?_⟩
    rw [hneg (Nat × Nat) counting_ops (0, 0) bits m f hb hm hle hf, counting_ops_iterate]
    simp

/-- Witness of `advance_input_only`: four increments of a forward iterator; and with an
8-bit `Distance` holding `-3`, 253 increments. -/
theorem advance_input_only_witness :
    advance pointer_ops forward_iterator_tag 4 10 ((4 : Nat) : Int)
      = some (pointer_ops.next^[4] 10) ∧
    advance counting_ops forward_iterator_tag 4 (0, 0) ((4 : Nat) : Int) = some (4, 0) ∧
    advance_dispatch_input_fixed counting_ops 8 253 (0, 0) (-((3 : Nat) : Int))
      = some (2 ^ 8 - 3, 0) :=
  ⟨(advance_input_only pointer_ops forward_iterator_tag 4 4 10 (Or.inr rfl) (by decide)).1,
   (advance_input_only pointer_ops forward_iterator_tag 4 4 10 (Or.inr rfl) (by decide)).2.1,
   ((advance_input_only pointer_ops forward_iterator_tag 4 4 10 (Or.inr rfl)
      (by decide)).2.2.2.2 8 3 253 (by decide) (by decide) (by decide) (by decide)).2⟩

/-- C20 (counterexample): `Distance` is `signed char` (8 bits) and `n = -1`, which violates
the precondition `n ≥ 0`. The loop `while (n--) ++i` ends all the same: the counter runs
through `-1, -2, ..., -128, 127, ..., 1` and reaches 0 after 255 iterations, each of which
incremented `i`; no decrement was performed. -/
theorem advance_negative_count_wraps :
    wrap_signed 8 (-128 - 1) = 127 ∧
    advance_dispatch_input_fixed counting_ops 8 255 (0, 0) (-1) = some (255, 0) ∧
    advance_dispatch_input_fixed counting_ops 8 255 (0, 0) (-1) ≠ none := by
  have h : advance_dispatch_input_fixed counting_ops 8 255 (0, 0) (-1) = some (255, 0) := by
    set_option maxRecDepth 100000 in decide
  refine ⟨by decide, h, ?_⟩
  rw [h]
  exact fun e => Option.noConfusion e

/-! ## The allocator -/

/-- C14: null and empty handles of the allocator. For every element type, `allocate(0)`
returns the null pointer, calls `::operator new` not at all and does not throw;
`deallocate(nullptr)` and `deallocate(nullptr, n)` for every `n` leave the heap as it is,
without a call to `::operator delete`. (A non-zero count does call `::operator new`, and a
non-null pointer is handed to `::operator delete`.) -/
theorem allocator_null_handles (host : List HeapCall → Nat → Option Nat) (sizeof_T : Nat)
    (heap : List HeapCall) :
    allocator.allocate host sizeof_T 0 heap = (heap, Allocated.returned none) ∧
    allocator.deallocate none heap = heap ∧
    (∀ n, allocator.deallocate_n none n heap = heap) ∧
    (allocator.allocate simple_host 4 3 [] =
      ([HeapCall.operator_new 12], Allocated.returned (some 4096)) ∧
     allocator.deallocate (some 4096) [HeapCall.operator_new 12] =
      [HeapCall.operator_new 12, HeapCall.operator_delete 4096]) := by
  refine ⟨by simp [allocator.allocate], rfl, fun _ => rfl, by decide, by decide⟩

/-! ## pair -/

/-- C15: comparison of pairs is structural and lexicographic. `a == b` holds exactly when
the first members are equal and the second members are equal; `a < b` holds exactly when
`a.first < b.first`, or `a.first == b.first` and `a.second < b.second`; and the derived
operators are `(a != b) = !(a == b)`, `(a > b) = (b < a)`, `(a <= b) = !(b < a)`,
`(a >= b) = !(a < b)`. -/
theorem pair_comparison (cK : Comparison K) (cV : Comparison V) (a b : pair K V) :
    (pair.op_eq cK cV a b = true ↔
      (cK.eq a.first b.first = true ∧ cV.eq a.second b.second = true)) ∧
    (pair.op_lt cK cV a b = true ↔
      (cK.lt a.first b.first = true ∨
        (cK.eq a.first b.first = true ∧ cV.lt a.second b.second = true))) ∧
    pair.op_ne cK cV a b = !(pair.op_eq cK cV a b) ∧
    pair.op_gt cK cV a b = pair.op_lt cK cV b a ∧
    pair.op_le cK cV a b = !(pair.op_lt cK cV b a) ∧
    pair.op_ge cK cV a b = !(pair.op_lt cK cV a b) := by
  refine ⟨?_, ?_, rfl, rfl, rfl, rfl⟩
  · simp [pair.op_eq]
  · simp [pair.op_lt]

theorem swap_distinct (moved_from : T → T) (m : Nat → T) (lhs rhs : Nat) (h : lhs ≠ rhs) :
    swap moved_from m lhs rhs
      = fun c => if c = lhs then m rhs else if c = rhs then m lhs else m c := by
  funext c
  simp only [swap]
  by_cases h1 : c = rhs
  · subst h1
    have : c ≠ lhs := fun e => h e.symm
    simp [this]
  · by_cases h2 : c = lhs
    · subst h2
      simp [Function.update_noteq h1, Function.update_noteq (Ne.symm h1)]
    · simp [Function.update_noteq h1, Function.update_noteq h2, h1, h2]

theorem swap_same (moved_from : T → T) (m : Nat → T) (a : Nat) :
    swap moved_from m a a = m := by
  funext c
  simp only [swap]
  by_cases h1 : c = a
  · subst h1
    simp
  · simp [Function.update_noteq h1]

/-- C16: swapping pairs preserves the values. For pairs at distinct addresses `a` and `b`,
after `a.swap(b)`, and after `swap(a, b)`, the pair at `a` is the former pair at `b`, the
pair at `b` is the former pair at `a`, and every other pair is untouched; swapping twice
restores the memory; and swapping a pair with itself leaves the memory unchanged. -/
theorem pair_swap_exchanges (moved_K : K → K) (moved_V : V → V) (m : PairMemory K V)
    (a b : Nat) (hab : a ≠ b) :
    ((pair.swap moved_K moved_V m a b).load a = m.load b ∧
     (pair.swap moved_K moved_V m a b).load b = m.load a ∧
     (∀ c, c ≠ a → c ≠ b → (pair.swap moved_K moved_V m a b).load c = m.load c)) ∧
    swap_pairs moved_K moved_V m a b = pair.swap moved_K moved_V m a b ∧
    pair.swap moved_K moved_V (pair.swap moved_K moved_V m a b) a b = m ∧
    (∀ c, pair.swap moved_K moved_V m c c = m ∧ swap_pairs moved_K moved_V m c c = m) := by
  have h1 : pair.swap moved_K moved_V m a b
      = { firsts := fun c => if c = a then m.firsts b else if c = b then m.firsts a
                             else m.firsts c
          seconds := fun c => if c = a then m.seconds b else if c = b then m.seconds a
                              else m.seconds c } := by
    simp only [pair.swap, if_pos hab, swap_distinct _ _ a b hab]
  refine ⟨?_, rfl, ?_, ?_⟩
  · rw [h1]
    refine ⟨?_, ?_, ?_⟩
    · simp [PairMemory.load]
    · simp [PairMemory.load, Ne.symm hab]
    · intro c hca hcb
      simp [PairMemory.load, hca, hcb]
  · rw [h1]
    simp only [pair.swap, if_pos hab, swap_distinct _ _ a b hab]
    cases m with
    | mk f g =>
      simp only [PairMemory.mk.injEq]
      constructor <;>
      · funext c
        by_cases hca : c = a
        · subst hca; simp [hab, Ne.symm hab]
        · by_cases hcb : c = b
          · subst hcb; simp [hca]
          · simp [hca, hcb]
  · intro c
    simp [swap_pairs, pair.swap]

/-- Witness of `pair_swap_exchanges`: the pairs `(1, 10)` and `(2, 20)`. -/
theorem pair_swap_exchanges_witness :
    (1 : Nat) ≠ 2 ∧
    (pair.swap (fun _ => 0) (fun _ => 0) sample_pairs 1 2).load 1 = sample_pairs.load 2 ∧
    (pair.swap (fun _ => 0) (fun _ => 0) sample_pairs 1 2).load 2 = sample_pairs.load 1 :=
  ⟨by decide,
   (pair_swap_exchanges (fun _ => 0) (fun _ => 0) sample_pairs 1 2 (by decide)).1.1,
   (pair_swap_exchanges (fun _ => 0) (fun _ => 0) sample_pairs 1 2 (by decide)).1.2.1⟩

/-! ## Path selection -/

/-- With one element type for source and destination the two-type wrappers are the
wrappers of the algorithms. -/
theorem from_same_type (E : ElemType T) (first last result : Nat) (n : Int) (st : Store T) :
    uninitialized_copy_from E E first last result st = uninitialized_copy E first last result st ∧
    uninitialized_copy_n_from E E first n result st = uninitialized_copy_n E first n result st ∧
    uninitialized_move_from E E first last result st = uninitialized_move E first last result st ∧
    uninitialized_move_n_from E E first n result st
      = uninitialized_move_n E first n result st :=
  ⟨rfl, rfl, rfl, rfl⟩

/-- C17 (the code at the failing input): two elements are transferred from a source whose
element type is trivially assignable to a destination whose element type is not.
`uninitialized_copy` tests the trait of the destination iterator's value type and takes the
element-wise path (two `construct` calls), and its choice never depends on the source type.
`uninitialized_copy_n`, `uninitialized_move` and `uninitialized_move_n` test the trait of
the source iterator's value type: they take the bulk path (two assignments, no `construct`)
although the destination type is not trivial, and with the two types exchanged they take
the element-wise path although the destination type is trivial; whenever the source type is
trivially assignable their result does not depend on the destination type at all. -/
theorem path_follows_source_type :
    trivial_type.is_trivially_copy_assignable = true ∧
    never_throwing.is_trivially_copy_assignable = false ∧
    (uninitialized_copy_from trivial_type never_throwing 0 2 0 raw_store).1.log
      = [Event.construct 0 false, Event.construct 1 false] ∧
    (uninitialized_copy_n_from trivial_type never_throwing 0 2 0 raw_store).1.log
      = [Event.assign 0, Event.assign 1] ∧
    (uninitialized_move_from trivial_type never_throwing 0 2 0 raw_store).1.log
      = [Event.assign 0, Event.assign 1] ∧
    (uninitialized_move_n_from trivial_type never_throwing 0 2 0 raw_store).1.log
      = [Event.assign 0, Event.assign 1] ∧
    (uninitialized_copy_from never_throwing trivial_type 0 2 0 raw_store).1.log
      = [Event.assign 0, Event.assign 1] ∧
    (uninitialized_copy_n_from never_throwing trivial_type 0 2 0 raw_store).1.log
      = [Event.construct 0 false, Event.construct 1 false] ∧
    (uninitialized_move_from never_throwing trivial_type 0 2 0 raw_store).1.log
      = [Event.construct 0 false, Event.construct 1 false] ∧
    (uninitialized_move_n_from never_throwing trivial_type 0 2 0 raw_store).1.log
      = [Event.construct 0 false, Event.construct 1 false] ∧
    (∀ (S S' E : ElemType Nat) (first last result : Nat) (st : Store Nat),
      uninitialized_copy_from S E first last result st
        = uninitialized_copy_from S' E first last result st) ∧
    (∀ (S E E' : ElemType Nat) (first last result : Nat) (n : Int) (st : Store Nat),
      (S.is_trivially_copy_assignable = true →
        uninitialized_copy_n_from S E first n result st
          = uninitialized_copy_n_from S E' first n result st) ∧
      (S.is_trivially_move_assignable = true →
        uninitialized_move_from S E first last result st
          = uninitialized_move_from S E' first last result st ∧
        uninitialized_move_n_from S E first n result st
          = uninitialized_move_n_from S E' first n result st)) := by
  refine ⟨rfl, rfl, by decide, by decide, by decide, by decide, by decide, by decide,
    by decide, by decide, ?_, ?_⟩
  · intro S S' E first last result st
    rfl
  · intro S E E' first last result n st
    refine ⟨?_, ?_⟩
    · intro h
      simp [uninitialized_copy_n_from, h]
    · intro h
      simp [uninitialized_move_from, uninitialized_move_n_from, h]

/-! ## The single-object form of `destroy` -/

/-- C21: the single-object `destroy(ptr)`. For a trivially destructible element type it is a
no-op: `destroy_one` returns the state it was given, no destructor runs, and nothing of the
store changes but the record of the call. Otherwise, for a non-null `ptr`, the destructor
runs exactly once, on the object at `ptr`, which is removed, and no other slot, nor the
source or the constructor count, is touched; for a null `ptr` nothing is done, whatever the
element type. -/
theorem destroy_single (E : ElemType T) (st : Store T) :
    (∀ ptr, destroy_one ptr true st = st) ∧
    (∀ trivial, destroy_one none trivial st = st) ∧
    (E.is_trivially_destructible = true → ∀ ptr,
      destroy E ptr st = { st with log := st.log ++ [Event.destroy ptr] } ∧
      (∀ q, dtor_runs (destroy E ptr st) q = dtor_runs st q)) ∧
    (destroy E none st = { st with log := st.log ++ [Event.destroy none] } ∧
      (∀ q, dtor_runs (destroy E none st) q = dtor_runs st q)) ∧
    (E.is_trivially_destructible = false → ∀ p,
      (destroy E (some p) st).log = st.log ++ [Event.destroy (some p), Event.dtor p] ∧
      dtor_runs (destroy E (some p) st) p = dtor_runs st p + 1 ∧
      (destroy E (some p) st).mem p = none ∧
      (∀ q, q ≠ p → dtor_runs (destroy E (some p) st) q = dtor_runs st q ∧
        (destroy E (some p) st).mem q = st.mem q) ∧
      (destroy E (some p) st).src = st.src ∧
      (destroy E (some p) st).ctor_calls = st.ctor_calls) := by
  refine ⟨?_, ?_, ?_, ?_, ?_⟩
  · intro ptr
    cases ptr <;> rfl
  · intro trivial
    cases trivial <;> rfl
  · intro hdtor ptr
    have h : destroy E ptr st = { st with log := st.log ++ [Event.destroy ptr] } := by
      cases ptr <;> simp [destroy, destroy_one, hdtor]
    rw [h]
    refine ⟨rfl, ?_⟩
    intro q
    simp [dtor_runs, List.count_append, List.count_cons]
  · have h : destroy E none st = { st with log := st.log ++ [Event.destroy none] } := by
      cases hdtor : E.is_trivially_destructible <;> simp [destroy, destroy_one, hdtor]
    rw [h]
    refine ⟨rfl, ?_⟩
    intro q
    simp [dtor_runs, List.count_append, List.count_cons]
  · intro hdtor p
    rw [destroy_eq, hdtor]
    refine ⟨by simp, ?_, ?_, ?_, rfl, rfl⟩
    · simp [dtor_runs, List.count_append, List.count_cons]
    · simp
    · intro q hq
      have hne : ¬ (p = q) := fun h => hq h.symm
      refine ⟨?_, ?_⟩
      · simp [dtor_runs, List.count_append, List.count_cons, hne]
      · simp [hq]

/-! ## The two strategies of `distance` on integer positions -/

theorem pointer_ops_iterate_next :
    ∀ (k : Nat) (i : Int), pointer_ops.next^[k] i = i + k := by
  intro k
  induction k with
  | zero => intro i; simp
  | succ k ih =>
    intro i
    rw [Function.iterate_succ_apply, ih]
    simp only [pointer_ops]
    push_cast
    omega

theorem distance_loop_unreachable :
    ∀ (fuel : Nat) (first last n : Int), last < first →
      distance_loop pointer_ops fuel first last n = none := by
  intro fuel
  induction fuel with
  | zero =>
    intro first last n h
    have hne : first ≠ last := by omega
    simp [distance_loop, hne]
  | succ fuel ih =>
    intro first last n h
    have hne : first ≠ last := by omega
    rw [distance_loop, if_neg hne]
    exact ih _ _ _ (by simp only [pointer_ops]; omega)

/-- C23: the two strategies of `distance` agree where both are defined. Over integer
positions, for every `first ≤ last` the stepping version
`distance_dispatch(first, last, input_iterator_tag)` ends, within `last - first` iterations,
and returns what the subtraction version
`distance_dispatch(first, last, random_access_iterator_tag)` returns, namely
`last - first`. (For `last < first` the stepping version does not end, whatever the bound on
its iterations, while the subtraction version returns the negative difference.) -/
theorem distance_strategies_agree (first last : Int) (fuel : Nat)
    (hle : first ≤ last) (hfuel : (last - first).toNat ≤ fuel) :
    distance_dispatch_input pointer_ops fuel first last
      = some (distance_dispatch_random_access pointer_ops first last) ∧
    distance_dispatch_random_access pointer_ops first last = last - first ∧
    (∀ (f : Nat) (a b : Int), b < a →
      distance_dispatch_input pointer_ops f a b = none ∧
      distance_dispatch_random_access pointer_ops a b = b - a) := by
  refine ⟨?_, rfl, ?_⟩
  · have hreach : pointer_ops.next^[(last - first).toNat] first = last := by
      rw [pointer_ops_iterate_next]
      omega
    have hleast : ∀ j, j < (last - first).toNat → pointer_ops.next^[j] first ≠ last := by
      intro j hj
      rw [pointer_ops_iterate_next]
      omega
    unfold distance_dispatch_input
    rw [distance_loop_spec pointer_ops last (last - first).toNat fuel first 0 hreach hleast
      hfuel]
    simp only [distance_dispatch_random_access, pointer_ops]
    congr 1
    omega
  · intro f a b hlt
    exact ⟨distance_loop_unreachable f a b 0 hlt, rfl⟩

/-- Witness of `distance_strategies_agree`: from position 2 to position 7. -/
theorem distance_strategies_agree_witness :
    ((2 : Int) ≤ 7 ∧ ((7 : Int) - 2).toNat ≤ 5) ∧
    distance_dispatch_input pointer_ops 5 2 7
      = some (distance_dispatch_random_access pointer_ops 2 7) ∧
    distance_dispatch_random_access pointer_ops 2 7 = 7 - 2 :=
  ⟨⟨by decide, by decide⟩,
   (distance_strategies_agree 2 7 5 (by decide) (by decide)).1,
   (distance_strategies_agree 2 7 5 (by decide) (by decide)).2.1⟩

/-! ## The capability tags -/

theorem bases_trans (c X Y : iterator_tag) (h1 : X ∈ c.bases) (h2 : Y ∈ X.bases) :
    Y ∈ c.bases := by
  revert h1 h2
  cases c <;> cases X <;> cases Y <;> decide

theorem has_iterator_cat_of_tag (c U : iterator_tag) :
    has_iterator_cat_of (IterType.class_type (some (NestedCategory.tag c))) U
      = is_convertible c U := by
  cases c <;> cases U <;> rfl

theorem has_iterator_cat_of_convertible (T : IterType) (U : iterator_tag)
    (h : has_iterator_cat_of T U = true) :
    ∃ c, iterator_traits_category T = some c ∧ is_convertible c U = true := by
  unfold has_iterator_cat_of at h
  cases hc : iterator_traits_category T with
  | none => rw [hc] at h; exact absurd h (by simp)
  | some c => rw [hc] at h; exact ⟨c, rfl, h⟩

/-- C22: the capability tags form a chain of refinements. With tag convertibility as
`has_iterator_cat_of` uses it, random-access refines bidirectional refines forward refines
input: every iterator type whose category is `random_access_iterator_tag`, and so every raw
pointer, satisfies `is_random_access_iterator`, `is_bidirectional_iterator`,
`is_forward_iterator` and `is_input_iterator`; `is_X` implies `is_Y` for all iterator types
exactly when `Y` is `X` or one of the base classes of `X`; the output tag is unrelated to
the other four; and `is_iterator` holds exactly when `is_input_iterator` or
`is_output_iterator` holds. -/
theorem capability_chain :
    random_access_iterator_tag.bases
      = [random_access_iterator_tag, bidirectional_iterator_tag, forward_iterator_tag,
         input_iterator_tag] ∧
    output_iterator_tag.bases = [output_iterator_tag] ∧
    iterator_traits_category IterType.pointer = some random_access_iterator_tag ∧
    (∀ T, iterator_traits_category T = some random_access_iterator_tag →
      is_random_access_iterator T = true ∧ is_bidirectional_iterator T = true ∧
      is_forward_iterator T = true ∧ is_input_iterator T = true ∧
      is_output_iterator T = false) ∧
    (∀ X Y : iterator_tag,
      (∀ T, has_iterator_cat_of T X = true → has_iterator_cat_of T Y = true)
        ↔ Y ∈ X.bases) ∧
    (∀ T, is_output_iterator T = true →
      is_input_iterator T = false ∧ is_forward_iterator T = false ∧
      is_bidirectional_iterator T = false ∧ is_random_access_iterator T = false) ∧
    (∀ T, is_input_iterator T = true → is_output_iterator T = false) ∧
    (∀ T, is_iterator T = true ↔ (is_input_iterator T = true ∨ is_output_iterator T = true)) := by
  refine ⟨rfl, rfl, rfl, ?_, ?_, ?_, ?_, ?_⟩
  · intro T h
    simp only [is_random_access_iterator, is_bidirectional_iterator, is_forward_iterator,
      is_input_iterator, is_output_iterator, has_iterator_cat_of, h]
    decide
  · intro X Y
    constructor
    · intro h
      have h1 := h (IterType.class_type (some (NestedCategory.tag X)))
      rw [has_iterator_cat_of_tag, has_iterator_cat_of_tag] at h1
      have h2 : is_convertible X X = true := by cases X <;> rfl
      simpa [is_convertible] using h1 h2
    · intro hY T hX
      obtain ⟨c, hc, hconv⟩ := has_iterator_cat_of_convertible T X hX
      have hX' : X ∈ c.bases := by simpa [is_convertible] using hconv
      have := bases_trans c X Y hX' hY
      simp [has_iterator_cat_of, hc, is_convertible, this]
  · intro T h
    obtain ⟨c, hc, hconv⟩ := has_iterator_cat_of_convertible T output_iterator_tag h
    simp only [is_input_iterator, is_forward_iterator, is_bidirectional_iterator,
      is_random_access_iterator, has_iterator_cat_of, hc]
    revert hconv
    cases c <;> decide
  · intro T h
    obtain ⟨c, hc, hconv⟩ := has_iterator_cat_of_convertible T input_iterator_tag h
    simp only [is_output_iterator, has_iterator_cat_of, hc]
    revert hconv
    cases c <;> decide
  · intro T
    simp [is_iterator]

/-! ## The order of pairs -/

theorem strict_total_order.lt_asymm {c : Comparison K} (h : strict_total_order c) (a b : K)
    (h1 : c.lt a b = true) : c.lt b a = false := by
  cases h2 : c.lt b a with
  | false => rfl
  | true =>
    have := h.lt_trans a b a h1 h2
    rw [h.lt_irrefl] at this
    exact absurd this (by simp)

theorem strict_total_order.lt_ne {c : Comparison K} (h : strict_total_order c) (a b : K)
    (h1 : c.lt a b = true) : c.eq a b = false ∧ c.eq b a = false := by
  have hne : a ≠ b := by
    intro e
    rw [e, h.lt_irrefl] at h1
    exact absurd h1 (by simp)
  constructor
  · cases h2 : c.eq a b with
    | false => rfl
    | true => exact absurd ((h.eq_iff a b).mp h2) hne
  · cases h2 : c.eq b a with
    | false => rfl
    | true => exact absurd ((h.eq_iff b a).mp h2).symm hne

theorem strict_total_order.eq_self {c : Comparison K} (h : strict_total_order c) (a : K) :
    c.eq a a = true :=
  (h.eq_iff a a).mpr rfl

theorem nat_comparison_order : strict_total_order nat_comparison := by
  refine ⟨?_, ?_, ?_, ?_⟩
  · intro a b; simp [nat_comparison]
  · intro a; simp [nat_comparison]
  · intro a b d h1 h2
    simp only [nat_comparison, decide_eq_true_eq] at h1 h2 ⊢
    omega
  · intro a b
    simp only [nat_comparison, decide_eq_true_eq]
    omega

/-- The value of `a < b`, `a == b` and `b < a` for two pairs whose component types are
strictly totally ordered: exactly one of the three holds. -/
theorem pair_trichotomy (cK : Comparison K) (cV : Comparison V)
    (hK : strict_total_order cK) (hV : strict_total_order cV) (a b : pair K V) :
    (pair.op_lt cK cV a b = true ∧ pair.op_eq cK cV a b = false ∧
      pair.op_lt cK cV b a = false) ∨
    (pair.op_lt cK cV a b = false ∧ pair.op_eq cK cV a b = true ∧
      pair.op_lt cK cV b a = false) ∨
    (pair.op_lt cK cV a b = false ∧ pair.op_eq cK cV a b = false ∧
      pair.op_lt cK cV b a = true) := by
  rcases hK.lt_total a.first b.first with h1 | h1 | h1
  · left
    simp [pair.op_lt, pair.op_eq, h1, hK.lt_asymm _ _ h1, (hK.lt_ne _ _ h1).1,
      (hK.lt_ne _ _ h1).2]
  · rcases hV.lt_total a.second b.second with h2 | h2 | h2
    · left
      simp [pair.op_lt, pair.op_eq, h1, hK.lt_irrefl, hK.eq_self, h2, hV.lt_asymm _ _ h2,
        (hV.lt_ne _ _ h2).1]
    · right; left
      simp [pair.op_lt, pair.op_eq, h1, h2, hK.lt_irrefl, hV.lt_irrefl, hK.eq_self,
        hV.eq_self]
    · right; right
      simp [pair.op_lt, pair.op_eq, h1, hK.lt_irrefl, hK.eq_self, h2, hV.lt_asymm _ _ h2,
        (hV.lt_ne _ _ h2).2]
  · right; right
    simp [pair.op_lt, pair.op_eq, h1, hK.lt_asymm _ _ h1, (hK.lt_ne _ _ h1).1,
      (hK.lt_ne _ _ h1).2]

theorem pair_lt_trans (cK : Comparison K) (cV : Comparison V)
    (hK : strict_total_order cK) (hV : strict_total_order cV) (a b d : pair K V)
    (h1 : pair.op_lt cK cV a b = true) (h2 : pair.op_lt cK cV b d = true) :
    pair.op_lt cK cV a d = true := by
  simp only [pair.op_lt, Bool.or_eq_true, Bool.and_eq_true] at h1 h2 ⊢
  rcases h1 with h1 | ⟨e1, l1⟩
  · rcases h2 with h2 | ⟨e2, _⟩
    · exact Or.inl (hK.lt_trans _ _ _ h1 h2)
    · have := (hK.eq_iff _ _).mp e2
      rw [this] at h1
      exact Or.inl h1
  · have ea := (hK.eq_iff _ _).mp e1
    rcases h2 with h2 | ⟨e2, l2⟩
    · rw [← ea] at h2
      exact Or.inl h2
    · have eb := (hK.eq_iff _ _).mp e2
      exact Or.inr ⟨(hK.eq_iff _ _).mpr (ea.trans eb), hV.lt_trans _ _ _ l1 l2⟩

/-- C24: the order of pairs is a strict total order when the orders of the components are.
For `K` and `V` strictly totally ordered by their `<`, with `==` as equality, `operator<` on
`pair<K, V>` is irreflexive and transitive; for all `a`, `b` exactly one of `a < b`,
`a == b`, `b < a` holds; `a <= b` holds exactly when `a < b` or `a == b`; and `a == b` holds
exactly for equal pairs. -/
theorem pair_strict_total_order (cK : Comparison K) (cV : Comparison V)
    (hK : strict_total_order cK) (hV : strict_total_order cV) (a b d : pair K V) :
    pair.op_lt cK cV a a = false ∧
    (pair.op_lt cK cV a b = true → pair.op_lt cK cV b d = true →
      pair.op_lt cK cV a d = true) ∧
    ((pair.op_lt cK cV a b = true ∧ pair.op_eq cK cV a b = false ∧
        pair.op_lt cK cV b a = false) ∨
     (pair.op_lt cK cV a b = false ∧ pair.op_eq cK cV a b = true ∧
        pair.op_lt cK cV b a = false) ∨
     (pair.op_lt cK cV a b = false ∧ pair.op_eq cK cV a b = false ∧
        pair.op_lt cK cV b a = true)) ∧
    (pair.op_le cK cV a b = true ↔
      (pair.op_lt cK cV a b = true ∨ pair.op_eq cK cV a b = true)) ∧
    (pair.op_eq cK cV a b = true ↔ a = b) := by
  refine ⟨?_, pair_lt_trans cK cV hK hV a b d, pair_trichotomy cK cV hK hV a b, ?_, ?_⟩
  · simp [pair.op_lt, hK.lt_irrefl, hV.lt_irrefl]
  · rcases pair_trichotomy cK cV hK hV a b with ⟨h1, h2, h3⟩ | ⟨h1, h2, h3⟩ | ⟨h1, h2, h3⟩ <;>
      simp [pair.op_le, h1, h2, h3]
  · cases a with
    | mk a1 a2 =>
      cases b with
      | mk b1 b2 =>
        simp [pair.op_eq, hK.eq_iff, hV.eq_iff]

/-- Witness of `pair_strict_total_order`: pairs of natural numbers. -/
theorem pair_strict_total_order_witness :
    (strict_total_order nat_comparison) ∧
    pair.op_lt nat_comparison nat_comparison
      { first := 1, second := 5 } { first := 1, second := 5 } = false ∧
    (pair.op_le nat_comparison nat_comparison
      { first := 1, second := 5 } { first := 2, second := 0 } = true ↔
      (pair.op_lt nat_comparison nat_comparison
        { first := 1, second := 5 } { first := 2, second := 0 } = true ∨
       pair.op_eq nat_comparison nat_comparison
        { first := 1, second := 5 } { first := 2, second := 0 } = true)) :=
  ⟨nat_comparison_order,
   (pair_strict_total_order nat_comparison nat_comparison nat_comparison_order
      nat_comparison_order { first := 1, second := 5 } { first := 1, second := 5 }
      { first := 1, second := 5 }).1,
   (pair_strict_total_order nat_comparison nat_comparison nat_comparison_order
      nat_comparison_order { first := 1, second := 5 } { first := 2, second := 0 }
      { first := 3, second := 0 }).2.2.2.1⟩

/-! ## reverse_iterator -/

/-- C25 (the code at the failing input): `a` wraps base position 5 and `b = a + 2` wraps
base position 3, two steps further along the reverse traversal. The difference `b - a` is
`2 > 0`, but `a < b` is false and `b < a` is true: `operator<` compares the bases in
forward order, `lhs.base() < rhs.base()`, while `operator-`, `operator+` and `operator++`
run backwards. For all reverse iterators `a < b` holds exactly when `b - a < 0`, so `r < ++r`
is false for every `r`; `(r + n) - r = n` does hold for every `n`. -/
theorem reverse_iterator_order_inverted :
    (reverse_iterator.plus { current := 5 } 2 = { current := 3 } ∧
     reverse_iterator.difference { current := 3 } { current := 5 } = 2 ∧
     reverse_iterator.op_lt { current := 5 } { current := 3 } = false ∧
     reverse_iterator.op_lt { current := 3 } { current := 5 } = true ∧
     reverse_iterator.op_lt { current := 5 }
       (reverse_iterator.pre_increment { current := 5 }) = false) ∧
    (∀ a b : reverse_iterator,
      reverse_iterator.op_lt a b = true ↔ reverse_iterator.difference b a < 0) ∧
    (∀ r : reverse_iterator, reverse_iterator.op_lt r r.pre_increment = false ∧
      reverse_iterator.op_lt r.pre_increment r = true) ∧
    (∀ (r : reverse_iterator) (n : Int), reverse_iterator.difference (r.plus n) r = n) := by
  refine ⟨⟨by decide, by decide, by decide, by decide, by decide⟩, ?_, ?_, ?_⟩
  · intro a b
    simp only [reverse_iterator.op_lt, reverse_iterator.difference, reverse_iterator.base,
      decide_eq_true_eq]
    omega
  · intro r
    simp only [reverse_iterator.op_lt, reverse_iterator.pre_increment, reverse_iterator.base,
      decide_eq_true_eq, decide_eq_false_iff_not]
    omega
  · intro r n
    simp only [reverse_iterator.difference, reverse_iterator.plus, reverse_iterator.base]
    omega

/-- C26: addressing through a reverse iterator `r` that wraps base position `p`. `*r`
designates the element at position `p - 1` and leaves `r.base()` unchanged; `++r` makes the
base `p - 1` and `--r` makes it `p + 1`; `(r + n).base()` is `p - n` and `(r - n).base()` is
`p + n`; `r[n]` designates the element at position `p - n - 1`; and `(r + n) - n` has the
base of `r`. The postfix and compound forms change the base in the same way. -/
theorem reverse_iterator_addressing (p n : Int) :
    (reverse_iterator.deref { current := p }).1 = p - 1 ∧
    (reverse_iterator.deref { current := p }).2.base = p ∧
    reverse_iterator.arrow { current := p } = p - 1 ∧
    (reverse_iterator.pre_increment { current := p }).base = p - 1 ∧
    (reverse_iterator.pre_decrement { current := p }).base = p + 1 ∧
    (reverse_iterator.plus { current := p } n).base = p - n ∧
    (reverse_iterator.minus { current := p } n).base = p + n ∧
    reverse_iterator.index { current := p } n = p - n - 1 ∧
    ((reverse_iterator.plus { current := p } n).minus n).base
      = reverse_iterator.base { current := p } ∧
    ((reverse_iterator.post_increment { current := p }).1.base = p - 1 ∧
     (reverse_iterator.post_increment { current := p }).2.base = p ∧
     (reverse_iterator.post_decrement { current := p }).1.base = p + 1 ∧
     (reverse_iterator.post_decrement { current := p }).2.base = p ∧
     (reverse_iterator.add_assign { current := p } n).1.base = p - n ∧
     (reverse_iterator.sub_assign { current := p } n).1.base = p + n) := by
  refine ⟨rfl, rfl, rfl, rfl, rfl, rfl, rfl, rfl, ?_, rfl, rfl, rfl, rfl, rfl, rfl⟩
  simp only [reverse_iterator.plus, reverse_iterator.minus, reverse_iterator.base]
  omega

end laistl
